import Mathlib

/-!
# RoofGrid layout calculators

A shallow embedding of `calculateVertical` (batten gauge up a rafter) and
`calculateHorizontal` (tile spacing across a roof width).

JavaScript numbers are modelled as exact rationals: every request field is a
finite number, `Math.floor`, `Math.ceil` and `Math.round` are the integer
floor, ceiling and round-half-up, and `/` is exact division.  The one division
whose divisor can be zero on a request with non-zero gauges, `/(n - 1)` in the
full-course tier, is modelled with its IEEE outcome (`clampRoundDiv`).
Requests whose gauge, or cover width plus spacing, is zero divide by zero while
the candidate counts are bounded and are outside the model; the theorems state
this as a hypothesis.  String flags stay strings, compared as the source does.

One computation is rounded as the source's binary64 numbers round it: the
split-gauge tier feeds the quotient `gauge1` back into the product
`n1 * gauge1`, and the rounding of that quotient, of the product and of what is
derived from it decides `gauge2` (`toDouble`, `gauge1`, `gauge2`).  The sums and
differences of request fields that enter it are exact, as they are in binary64
for integer fields.
-/

namespace RoofGrid

/-! ## Shared arithmetic -/

/-- Rounding of `Math.round`: the nearest integer, a tie going up. -/
def jsRound (x : ℚ) : ℚ := ((⌊x + 1 / 2⌋ : ℤ) : ℚ)

/-- The repeated `Math.round(Math.min(Math.max(x, lo), hi))`. -/
def clampRound (x lo hi : ℚ) : ℚ := jsRound (min (max x lo) hi)

/-- The expression `Math.round(Math.min(Math.max(a / b, lo), hi))` where `b` may be
zero: `a / 0` is `+Infinity` for `a > 0` (clamped to `hi`), `-Infinity` for
`a < 0` (clamped to `min lo hi`) and `NaN` for `a = 0`, returned as `none`. -/
def clampRoundDiv (a b lo hi : ℚ) : Option ℚ :=
  if b = 0 then
    if a = 0 then none
    else if 0 < a then some (jsRound hi)
    else some (jsRound (min lo hi))
  else some (clampRound (a / b) lo hi)

/-- The number of halvings that bring `n` below 2, at most `fuel` of them: with
`fuel = n` the position of the leading binary digit of `n`. -/
def bitLength : ℕ → ℕ → ℕ
  | 0, _ => 0
  | fuel + 1, n => if 2 ≤ n then bitLength fuel (n / 2) + 1 else 0

/-- The binary exponent of a non-zero `x`: the `e` with `2 ^ e ≤ |x| < 2 ^ (e + 1)`,
found from the leading digits of numerator and denominator. -/
def binade (x : ℚ) : ℤ :=
  let e : ℤ := (bitLength x.num.natAbs x.num.natAbs : ℤ) - (bitLength x.den x.den : ℤ)
  if (2 : ℚ) ^ e ≤ |x| then e else e - 1

/-- The nearest integer, a tie going to the even one. -/
def roundHalfEven (x : ℚ) : ℤ :=
  let f := ⌊x⌋
  if x - f < 1 / 2 then f
  else if 1 / 2 < x - f then f + 1
  else if f % 2 = 0 then f else f + 1

/-- The binary64 number a JavaScript operation returns for the exact result `x`:
`x` rounded to 53 significant binary digits, a tie going to the even
significand.  The exponent range is not modelled (no overflow, no
subnormals). -/
def toDouble (x : ℚ) : ℚ :=
  if x = 0 then 0
  else
    let ulp := (2 : ℚ) ^ (binade x - 52)
    (roundHalfEven (x / ulp) : ℚ) * ulp

/-- The spread `Math.max(...xs)`; both calculators reject an empty list before
taking it, so the value on `[]` is never used. -/
def listMax : List ℚ → ℚ
  | [] => 0
  | x :: xs => xs.foldl max x

/-- All entries of a mapped list, or `none` when one entry is missing (a `null`
width result, or a `NaN` rafter result). -/
def allResults {α : Type} : List (Option α) → Option (List α)
  | [] => some []
  | none :: _ => none
  | some a :: rest =>
    match allResults rest with
    | some as => some (a :: as)
    | none => none

/-! ## calculateVertical -/

/-- The request of `calculateVertical`. -/
structure VerticalInputs where
  rafterHeights : List ℚ
  gutterOverhang : ℚ
  materialType : String
  slateTileHeight : ℚ
  maxGauge : ℚ
  minGauge : ℚ
  useDryRidge : String

/-- Entry of `rafterResults` in a `full` solution. -/
structure FullRafterResult where
  battenGauge : ℚ
  effectiveRidgeOffset : ℚ
deriving DecidableEq

/-- Entry of `rafterResults` in a `split` solution. -/
structure SplitRafterResult where
  gauge1 : ℚ
  gauge2 : ℚ
  effectiveRidgeOffset : ℚ
deriving DecidableEq

/-- Entry of `rafterResults` in a `cut` solution. -/
structure CutRafterResult where
  cutCourseGauge : ℚ
  fullCourses : ℤ
  effectiveRidgeOffset : ℚ
deriving DecidableEq

/-- The `solution` object of `calculateVertical`, by its `type`. -/
inductive VerticalSolution where
  | full (n_spaces : ℤ) (rafterResults : List FullRafterResult)
  | split (n_spaces n1 n2 : ℤ) (rafterResults : List SplitRafterResult)
  | cut (n_spaces : ℤ) (rafterResults : List CutRafterResult)
deriving DecidableEq

/-- One sentence of the `Warning` text: the below-threshold advisory, or the
`Computed total ... differs` message of one rafter (numbered from 1). -/
inductive VerticalWarning where
  | belowThreshold
  | totalDiffers (computedTotal : ℚ) (rafter : ℕ) (rafterHeight difference : ℚ)
deriving DecidableEq

/-- The record returned by `calculateVertical`; an absent key is `none`.  The
`Gauge` and `Split Gauge` texts `count @ gauge` are kept as pairs. -/
structure VerticalResult where
  inputRafter : ℚ
  totalCourses : ℤ
  solution : String
  ridgeOffset : ℚ
  underEaveBatten : Option ℚ
  eaveBatten : Option ℚ
  firstBatten : ℚ
  cutCourse : Option ℚ
  gauge : ℤ × ℚ
  splitGauge : Option (ℤ × ℚ)
  warning : Option (List VerticalWarning)
deriving DecidableEq

/-- Message of the input validation error of `calculateVertical`. -/
def rafterHeightError : String :=
  "Rafter height values must be at least 500mm to calculate a valid vertical gauge solution."

/-- Message of the final `!solution` error of `calculateVertical`. -/
def verticalUnsolvableError : String :=
  "Unable to compute a vertical solution. Please check your inputs: ensure rafter heights are valid and tile specifications (min/max gauge, slate height) are appropriate."

/-- Error raised by reading a property of `rafterResults[0]` or `widthResults[0]`
when that entry is `undefined`. -/
def undefinedEntryError : String :=
  "TypeError: Cannot read properties of undefined"

namespace VerticalInputs

/-- Step 1, lines 22-31. -/
def firstBatten (inp : VerticalInputs) : ℚ :=
  if inp.materialType = "Slate" ∨ inp.materialType = "Fibre Cement Slate" then
    inp.slateTileHeight - inp.gutterOverhang + 25
  else if inp.materialType = "Plain Tile" then
    inp.slateTileHeight - inp.gutterOverhang - 15
  else
    inp.slateTileHeight - inp.gutterOverhang - 25

/-- Step 1, line 21. -/
def eaveBattenAdjustment (inp : VerticalInputs) : ℚ :=
  if inp.materialType = "Plain Tile" then 65 else 0

/-- Step 1, line 32. -/
def eaveBatten (inp : VerticalInputs) : ℚ :=
  if inp.materialType = "Plain Tile" then inp.firstBatten - inp.eaveBattenAdjustment
  else inp.firstBatten - inp.maxGauge

/-- Step 1, line 33. -/
def underEaveBattenValue (inp : VerticalInputs) : ℚ :=
  if inp.materialType = "Fibre Cement Slate" then inp.eaveBatten - 120 else 0

/-- Step 1, line 34. -/
def ridgeOffsetMin (inp : VerticalInputs) : ℚ :=
  if inp.useDryRidge = "YES" then 40 else 25

/-- Step 1, line 35. -/
def ridgeOffsetMax (_inp : VerticalInputs) : ℚ := 65

/-- Step 3, line 39. -/
def maxRafterHeight (inp : VerticalInputs) : ℚ := listMax inp.rafterHeights

/-- Step 3, line 40. -/
def minCourses (inp : VerticalInputs) : ℤ :=
  ⌈(inp.maxRafterHeight - inp.firstBatten - inp.ridgeOffsetMax) / inp.maxGauge⌉ + 1

/-- Step 3, line 41. -/
def maxCourses (inp : VerticalInputs) : ℤ :=
  ⌊(inp.maxRafterHeight - inp.firstBatten - inp.ridgeOffsetMin) / inp.minGauge⌋ + 1

/-- The test inside both `every` calls: the offset lies in the ridge bounds. -/
def withinRidgeOffset (inp : VerticalInputs) (effectiveRidgeOffset : ℚ) : Bool :=
  decide (inp.ridgeOffsetMin ≤ effectiveRidgeOffset) &&
    decide (effectiveRidgeOffset ≤ inp.ridgeOffsetMax)

/-- Step 4, lines 46-51 and 57-62: one rafter at course count `n`, the gauge
anchored at `anchor` (`ridgeOffsetMin`, then `ridgeOffsetMax`); `none` is a
`NaN` gauge, whose offset is `NaN` too. -/
def fullRafter (inp : VerticalInputs) (anchor : ℚ) (n : ℤ) (rafterHeight : ℚ) :
    Option FullRafterResult :=
  match clampRoundDiv (rafterHeight - inp.firstBatten - anchor) ((n : ℚ) - 1)
      inp.minGauge inp.maxGauge with
  | none => none
  | some roundedBattenGauge =>
    some { battenGauge := roundedBattenGauge
           effectiveRidgeOffset :=
             rafterHeight - (inp.firstBatten + ((n : ℚ) - 1) * roundedBattenGauge) }

/-- Step 4, lines 46-56 (and 57-67): the rafter results of course count `n` at
one anchor, when every rafter's offset passes `withinRidgeOffset` (a `NaN`
offset fails it). -/
def fullCandidate (inp : VerticalInputs) (anchor : ℚ) (n : ℤ) :
    Option (List FullRafterResult) :=
  match allResults (inp.rafterHeights.map (inp.fullRafter anchor n)) with
  | none => none
  | some rafterResults =>
    if rafterResults.all (fun r => inp.withinRidgeOffset r.effectiveRidgeOffset) then
      some rafterResults
    else none

/-- Step 4, lines 45-68: the loop `for (n = ...; n <= maxCourses; n++)` with
`count` iterations left, starting at `n`. -/
def fullLoop (inp : VerticalInputs) : ℕ → ℤ → Option VerticalSolution
  | 0, _ => none
  | count + 1, n =>
    match inp.fullCandidate inp.ridgeOffsetMin n with
    | some rafterResults => some (.full n rafterResults)
    | none =>
      match inp.fullCandidate inp.ridgeOffsetMax n with
      | some rafterResultsMax => some (.full n rafterResultsMax)
      | none => fullLoop inp count (n + 1)

/-- Step 4: the full-course tier over `minCourses..maxCourses`. -/
def fullTier (inp : VerticalInputs) : Option VerticalSolution :=
  inp.fullLoop (inp.maxCourses - inp.minCourses + 1).toNat inp.minCourses

/-- Step 5, line 80: `gauge1`, the quotient as a binary64 number. -/
def gauge1 (inp : VerticalInputs) (n1 : ℤ) (rafterHeight : ℚ) : ℚ :=
  toDouble ((rafterHeight - inp.firstBatten - inp.ridgeOffsetMin - inp.maxGauge) / (n1 : ℚ))

/-- Step 5, line 81: `gauge2`; the product `n1 * gauge1`, its difference from the
length above the first batten and the quotient by `n2` are each rounded to
binary64. -/
def gauge2 (inp : VerticalInputs) (n1 n2 : ℤ) (rafterHeight : ℚ) : ℚ :=
  toDouble (toDouble (rafterHeight - inp.firstBatten - inp.ridgeOffsetMin
    - toDouble ((n1 : ℚ) * inp.gauge1 n1 rafterHeight)) / (n2 : ℚ))

/-- Step 5, lines 80-88: one rafter at split point `n1`, `n2`. -/
def splitRafter (inp : VerticalInputs) (n1 n2 : ℤ) (rafterHeight : ℚ) : SplitRafterResult :=
  let roundedGauge1 := clampRound (inp.gauge1 n1 rafterHeight) inp.minGauge inp.maxGauge
  let roundedGauge2 := clampRound (inp.gauge2 n1 n2 rafterHeight) inp.minGauge inp.maxGauge
  let remainder := rafterHeight - inp.firstBatten - inp.ridgeOffsetMin
    - ((n1 : ℚ) * roundedGauge1 + (n2 : ℚ) * roundedGauge2)
  { gauge1 := roundedGauge1
    gauge2 := roundedGauge2
    effectiveRidgeOffset := inp.ridgeOffsetMin + remainder }

/-- Step 5, lines 73-93: the body of the inner loop at `n`, `n1`; `none` when the
body ends in `continue` or falls through without a solution.  (`maxGauge1`,
`maxGauge2` and their rounded values are computed and never read.) -/
def splitCandidate (inp : VerticalInputs) (n n1 : ℤ) : Option VerticalSolution :=
  let n2 := (n - 2) - n1
  if n2 ≤ 0 then none
  else
    let rafterResults := inp.rafterHeights.map (inp.splitRafter n1 n2)
    if rafterResults.all (fun r => inp.withinRidgeOffset r.effectiveRidgeOffset) then
      some (.split n n1 n2 rafterResults)
    else none

/-- Step 5, lines 72-94: the loop `for (n1 = ...; n1 <= n - 2; n1++)` with `count`
iterations left, starting at `n1`. -/
def splitInnerLoop (inp : VerticalInputs) (n : ℤ) : ℕ → ℤ → Option VerticalSolution
  | 0, _ => none
  | count + 1, n1 =>
    match inp.splitCandidate n n1 with
    | some solution => some solution
    | none => splitInnerLoop inp n count (n1 + 1)

/-- Step 5, lines 71-97: the loop over `n` with `count` iterations left. -/
def splitLoop (inp : VerticalInputs) : ℕ → ℤ → Option VerticalSolution
  | 0, _ => none
  | count + 1, n =>
    match inp.splitInnerLoop n (n - 2).toNat 1 with
    | some solution => some solution
    | none => splitLoop inp count (n + 1)

/-- Step 5: the split-gauge tier over `minCourses..maxCourses`. -/
def splitTier (inp : VerticalInputs) : Option VerticalSolution :=
  inp.splitLoop (inp.maxCourses - inp.minCourses + 1).toNat inp.minCourses

/-- Step 6, line 101. -/
def fullCourses (inp : VerticalInputs) : ℤ :=
  ⌊(inp.maxRafterHeight - inp.firstBatten - inp.ridgeOffsetMin) / inp.maxGauge⌋

/-- Step 6, lines 103-108: one rafter of the cut-course tier. -/
def cutRafter (inp : VerticalInputs) (rafterHeight : ℚ) : CutRafterResult :=
  let cutCourseGauge := rafterHeight - inp.firstBatten - inp.ridgeOffsetMin
    - (inp.fullCourses : ℚ) * inp.maxGauge
  let roundedCutCourseGauge := jsRound cutCourseGauge
  { cutCourseGauge := roundedCutCourseGauge
    fullCourses := inp.fullCourses
    effectiveRidgeOffset :=
      rafterHeight - (inp.firstBatten + roundedCutCourseGauge
        + (inp.fullCourses : ℚ) * inp.maxGauge) }

/-- Step 6, lines 101-109: the cut-course tier. -/
def cutTier (inp : VerticalInputs) : VerticalSolution :=
  .cut (inp.fullCourses + 1) (inp.rafterHeights.map inp.cutRafter)

/-- Steps 4-6: the value of `solution` when line 111 is reached; each later tier
runs only `if (!solution)`. -/
def solve (inp : VerticalInputs) : Option VerticalSolution :=
  match inp.fullTier with
  | some solution => some solution
  | none =>
    match inp.splitTier with
    | some solution => some solution
    | none => some inp.cutTier

/-- Step 7, lines 116-121: `hasInvalidGauge`. -/
def hasInvalidGauge (inp : VerticalInputs) : VerticalSolution → Bool
  | .full _ rafterResults => rafterResults.any (fun r => decide (r.battenGauge < inp.minGauge))
  | .split _ _ _ rafterResults =>
    rafterResults.any (fun r =>
      decide (r.gauge1 < inp.minGauge) || decide (r.gauge2 < inp.minGauge))
  | .cut _ rafterResults => rafterResults.any (fun r => decide (r.cutCourseGauge < 75))

/-- Step 8, lines 131-132: `computedTotal` of a `full` solution. -/
def computedTotalFull (inp : VerticalInputs) (n_spaces : ℤ) (result : FullRafterResult) : ℚ :=
  inp.firstBatten + ((n_spaces : ℚ) - 1) * result.battenGauge + result.effectiveRidgeOffset

/-- Step 8, lines 133-134: `computedTotal` of a `split` solution. -/
def computedTotalSplit (inp : VerticalInputs) (n1 n2 : ℤ) (result : SplitRafterResult) : ℚ :=
  inp.firstBatten
    + ((n1 : ℚ) * result.gauge1 + (n2 : ℚ) * result.gauge2 + result.effectiveRidgeOffset)

/-- Step 8, line 135: `computedTotal` of a `cut` solution. -/
def computedTotalCut (inp : VerticalInputs) (result : CutRafterResult) : ℚ :=
  inp.firstBatten + result.cutCourseGauge + (result.fullCourses : ℚ) * inp.maxGauge
    + result.effectiveRidgeOffset

/-- Step 8, line 127. -/
def tolerance : ℚ := 3

/-- Step 8, lines 128-141: the messages of the rafters from position `index` on,
each rafter height beside its entry of `rafterResults`. -/
def totalWarningsFrom {ρ : Type} (computedTotal : ρ → ℚ) :
    ℕ → List ℚ → List ρ → List VerticalWarning
  | index, rafterHeight :: heights, result :: results =>
    let difference := |rafterHeight - computedTotal result|
    if difference > tolerance then
      .totalDiffers (computedTotal result) (index + 1) rafterHeight difference
        :: totalWarningsFrom computedTotal (index + 1) heights results
    else totalWarningsFrom computedTotal (index + 1) heights results
  | _, _, _ => []

/-- Step 8, lines 128-141: `totalWarnings`. -/
def totalWarnings (inp : VerticalInputs) : VerticalSolution → List VerticalWarning
  | .full n_spaces rafterResults =>
    totalWarningsFrom (inp.computedTotalFull n_spaces) 0 inp.rafterHeights rafterResults
  | .split _ n1 n2 rafterResults =>
    totalWarningsFrom (inp.computedTotalSplit n1 n2) 0 inp.rafterHeights rafterResults
  | .cut _ rafterResults =>
    totalWarningsFrom inp.computedTotalCut 0 inp.rafterHeights rafterResults

/-- Steps 7-8, lines 115-144: the sentences of `warning`, in order. -/
def warnings (inp : VerticalInputs) (solution : VerticalSolution) : List VerticalWarning :=
  (if inp.hasInvalidGauge solution then [VerticalWarning.belowThreshold] else [])
    ++ inp.totalWarnings solution

/-- Line 149: the `Solution` text of a solution. -/
def solutionName : VerticalSolution → String
  | .full _ _ => "Full Courses"
  | .split _ _ _ _ => "Split Gauge"
  | .cut _ _ => "Cut Course"

/-- Lines 146-158: the returned record, built from `solution` and the first entry
of its `rafterResults`; a missing first entry raises a `TypeError`. -/
def buildRecord (inp : VerticalInputs) (inputRafter : ℚ) (solution : VerticalSolution) :
    Except String VerticalResult :=
  let underEave : Option ℚ :=
    if inp.materialType = "Fibre Cement Slate" then some inp.underEaveBattenValue else none
  let eave : Option ℚ :=
    if inp.materialType = "Slate" ∨ inp.materialType = "Fibre Cement Slate"
        ∨ inp.materialType = "Plain Tile" then some inp.eaveBatten
    else none
  let warning : Option (List VerticalWarning) :=
    if inp.warnings solution = [] then none else some (inp.warnings solution)
  match solution with
  | .full n_spaces (first :: _) =>
    .ok { inputRafter := inputRafter
          totalCourses := n_spaces
          solution := solutionName solution
          ridgeOffset := first.effectiveRidgeOffset
          underEaveBatten := underEave
          eaveBatten := eave
          firstBatten := inp.firstBatten
          cutCourse := none
          gauge := (n_spaces - 1, first.battenGauge)
          splitGauge := none
          warning := warning }
  | .split n_spaces _ n2 (first :: _) =>
    .ok { inputRafter := inputRafter
          totalCourses := n_spaces
          solution := solutionName solution
          ridgeOffset := first.effectiveRidgeOffset
          underEaveBatten := underEave
          eaveBatten := eave
          firstBatten := inp.firstBatten
          cutCourse := none
          gauge := (n_spaces - 1, first.gauge1)
          splitGauge := some (n2, first.gauge2)
          warning := warning }
  | .cut n_spaces (first :: _) =>
    .ok { inputRafter := inputRafter
          totalCourses := n_spaces
          solution := solutionName solution
          ridgeOffset := first.effectiveRidgeOffset
          underEaveBatten := underEave
          eaveBatten := eave
          firstBatten := inp.firstBatten
          cutCourse := some first.cutCourseGauge
          gauge := (first.fullCourses, inp.maxGauge)
          splitGauge := none
          warning := warning }
  | _ => .error undefinedEntryError

end VerticalInputs

/-- The function `calculateVertical`: the validation of lines 16-18, the tiers,
the `!solution` check of lines 112-114 and the record. -/
def calculateVertical (inputs : VerticalInputs) : Except String VerticalResult :=
  match inputs.rafterHeights with
  | [] => .error rafterHeightError
  | inputRafter :: rest =>
    if (inputRafter :: rest).any (fun h => decide (h < 500)) then .error rafterHeightError
    else
      match inputs.solve with
      | none => .error verticalUnsolvableError
      | some solution => inputs.buildRecord inputRafter solution

/-! ## calculateHorizontal -/

/-- The request of `calculateHorizontal`. -/
structure HorizontalInputs where
  widths : List ℚ
  tileCoverWidth : ℚ
  minSpacing : ℚ
  maxSpacing : ℚ
  useDryVerge : String
  abutmentSide : String
  useLHTile : String
  lhTileWidth : ℚ
  crossBonded : String

/-- Entry of `widthResults` in a `full` solution. -/
structure FullWidthResult where
  totalWidth : ℚ
  overhangLeft : ℚ
  overhangRight : ℚ
  firstMark : ℚ
  secondMark : Option ℚ
  totalSets : ℤ
  adjustedMarks : ℚ
  actualSpacing : ℚ
deriving DecidableEq

/-- Entry of `widthResults` in a `split` solution. -/
structure SplitWidthResult where
  totalWidth : ℚ
  overhangLeft : ℚ
  overhangRight : ℚ
  firstMark : ℚ
  secondMark : Option ℚ
  sets1 : ℤ
  sets2 : ℤ
  adjustedMarks1 : ℚ
  adjustedMarks2 : ℚ
  spacing1 : ℚ
  spacing2 : ℚ
deriving DecidableEq

/-- Entry of `widthResults` in a `cut` solution. -/
structure CutWidthResult where
  totalWidth : ℚ
  overhangLeft : ℚ
  overhangRight : ℚ
  firstMark : ℚ
  secondMark : Option ℚ
  totalSets : ℤ
  adjustedMarks : ℚ
  actualSpacing : ℚ
  cutTileWidth : ℚ
deriving DecidableEq

/-- The `solution` object of `calculateHorizontal`, by its `type`. -/
inductive HorizontalSolution where
  | full (widthResults : List FullWidthResult)
  | split (widthResults : List SplitWidthResult)
  | cut (widthResults : List CutWidthResult)
deriving DecidableEq

/-- The record returned by `calculateHorizontal`; an absent key is `none`.  The key
`2nd Mark` is present when cross-bonded, its value possibly `undefined`; the
`Marks` and `Split Marks` texts `sets sets of setSize @ marks` are kept as
triples. -/
structure HorizontalResult where
  width : ℚ
  solution : String
  newWidth : ℚ
  lhOverhang : Option ℚ
  rhOverhang : Option ℚ
  cutTile : Option ℚ
  firstMark : ℚ
  secondMark : Option (Option ℚ)
  marks : ℤ × ℚ × ℚ
  splitMarks : Option (ℤ × ℚ × ℚ)
deriving DecidableEq

/-- Message of the input validation error of `calculateHorizontal`. -/
def widthError : String :=
  "Width values must be at least 500mm to calculate a valid horizontal solution."

/-- Message of the final `!solution` error of `calculateHorizontal`. -/
def horizontalUnsolvableError : String :=
  "Unable to compute a horizontal solution. Please check your inputs: ensure widths are valid and tile specifications (tile cover width, min/max spacing) are appropriate."

namespace HorizontalInputs

/-- Step 1, lines 20-37: `overhangLeft` after the abutment branches. -/
def overhangLeft (inp : HorizontalInputs) : ℚ :=
  if inp.abutmentSide = "LEFT" then 0
  else if inp.abutmentSide = "RIGHT" then (if inp.useDryVerge = "YES" then 40 else 50)
  else if inp.abutmentSide = "BOTH" then 0
  else (if inp.useDryVerge = "YES" then 40 else 50)

/-- Step 1, lines 21-37: `overhangRight` after the abutment branches. -/
def overhangRight (inp : HorizontalInputs) : ℚ :=
  if inp.abutmentSide = "LEFT" then (if inp.useDryVerge = "YES" then 40 else 50)
  else if inp.abutmentSide = "RIGHT" then 0
  else if inp.abutmentSide = "BOTH" then 0
  else (if inp.useDryVerge = "YES" then 40 else 50)

/-- Step 1, line 22. -/
def minOverhang (inp : HorizontalInputs) : ℚ :=
  if inp.useDryVerge = "YES" then 20 else 25

/-- Step 1, line 23. -/
def maxOverhang (inp : HorizontalInputs) : ℚ :=
  if inp.useDryVerge = "YES" then 40 else 75

/-- Step 1, lines 24-37. -/
def widthReduction (inp : HorizontalInputs) : ℚ :=
  if inp.abutmentSide = "LEFT" then 5
  else if inp.abutmentSide = "RIGHT" then 5
  else if inp.abutmentSide = "BOTH" then 10
  else 0

/-- Step 1, lines 38-39: `useDryVerge` after the reassignment. -/
def dryVergeFlag (inp : HorizontalInputs) : String :=
  if inp.abutmentSide ≠ "NONE" then "NO" else inp.useDryVerge

/-- Step 1, lines 38-40: `useLHTile` after the reassignment. -/
def lhTileFlag (inp : HorizontalInputs) : String :=
  if inp.abutmentSide ≠ "NONE" then "NO" else inp.useLHTile

/-- The repeated `(useLHTile === 'YES' ? 1 : 0)`. -/
def lhCount (inp : HorizontalInputs) : ℤ :=
  if inp.lhTileFlag = "YES" then 1 else 0

/-- The repeated `(useLHTile === 'YES' ? lhTileWidth : 0)`. -/
def lhWidth (inp : HorizontalInputs) : ℚ :=
  if inp.lhTileFlag = "YES" then inp.lhTileWidth else 0

/-- Step 1, line 42. -/
def setSize (inp : HorizontalInputs) : ℚ :=
  if inp.tileCoverWidth > 300 then 2 else 3

/-- Step 2, line 44. -/
def desiredTotalWidths (inp : HorizontalInputs) : List ℚ :=
  inp.widths.map (fun width => width + inp.overhangLeft + inp.overhangRight - inp.widthReduction)

/-- Step 2, line 45. -/
def maxDesiredTotalWidth (inp : HorizontalInputs) : ℚ := listMax inp.desiredTotalWidths

/-- Step 3, line 47. -/
def remainingWidth (inp : HorizontalInputs) : ℚ :=
  if inp.lhTileFlag = "YES" then inp.maxDesiredTotalWidth - inp.lhTileWidth
  else inp.maxDesiredTotalWidth

/-- Step 4, line 49. -/
def maxCoverWidth (inp : HorizontalInputs) : ℚ := inp.tileCoverWidth + inp.maxSpacing

/-- Step 4, line 50. -/
def minCoverWidth (inp : HorizontalInputs) : ℚ := inp.tileCoverWidth + inp.minSpacing

/-- Step 4, lines 51-56. -/
def minTileCount (inp : HorizontalInputs) : ℤ :=
  ⌊inp.remainingWidth / inp.maxCoverWidth⌋ + inp.lhCount

/-- Step 4, lines 52-56. -/
def maxTileCount (inp : HorizontalInputs) : ℤ :=
  ⌊inp.remainingWidth / inp.minCoverWidth⌋ + inp.lhCount

/-- Lines 73-82 (and 130-141, 204-215): the left overhang of one width, the gap
between desired and tiled width halved, clamped and rounded, then forced to 0
on an abutment side. -/
def newOverhangLeft (inp : HorizontalInputs) (desiredTotalWidth tiledWidth : ℚ) : ℚ :=
  if inp.abutmentSide = "LEFT" ∨ inp.abutmentSide = "BOTH" then 0
  else clampRound (inp.overhangLeft - (desiredTotalWidth - tiledWidth) / 2)
    inp.minOverhang inp.maxOverhang

/-- Lines 73-85 (and 130-144, 204-218): the right overhang of one width. -/
def newOverhangRight (inp : HorizontalInputs) (desiredTotalWidth tiledWidth : ℚ) : ℚ :=
  if inp.abutmentSide = "RIGHT" ∨ inp.abutmentSide = "BOTH" then 0
  else clampRound (inp.overhangRight - (desiredTotalWidth - tiledWidth) / 2)
    inp.minOverhang inp.maxOverhang

/-- Lines 86-87 (and 145-146): the condition under which a width result is `null`. -/
def overhangOutOfBounds (inp : HorizontalInputs) (newOverhangLeft newOverhangRight : ℚ) : Bool :=
  decide ((inp.abutmentSide ≠ "LEFT" ∧ inp.abutmentSide ≠ "BOTH"
      ∧ (newOverhangLeft < inp.minOverhang ∨ newOverhangLeft > inp.maxOverhang))
    ∨ (inp.abutmentSide ≠ "RIGHT" ∧ inp.abutmentSide ≠ "BOTH"
      ∧ (newOverhangRight < inp.minOverhang ∨ newOverhangRight > inp.maxOverhang)))

/-- Line 90 (and 149, 219): `firstMark` before rounding. -/
def firstMark (inp : HorizontalInputs) (spacing newOverhangLeft : ℚ) : ℚ :=
  inp.lhTileWidth + (inp.tileCoverWidth + spacing) * (inp.setSize - 1)
    - (inp.overhangLeft - newOverhangLeft)

/-- Lines 91 and 102 (and 150/164, 220/231): the `secondMark` entry; it is
`undefined` unless cross-bonded, and also when the unrounded mark is 0. -/
def secondMark (inp : HorizontalInputs) (spacing firstMark : ℚ) : Option ℚ :=
  if inp.crossBonded = "YES" then
    let secondMark := firstMark + (inp.tileCoverWidth + spacing) / 2
    if secondMark = 0 then none else some (jsRound secondMark)
  else none

/-- Line 92 (and 221): `totalSets`. -/
def totalSets (inp : HorizontalInputs) (tilesWide : ℤ) : ℤ :=
  if tilesWide > 1 then ⌊((tilesWide : ℚ) - 1) / inp.setSize⌋ else 0

/-- Lines 93-96 (and 153-158, 222-225): `adjustedMarks`. -/
def adjustedMarks (inp : HorizontalInputs) (spacing : ℚ) : ℚ :=
  clampRound (inp.setSize * (inp.tileCoverWidth + spacing))
    (inp.setSize * (inp.tileCoverWidth + inp.minSpacing))
    (inp.setSize * (inp.tileCoverWidth + inp.maxSpacing))

/-- Step 5, line 62. -/
def regularTiles (inp : HorizontalInputs) (tilesWide : ℤ) : ℤ := tilesWide - inp.lhCount

/-- Step 5, lines 65-66. -/
def roundedCoverWidth (inp : HorizontalInputs) (tilesWide : ℤ) : ℤ :=
  ⌊inp.remainingWidth / (inp.regularTiles tilesWide : ℚ)⌋

/-- Step 5, line 67: `actualSpacing` of the full tier. -/
def fullSpacing (inp : HorizontalInputs) (tilesWide : ℤ) : ℚ :=
  (inp.roundedCoverWidth tilesWide : ℚ) - inp.tileCoverWidth

/-- Step 5, line 71: `tiledWidth` of the full tier. -/
def fullTiledWidth (inp : HorizontalInputs) (tilesWide : ℤ) : ℚ :=
  (inp.regularTiles tilesWide : ℚ) * (inp.roundedCoverWidth tilesWide : ℚ) + inp.lhWidth

/-- Step 5, lines 72-107: the result of one width, `none` for `null`. -/
def fullWidth (inp : HorizontalInputs) (tilesWide : ℤ) (desiredTotalWidth : ℚ) :
    Option FullWidthResult :=
  let newOverhangLeft := inp.newOverhangLeft desiredTotalWidth (inp.fullTiledWidth tilesWide)
  let newOverhangRight := inp.newOverhangRight desiredTotalWidth (inp.fullTiledWidth tilesWide)
  if inp.overhangOutOfBounds newOverhangLeft newOverhangRight then none
  else
    let firstMark := inp.firstMark (inp.fullSpacing tilesWide) newOverhangLeft
    some { totalWidth := desiredTotalWidth
           overhangLeft := newOverhangLeft
           overhangRight := newOverhangRight
           firstMark := jsRound firstMark
           secondMark := inp.secondMark (inp.fullSpacing tilesWide) firstMark
           totalSets := inp.totalSets tilesWide
           adjustedMarks := inp.adjustedMarks (inp.fullSpacing tilesWide)
           actualSpacing := inp.fullSpacing tilesWide }

/-- Step 5, lines 61-112: the loop body at `tileCount`; `none` when the body ends
in `continue`. -/
def fullCandidate (inp : HorizontalInputs) (tileCount : ℤ) : Option (List FullWidthResult) :=
  if inp.regularTiles tileCount ≤ 0 then none
  else if inp.fullSpacing tileCount < inp.minSpacing
      ∨ inp.fullSpacing tileCount > inp.maxSpacing then none
  else allResults (inp.desiredTotalWidths.map (inp.fullWidth tileCount))

/-- Step 5, lines 59-113: the loop `for (tileCount = ...; tileCount <= maxTileCount;
tileCount++)` with `count` iterations left, starting at `tileCount`; it
returns the final `tilesWide` (the last count tried, `tilesWide` itself when
none is left) and the solution's width results. -/
def fullLoop (inp : HorizontalInputs) : ℕ → ℤ → ℤ → ℤ × Option (List FullWidthResult)
  | 0, _, tilesWide => (tilesWide, none)
  | count + 1, tileCount, _ =>
    match inp.fullCandidate tileCount with
    | some widthResults => (tileCount, some widthResults)
    | none => fullLoop inp count (tileCount + 1) tileCount

/-- Step 5: the full tier over `minTileCount..maxTileCount`, `tilesWide` starting
at 0. -/
def fullTier (inp : HorizontalInputs) : ℤ × Option (List FullWidthResult) :=
  inp.fullLoop (inp.maxTileCount - inp.minTileCount + 1).toNat inp.minTileCount 0

/-- The repeated `(tilesWide - lh) * tileCoverWidth + (lh ? lhTileWidth : 0)` of
steps 6 and 7: the tiles without their gaps. -/
def tilesOnlyWidth (inp : HorizontalInputs) (tilesWide : ℤ) : ℚ :=
  ((tilesWide - inp.lhCount : ℤ) : ℚ) * inp.tileCoverWidth + inp.lhWidth

/-- Step 6, lines 121-128: `spacing1` and `spacing2` of one width. -/
def splitSpacings (inp : HorizontalInputs) (tilesWide n1 n2 : ℤ) (desiredTotalWidth : ℚ) :
    ℚ × ℚ :=
  let spacing2 := clampRound
    ((desiredTotalWidth - (inp.tilesOnlyWidth tilesWide + (n1 : ℚ) * inp.maxSpacing)) / (n2 : ℚ))
    inp.minSpacing inp.maxSpacing
  if spacing2 < (inp.minSpacing + inp.maxSpacing) / 2 then
    let totalSpacing :=
      (desiredTotalWidth - inp.tilesOnlyWidth tilesWide) / ((tilesWide : ℚ) - 1)
    let spacing1 := clampRound totalSpacing inp.minSpacing inp.maxSpacing
    (spacing1, spacing1)
  else (inp.maxSpacing, spacing2)

/-- Step 6, line 129: `tiledWidth` of the split tier. -/
def splitTiledWidth (inp : HorizontalInputs) (tilesWide n1 n2 : ℤ) (spacing1 spacing2 : ℚ) : ℚ :=
  inp.tilesOnlyWidth tilesWide + (n1 : ℚ) * spacing1 + (n2 : ℚ) * spacing2

/-- Step 6, lines 120-172: the result of one width, `none` for `null`. -/
def splitWidth (inp : HorizontalInputs) (tilesWide n1 n2 : ℤ) (desiredTotalWidth : ℚ) :
    Option SplitWidthResult :=
  let spacing1 := (inp.splitSpacings tilesWide n1 n2 desiredTotalWidth).1
  let spacing2 := (inp.splitSpacings tilesWide n1 n2 desiredTotalWidth).2
  let tiledWidth := inp.splitTiledWidth tilesWide n1 n2 spacing1 spacing2
  let newOverhangLeft := inp.newOverhangLeft desiredTotalWidth tiledWidth
  let newOverhangRight := inp.newOverhangRight desiredTotalWidth tiledWidth
  if inp.overhangOutOfBounds newOverhangLeft newOverhangRight then none
  else
    let firstMark := inp.firstMark spacing1 newOverhangLeft
    some { totalWidth := desiredTotalWidth
           overhangLeft := newOverhangLeft
           overhangRight := newOverhangRight
           firstMark := jsRound firstMark
           secondMark := inp.secondMark spacing1 firstMark
           sets1 := ⌊(n1 : ℚ) / inp.setSize⌋
           sets2 := ⌊(n2 : ℚ) / inp.setSize⌋
           adjustedMarks1 := inp.adjustedMarks spacing1
           adjustedMarks2 := inp.adjustedMarks spacing2
           spacing1 := spacing1
           spacing2 := spacing2 }

/-- Step 6, lines 117-177: the loop body at `n1`; `none` when it ends in
`continue`. -/
def splitCandidate (inp : HorizontalInputs) (tilesWide n1 : ℤ) : Option (List SplitWidthResult) :=
  let n2 := (tilesWide - 1) - n1
  if n2 ≤ 0 then none
  else allResults (inp.desiredTotalWidths.map (inp.splitWidth tilesWide n1 n2))

/-- Step 6, lines 116-178: the loop `for (n1 = ...; n1 <= tilesWide - 2; n1++)`
with `count` iterations left, starting at `n1`. -/
def splitLoop (inp : HorizontalInputs) (tilesWide : ℤ) : ℕ → ℤ → Option (List SplitWidthResult)
  | 0, _ => none
  | count + 1, n1 =>
    match inp.splitCandidate tilesWide n1 with
    | some widthResults => some widthResults
    | none => splitLoop inp tilesWide count (n1 + 1)

/-- Step 6: the split tier over `n1 = 1..tilesWide - 2`. -/
def splitTier (inp : HorizontalInputs) (tilesWide : ℤ) : Option (List SplitWidthResult) :=
  inp.splitLoop tilesWide (tilesWide - 2).toNat 1

/-- The repeated `(tilesWide > 1 ? (tilesWide - 1) * x : 0)` of step 7. -/
def gapsTimes (tilesWide : ℤ) (x : ℚ) : ℚ :=
  if tilesWide > 1 then ((tilesWide : ℚ) - 1) * x else 0

/-- The repeated divisor `(tilesWide > 1 ? tilesWide - 1 : 1)` of step 7. -/
def gapDivisor (tilesWide : ℤ) : ℚ :=
  if tilesWide > 1 then (tilesWide : ℚ) - 1 else 1

/-- Step 7, lines 183-191: `actualSpacing` when line 192 is reached. -/
def cutSpacingShrunk (inp : HorizontalInputs) (tilesWide : ℤ) : ℚ :=
  let tiledWidth := inp.tilesOnlyWidth tilesWide + gapsTimes tilesWide inp.maxSpacing
  if tiledWidth > inp.maxDesiredTotalWidth then
    let excessWidth := tiledWidth - inp.maxDesiredTotalWidth
    let spacingReduction := excessWidth / gapDivisor tilesWide
    jsRound (max (inp.maxSpacing - spacingReduction) inp.minSpacing)
  else inp.maxSpacing

/-- Step 7, line 192: `cutTileWidth` before the enlargement test. -/
def cutWidthRemainder (inp : HorizontalInputs) (tilesWide : ℤ) : ℚ :=
  inp.maxDesiredTotalWidth
    - gapsTimes tilesWide (inp.tileCoverWidth + inp.cutSpacingShrunk tilesWide)
    - (if inp.lhTileFlag = "YES" then inp.lhTileWidth else inp.tileCoverWidth)

/-- Step 7, line 193: the enlargement test. -/
def cutTooSmall (inp : HorizontalInputs) (tilesWide : ℤ) : Bool :=
  decide (inp.cutWidthRemainder tilesWide < inp.tileCoverWidth / 2) &&
    decide (inp.cutWidthRemainder tilesWide < 100)

/-- Step 7, lines 183-200: the final `actualSpacing` of the cut tier. -/
def cutSpacing (inp : HorizontalInputs) (tilesWide : ℤ) : ℚ :=
  if inp.cutTooSmall tilesWide then
    let targetCutWidth := max (inp.tileCoverWidth / 2) 100
    let targetTiledWidth := inp.maxDesiredTotalWidth - targetCutWidth
    let totalSpacing := (targetTiledWidth - inp.tilesOnlyWidth tilesWide) / gapDivisor tilesWide
    clampRound totalSpacing inp.minSpacing inp.maxSpacing
  else inp.cutSpacingShrunk tilesWide

/-- Step 7, lines 192-201: the final, rounded `cutTileWidth`. -/
def cutTileWidth (inp : HorizontalInputs) (tilesWide : ℤ) : ℚ :=
  if inp.cutTooSmall tilesWide then
    jsRound (inp.maxDesiredTotalWidth
      - (inp.tilesOnlyWidth tilesWide + gapsTimes tilesWide (inp.cutSpacing tilesWide)))
  else jsRound (inp.cutWidthRemainder tilesWide)

/-- Step 7, line 203: `tiledWidth` of the cut tier. -/
def cutTiledWidth (inp : HorizontalInputs) (tilesWide : ℤ) (actualSpacing cutTileWidth : ℚ) : ℚ :=
  gapsTimes tilesWide (inp.tileCoverWidth + actualSpacing)
    + (if inp.lhTileFlag = "YES" then inp.lhTileWidth else inp.tileCoverWidth) + cutTileWidth

/-- Step 7, lines 202-237: the result of one width; no bound is checked. -/
def cutWidth (inp : HorizontalInputs) (tilesWide : ℤ) (desiredTotalWidth : ℚ) : CutWidthResult :=
  let actualSpacing := inp.cutSpacing tilesWide
  let tiledWidth := inp.cutTiledWidth tilesWide actualSpacing (inp.cutTileWidth tilesWide)
  let newOverhangLeft := inp.newOverhangLeft desiredTotalWidth tiledWidth
  let newOverhangRight := inp.newOverhangRight desiredTotalWidth tiledWidth
  let firstMark := inp.firstMark actualSpacing newOverhangLeft
  { totalWidth := desiredTotalWidth
    overhangLeft := newOverhangLeft
    overhangRight := newOverhangRight
    firstMark := jsRound firstMark
    secondMark := inp.secondMark actualSpacing firstMark
    totalSets := inp.totalSets tilesWide
    adjustedMarks := inp.adjustedMarks actualSpacing
    actualSpacing := actualSpacing
    cutTileWidth := inp.cutTileWidth tilesWide }

/-- Step 7: the cut tier. -/
def cutTier (inp : HorizontalInputs) (tilesWide : ℤ) : List CutWidthResult :=
  inp.desiredTotalWidths.map (inp.cutWidth tilesWide)

/-- The redistributed overhangs of one width, `overhang - (desired - tiled) / 2` on
each side, already lie within the overhang bounds, so that the clamp of lines
77-78 (136-137, 210-211) leaves them unchanged. -/
def overhangsUnclamped (inp : HorizontalInputs) (desiredTotalWidth tiledWidth : ℚ) : Prop :=
  (inp.minOverhang ≤ inp.overhangLeft - (desiredTotalWidth - tiledWidth) / 2
    ∧ inp.overhangLeft - (desiredTotalWidth - tiledWidth) / 2 ≤ inp.maxOverhang)
  ∧ (inp.minOverhang ≤ inp.overhangRight - (desiredTotalWidth - tiledWidth) / 2
    ∧ inp.overhangRight - (desiredTotalWidth - tiledWidth) / 2 ≤ inp.maxOverhang)

/-- Steps 5-7: the final `tilesWide` and the value of `solution` when line 241 is
reached; each later tier runs only `if (!solution)`. -/
def solve (inp : HorizontalInputs) : ℤ × Option HorizontalSolution :=
  match inp.fullTier with
  | (tilesWide, some widthResults) => (tilesWide, some (.full widthResults))
  | (tilesWide, none) =>
    match inp.splitTier tilesWide with
    | some widthResultsSplit => (tilesWide, some (.split widthResultsSplit))
    | none => (tilesWide, some (.cut (inp.cutTier tilesWide)))

/-- Line 247: the `Solution` text of a solution. -/
def solutionName : HorizontalSolution → String
  | .full _ => "Even Sets"
  | .split _ => "Split Sets"
  | .cut _ => "Cut Course"

/-- Lines 249-250: whether the overhang keys are present. -/
def showsOverhangs (inp : HorizontalInputs) : Bool :=
  decide (inp.dryVergeFlag = "NO") && decide (inp.abutmentSide = "NONE")

/-- Lines 245-256: the returned record, built from `solution` and the first entry
of its `widthResults`; a missing first entry raises a `TypeError`. -/
def buildRecord (inp : HorizontalInputs) (width : ℚ) (solution : HorizontalSolution) :
    Except String HorizontalResult :=
  match solution with
  | .full (first :: _) =>
    .ok { width := width
          solution := solutionName solution
          newWidth := first.totalWidth
          lhOverhang := if inp.showsOverhangs then some first.overhangLeft else none
          rhOverhang := if inp.showsOverhangs then some first.overhangRight else none
          cutTile := none
          firstMark := first.firstMark
          secondMark := if inp.crossBonded = "YES" then some first.secondMark else none
          marks := (first.totalSets, inp.setSize, first.adjustedMarks)
          splitMarks := none }
  | .split (first :: _) =>
    .ok { width := width
          solution := solutionName solution
          newWidth := first.totalWidth
          lhOverhang := if inp.showsOverhangs then some first.overhangLeft else none
          rhOverhang := if inp.showsOverhangs then some first.overhangRight else none
          cutTile := none
          firstMark := first.firstMark
          secondMark := if inp.crossBonded = "YES" then some first.secondMark else none
          marks := (first.sets2, inp.setSize, first.adjustedMarks2)
          splitMarks := some (first.sets1, inp.setSize, first.adjustedMarks1) }
  | .cut (first :: _) =>
    .ok { width := width
          solution := solutionName solution
          newWidth := first.totalWidth
          lhOverhang := if inp.showsOverhangs then some first.overhangLeft else none
          rhOverhang := if inp.showsOverhangs then some first.overhangRight else none
          cutTile := some first.cutTileWidth
          firstMark := first.firstMark
          secondMark := if inp.crossBonded = "YES" then some first.secondMark else none
          marks := (first.totalSets, inp.setSize, first.adjustedMarks)
          splitMarks := none }
  | _ => .error undefinedEntryError

end HorizontalInputs

/-- The function `calculateHorizontal`: the validation of lines 16-18, the tiers,
the `!solution` check of lines 241-243 and the record. -/
def calculateHorizontal (inputs : HorizontalInputs) : Except String HorizontalResult :=
  match inputs.widths with
  | [] => .error widthError
  | width :: rest =>
    if (width :: rest).any (fun w => decide (w < 500)) then .error widthError
    else
      match inputs.solve.2 with
      | none => .error horizontalUnsolvableError
      | some solution => inputs.buildRecord width solution

/-! ## Concrete requests -/

/-- Scenario A of the specification: one 3000 mm width, no abutment. -/
def scenarioA : HorizontalInputs :=
  { widths := [3000], tileCoverWidth := 300, minSpacing := 10, maxSpacing := 40,
    useDryVerge := "NO", abutmentSide := "NONE", useLHTile := "NO", lhTileWidth := 0,
    crossBonded := "NO" }

/-- Scenario B of the specification: scenario A with a left abutment. -/
def scenarioB : HorizontalInputs := { scenarioA with abutmentSide := "LEFT" }

/-- Scenario A with a second, shorter width in the batch. -/
def twoWidths : HorizontalInputs := { scenarioA with widths := [3000, 2000] }

/-- Scenario D of the specification, horizontal: a 400 mm width. -/
def narrowWidth : HorizontalInputs := { scenarioA with widths := [400] }

/-- Scenario C of the specification: one 2500 mm rafter of plain tiles. -/
def scenarioC : VerticalInputs :=
  { rafterHeights := [2500], gutterOverhang := 50, materialType := "Plain Tile",
    slateTileHeight := 265, maxGauge := 345, minGauge := 280, useDryRidge := "NO" }

/-- Scenario C with a 2324 mm rafter, whose full-course gauge is clamped at
`maxGauge`. -/
def clampedGauge : VerticalInputs := { scenarioC with rafterHeights := [2324] }

/-- A 500 mm rafter under a 600 mm tile: the first batten lies above the ridge and
the full tier accepts a course count of 0. -/
def shortRafter : VerticalInputs :=
  { rafterHeights := [500], gutterOverhang := 0, materialType := "Tile",
    slateTileHeight := 600, maxGauge := 120, minGauge := 100, useDryRidge := "NO" }

/-- Scenario D of the specification, vertical: a 400 mm rafter. -/
def shortHeight : VerticalInputs := { scenarioC with rafterHeights := [400] }

/-- The record `calculateHorizontal` returns on scenario A. -/
def scenarioAResult : HorizontalResult :=
  { width := 3000, solution := "Even Sets", newWidth := 3100, lhOverhang := some 50,
    rhOverhang := some 50, cutTile := none, firstMark := 620, secondMark := none,
    marks := (3, 3, 930), splitMarks := none }

/-- The width result of scenario A. -/
def scenarioAWidthResult : FullWidthResult :=
  { totalWidth := 3100, overhangLeft := 50, overhangRight := 50, firstMark := 620,
    secondMark := none, totalSets := 3, adjustedMarks := 930, actualSpacing := 10 }

/-- The record `calculateVertical` returns on scenario C. -/
def scenarioCResult : VerticalResult :=
  { inputRafter := 2500, totalCourses := 8, solution := "Full Courses", ridgeOffset := 25,
    underEaveBatten := none, eaveBatten := some 135, firstBatten := 200, cutCourse := none,
    gauge := (7, 325), splitGauge := none, warning := none }

/-- The rafter result of scenario C. -/
def scenarioCRafterResult : FullRafterResult :=
  { battenGauge := 325, effectiveRidgeOffset := 25 }


/-- Scenario C with a 620 mm rafter: the cut-course tier with a 50 mm cut course. -/
def lowCutCourse : VerticalInputs := { scenarioC with rafterHeights := [620] }

/-- A 2500 mm slate rafter with gauges 50..70: full courses at a gauge below 75. -/
def lowGauge : VerticalInputs :=
  { rafterHeights := [2500], gutterOverhang := 50, materialType := "Slate",
    slateTileHeight := 500, maxGauge := 70, minGauge := 50, useDryRidge := "NO" }

/-- Scenario A with a 3050 mm width and spacing 10..12: no tile count has its
spacing in range and the split tier answers. -/
def splitSets : HorizontalInputs := { scenarioA with widths := [3050], maxSpacing := 12 }

/-- The width result of `splitSets`. -/
def splitSetsWidthResult : SplitWidthResult :=
  { totalWidth := 3150, overhangLeft := 29, overhangRight := 29, firstMark := 603,
    secondMark := none, sets1 := 0, sets2 := 2, adjustedMarks1 := 936, adjustedMarks2 := 936,
    spacing1 := 12, spacing2 := 12 }

/-- The record `calculateHorizontal` returns on `splitSets`. -/
def splitSetsResult : HorizontalResult :=
  { width := 3050, solution := "Split Sets", newWidth := 3150, lhOverhang := some 29,
    rhOverhang := some 29, cutTile := none, firstMark := 603, secondMark := none,
    marks := (2, 3, 936), splitMarks := some (0, 3, 936) }

namespace HorizontalInputs

/-- Step 7, lines 194-196: `totalSpacing`, the spacing re-derived for the target cut
width `Math.max(tileCoverWidth / 2, 100)`, before it is clamped and rounded. -/
def cutTotalSpacing (inp : HorizontalInputs) (tilesWide : ℤ) : ℚ :=
  (inp.maxDesiredTotalWidth - max (inp.tileCoverWidth / 2) 100 - inp.tilesOnlyWidth tilesWide)
    / gapDivisor tilesWide

end HorizontalInputs

/-- Scenario A with a 600 mm width: two tiles, a 60 mm remainder, and a re-derived
spacing clamped at `minSpacing`. -/
def smallCutTile : HorizontalInputs := { scenarioA with widths := [600] }

/-- A 500 mm width between two abutments with a 194.4 mm cover width and spacing
0..3.9: the remainder 97.3 is not below half the cover width, 97.2. -/
def fractionalCover : HorizontalInputs :=
  { widths := [500], tileCoverWidth := 1944 / 10, minSpacing := 0, maxSpacing := 39 / 10,
    useDryVerge := "NO", abutmentSide := "BOTH", useLHTile := "NO", lhTileWidth := 0,
    crossBonded := "NO" }

/-- A 530 mm width between two abutments with a 200 mm cover width: the remainder
80 is enlarged to 100 by the re-derived spacing 20, inside 10..40. -/
def enlargedCutTile : HorizontalInputs :=
  { widths := [530], tileCoverWidth := 200, minSpacing := 10, maxSpacing := 40,
    useDryVerge := "NO", abutmentSide := "BOTH", useLHTile := "NO", lhTileWidth := 0,
    crossBonded := "NO" }

/-- Scenario B with `useDryVerge = "YES"`. -/
def scenarioBDryVerge : HorizontalInputs := { scenarioB with useDryVerge := "YES" }

/-- Scenario B with a 150 mm leading tile requested. -/
def scenarioBLeadingTile : HorizontalInputs :=
  { scenarioB with useLHTile := "YES", lhTileWidth := 150 }

/-- Scenario B as `calculateHorizontal` returns it. -/
def scenarioBResult : HorizontalResult :=
  { width := 3000, solution := "Even Sets", newWidth := 3045, lhOverhang := none,
    rhOverhang := none, cutTile := none, firstMark := 676, secondMark := none,
    marks := (2, 3, 1014), splitMarks := none }

/-- A 2011 mm slate rafter with gauges 200..255, answered by the split-gauge tier. -/
def splitGaugeRequest : VerticalInputs :=
  { rafterHeights := [2011], gutterOverhang := 50, materialType := "Slate",
    slateTileHeight := 500, maxGauge := 255, minGauge := 200, useDryRidge := "NO" }

/-- The record `calculateVertical` returns on `splitGaugeRequest`. -/
def splitGaugeResult : VerticalResult :=
  { inputRafter := 2011, totalCourses := 8, solution := "Split Gauge", ridgeOffset := 26,
    underEaveBatten := none, eaveBatten := some 220, firstBatten := 475, cutCourse := none,
    gauge := (7, 251), splitGauge := some (1, 255), warning := none }

/-- The 2324 mm rafter of `clampedGauge` with `maxGauge = 350`, answered by the
cut-course tier: 5 full courses and a 349 mm cut course. -/
def cutCourseRequest : VerticalInputs := { clampedGauge with maxGauge := 350 }

/-- The record `calculateVertical` returns on `cutCourseRequest`. -/
def cutCourseResult : VerticalResult :=
  { inputRafter := 2324, totalCourses := 6, solution := "Cut Course", ridgeOffset := 25,
    underEaveBatten := none, eaveBatten := some 135, firstBatten := 200,
    cutCourse := some 349, gauge := (5, 350), splitGauge := none, warning := none }

/-- A batch of three rafters whose split tier is accepted at `n = 17`, `n1 = 13`,
`n2 = 2`, where `maxGauge / n2 = 135.5` is halfway between two integers. -/
def unevenSplitGauge : VerticalInputs :=
  { rafterHeights := [2513, 2650, 2688], gutterOverhang := 50, materialType := "Plain Tile",
    slateTileHeight := 500, maxGauge := 271, minGauge := 129, useDryRidge := "YES" }

/-- The record `calculateVertical` returns on `unevenSplitGauge`. -/
def unevenSplitGaugeResult : VerticalResult :=
  { inputRafter := 2513, totalCourses := 17, solution := "Split Gauge", ridgeOffset := 40,
    underEaveBatten := none, eaveBatten := some 370, firstBatten := 435, cutCourse := none,
    gauge := (16, 136), splitGauge := some (2, 135), warning := none }

/-! ## Rounding, clamping and list lemmas -/

/-- An `Except` value is `.ok a` when the comparison of its payload with `a`
evaluates to `true`. -/
theorem except_eq_ok_of_decide {ε α : Type} [DecidableEq α] (e : Except ε α) (a : α)
    (h : (match e with
      | .ok r => decide (r = a)
      | .error _ => false) = true) : e = .ok a := by
  cases e with
  | error _ => simp at h
  | ok r =>
    simp only [decide_eq_true_eq] at h
    rw [h]

theorem jsRound_le (x : ℚ) : jsRound x ≤ x + 1 / 2 := by
  unfold jsRound
  exact Int.floor_le _

theorem lt_jsRound (x : ℚ) : x - 1 / 2 < jsRound x := by
  unfold jsRound
  have h := Int.lt_floor_add_one (x + 1 / 2)
  linarith

theorem jsRound_intCast (z : ℤ) : jsRound (z : ℚ) = z := by
  unfold jsRound
  have h : ⌊(z : ℚ) + 1 / 2⌋ = z := by
    rw [Int.floor_eq_iff]
    constructor <;> norm_num
  rw [h]

theorem jsRound_mono {x y : ℚ} (h : x ≤ y) : jsRound x ≤ jsRound y := by
  unfold jsRound
  exact_mod_cast Int.floor_mono (by linarith)

/-- Rounding a value clamped between integers stays between them. -/
theorem clampRound_mem (x : ℚ) (lo hi : ℤ) (h : lo ≤ hi) :
    (lo : ℚ) ≤ clampRound x lo hi ∧ clampRound x lo hi ≤ hi := by
  have hq : (lo : ℚ) ≤ hi := by exact_mod_cast h
  unfold clampRound
  constructor
  · calc (lo : ℚ) = jsRound (lo : ℚ) := (jsRound_intCast lo).symm
      _ ≤ jsRound (min (max x lo) hi) := jsRound_mono (le_min (le_max_right _ _) hq)
  · calc jsRound (min (max x lo) hi) ≤ jsRound (hi : ℚ) := jsRound_mono (min_le_right _ _)
      _ = hi := jsRound_intCast hi

theorem clampRound_of_mem {x lo hi : ℚ} (h1 : lo ≤ x) (h2 : x ≤ hi) :
    clampRound x lo hi = jsRound x := by
  unfold clampRound
  rw [max_eq_left h1, min_eq_left h2]

theorem allResults_map {α β : Type} (f : α → Option β) :
    ∀ (l : List α) (rs : List β), allResults (l.map f) = some rs →
      List.Forall₂ (fun a r => f a = some r) l rs
  | [], rs, h => by
    simp [allResults] at h
    subst h
    exact List.Forall₂.nil
  | a :: l, rs, h => by
    simp only [List.map_cons] at h
    cases hfa : f a with
    | none => simp [hfa, allResults] at h
    | some b =>
      rw [hfa] at h
      cases hrest : allResults (l.map f) with
      | none => simp [allResults, hrest] at h
      | some bs =>
        simp [allResults, hrest] at h
        subst h
        exact List.Forall₂.cons hfa (allResults_map f l bs hrest)

theorem allResults_map_of_forall {α β : Type} (f : α → Option β) (g : α → β) :
    ∀ (l : List α), (∀ a ∈ l, f a = some (g a)) → allResults (l.map f) = some (l.map g)
  | [], _ => by simp [allResults]
  | a :: l, h => by
    have ha : f a = some (g a) := h a (List.mem_cons_self _ _)
    have hl := allResults_map_of_forall f g l (fun b hb => h b (List.mem_cons_of_mem _ hb))
    simp [allResults, ha, hl]

/-! ## The loops of calculateHorizontal -/

namespace HorizontalInputs

theorem fullLoop_some_horizontal (inp : HorizontalInputs) :
    ∀ (count : ℕ) (tileCount tilesWide0 tilesWide : ℤ) (rs : List FullWidthResult),
      inp.fullLoop count tileCount tilesWide0 = (tilesWide, some rs) →
      inp.fullCandidate tilesWide = some rs ∧ tileCount ≤ tilesWide ∧
        tilesWide < tileCount + count ∧
        ∀ j, tileCount ≤ j → j < tilesWide → inp.fullCandidate j = none
  | 0, _, _, _, _, h => by simp [fullLoop] at h
  | count + 1, tileCount, _, tilesWide, rs, h => by
    unfold fullLoop at h
    cases hc : inp.fullCandidate tileCount with
    | some widthResults =>
      rw [hc] at h
      simp only [Prod.mk.injEq, Option.some.injEq] at h
      obtain ⟨h1, h2⟩ := h
      subst h1 h2
      refine ⟨hc, le_refl _, ?_, ?_⟩
      · push_cast; linarith
      · intro j hj1 hj2; omega
    | none =>
      rw [hc] at h
      obtain ⟨h1, h2, h3, h4⟩ := fullLoop_some_horizontal inp count (tileCount + 1) tileCount tilesWide rs h
      refine ⟨h1, by omega, by push_cast; omega, ?_⟩
      intro j hj1 hj2
      rcases eq_or_lt_of_le hj1 with heq | hlt
      · rw [← heq]; exact hc
      · exact h4 j (by omega) hj2

theorem fullLoop_none_horizontal (inp : HorizontalInputs) :
    ∀ (count : ℕ) (tileCount tilesWide0 tilesWide : ℤ),
      inp.fullLoop count tileCount tilesWide0 = (tilesWide, none) →
      (∀ j, tileCount ≤ j → j < tileCount + count → inp.fullCandidate j = none) ∧
        tilesWide = if count = 0 then tilesWide0 else tileCount + count - 1
  | 0, _, _, _, h => by
    simp only [fullLoop, Prod.mk.injEq, and_true] at h
    refine ⟨fun j h1 h2 => ?_, by simp [h]⟩
    simp at h2; omega
  | count + 1, tileCount, _, tilesWide, h => by
    unfold fullLoop at h
    cases hc : inp.fullCandidate tileCount with
    | some widthResults => rw [hc] at h; simp at h
    | none =>
      rw [hc] at h
      obtain ⟨h1, h2⟩ := fullLoop_none_horizontal inp count (tileCount + 1) tileCount tilesWide h
      refine ⟨?_, ?_⟩
      · intro j hj1 hj2
        rcases eq_or_lt_of_le hj1 with heq | hlt
        · rw [← heq]; exact hc
        · exact h1 j (by omega) (by push_cast at hj2; omega)
      · rw [h2]
        by_cases h0 : count = 0
        · simp [h0]
        · simp [h0]; ring

theorem fullLoop_of_candidate_horizontal (inp : HorizontalInputs) :
    ∀ (count : ℕ) (tileCount tilesWide0 k : ℤ), tileCount ≤ k → k < tileCount + count →
      (inp.fullCandidate k).isSome = true →
      ∃ tilesWide rs, inp.fullLoop count tileCount tilesWide0 = (tilesWide, some rs)
  | 0, _, _, k, h1, h2, _ => by simp at h2; omega
  | count + 1, tileCount, _, k, h1, h2, h3 => by
    unfold fullLoop
    cases hc : inp.fullCandidate tileCount with
    | some widthResults => exact ⟨tileCount, widthResults, rfl⟩
    | none =>
      have hne : tileCount ≠ k := by
        intro heq; rw [heq] at hc; simp [hc] at h3
      exact fullLoop_of_candidate_horizontal inp count (tileCount + 1) tileCount k (by omega)
        (by push_cast at h2; omega) h3

theorem fullLoop_cases (inp : HorizontalInputs) (count : ℕ) (tileCount tilesWide0 : ℤ) :
    ∃ tilesWide o, inp.fullLoop count tileCount tilesWide0 = (tilesWide, o) :=
  ⟨_, _, rfl⟩

theorem splitLoop_some_horizontal (inp : HorizontalInputs) (tilesWide : ℤ) :
    ∀ (count : ℕ) (n1 : ℤ) (rs : List SplitWidthResult),
      inp.splitLoop tilesWide count n1 = some rs →
      ∃ m, n1 ≤ m ∧ m < n1 + count ∧ inp.splitCandidate tilesWide m = some rs ∧
        ∀ j, n1 ≤ j → j < m → inp.splitCandidate tilesWide j = none
  | 0, _, _, h => by simp [splitLoop] at h
  | count + 1, n1, rs, h => by
    unfold splitLoop at h
    cases hc : inp.splitCandidate tilesWide n1 with
    | some widthResults =>
      rw [hc] at h
      simp only [Option.some.injEq] at h
      subst h
      exact ⟨n1, le_refl _, by push_cast; omega, hc, fun j h1 h2 => by omega⟩
    | none =>
      rw [hc] at h
      obtain ⟨m, h1, h2, h3, h4⟩ := splitLoop_some_horizontal inp tilesWide count (n1 + 1) rs h
      refine ⟨m, by omega, by push_cast; omega, h3, ?_⟩
      intro j hj1 hj2
      rcases eq_or_lt_of_le hj1 with heq | hlt
      · rw [← heq]; exact hc
      · exact h4 j (by omega) hj2

theorem fullCandidate_length (inp : HorizontalInputs) (tileCount : ℤ) (rs : List FullWidthResult)
    (h : inp.fullCandidate tileCount = some rs) : rs.length = inp.widths.length := by
  unfold fullCandidate at h
  split_ifs at h
  have := (allResults_map _ _ _ h).length_eq
  simp [desiredTotalWidths] at this
  exact this.symm

theorem splitCandidate_length (inp : HorizontalInputs) (tilesWide n1 : ℤ)
    (rs : List SplitWidthResult) (h : inp.splitCandidate tilesWide n1 = some rs) :
    rs.length = inp.widths.length := by
  unfold splitCandidate at h
  simp only at h
  split_ifs at h
  have := (allResults_map _ _ _ h).length_eq
  simp [desiredTotalWidths] at this
  exact this.symm

end HorizontalInputs

/-! ## The loops of calculateVertical -/

namespace VerticalInputs

theorem fullLoop_some_vertical (inp : VerticalInputs) :
    ∀ (count : ℕ) (n : ℤ) (s : VerticalSolution), inp.fullLoop count n = some s →
      ∃ m rs, s = .full m rs ∧ n ≤ m ∧ m < n + count ∧
        (inp.fullCandidate inp.ridgeOffsetMin m = some rs ∨
          (inp.fullCandidate inp.ridgeOffsetMin m = none ∧
            inp.fullCandidate inp.ridgeOffsetMax m = some rs)) ∧
        ∀ j, n ≤ j → j < m → inp.fullCandidate inp.ridgeOffsetMin j = none ∧
          inp.fullCandidate inp.ridgeOffsetMax j = none
  | 0, _, _, h => by simp [fullLoop] at h
  | count + 1, n, s, h => by
    unfold fullLoop at h
    cases h1 : inp.fullCandidate inp.ridgeOffsetMin n with
    | some rs =>
      rw [h1] at h
      simp only [Option.some.injEq] at h
      exact ⟨n, rs, h.symm, le_refl _, by push_cast; omega, Or.inl h1, fun j a b => by omega⟩
    | none =>
      rw [h1] at h
      cases h2 : inp.fullCandidate inp.ridgeOffsetMax n with
      | some rs =>
        rw [h2] at h
        simp only [Option.some.injEq] at h
        exact ⟨n, rs, h.symm, le_refl _, by push_cast; omega, Or.inr ⟨h1, h2⟩,
          fun j a b => by omega⟩
      | none =>
        rw [h2] at h
        obtain ⟨m, rs, hs, hm1, hm2, hc, hj⟩ := fullLoop_some_vertical inp count (n + 1) s h
        refine ⟨m, rs, hs, by omega, by push_cast; omega, hc, ?_⟩
        intro j hj1 hj2
        rcases eq_or_lt_of_le hj1 with heq | hlt
        · rw [← heq]; exact ⟨h1, h2⟩
        · exact hj j (by omega) hj2

theorem fullLoop_of_candidate_vertical (inp : VerticalInputs) :
    ∀ (count : ℕ) (n k : ℤ), n ≤ k → k < n + count →
      ((inp.fullCandidate inp.ridgeOffsetMin k).isSome = true ∨
        (inp.fullCandidate inp.ridgeOffsetMax k).isSome = true) →
      ∃ m rs, inp.fullLoop count n = some (.full m rs)
  | 0, _, k, h1, h2, _ => by simp at h2; omega
  | count + 1, n, k, h1, h2, h3 => by
    unfold fullLoop
    cases hc1 : inp.fullCandidate inp.ridgeOffsetMin n with
    | some rs => exact ⟨n, rs, rfl⟩
    | none =>
      cases hc2 : inp.fullCandidate inp.ridgeOffsetMax n with
      | some rs => exact ⟨n, rs, rfl⟩
      | none =>
        have hne : n ≠ k := by
          intro heq
          rw [heq] at hc1 hc2
          simp [hc1, hc2] at h3
        exact fullLoop_of_candidate_vertical inp count (n + 1) k (by omega)
          (by push_cast at h2; omega) h3

theorem fullLoop_none_vertical (inp : VerticalInputs) :
    ∀ (count : ℕ) (n : ℤ), inp.fullLoop count n = none →
      ∀ j, n ≤ j → j < n + count → inp.fullCandidate inp.ridgeOffsetMin j = none ∧
        inp.fullCandidate inp.ridgeOffsetMax j = none
  | 0, _, _, j, h1, h2 => by simp at h2; omega
  | count + 1, n, h, j, hj1, hj2 => by
    unfold fullLoop at h
    cases hc1 : inp.fullCandidate inp.ridgeOffsetMin n with
    | some rs => rw [hc1] at h; simp at h
    | none =>
      rw [hc1] at h
      cases hc2 : inp.fullCandidate inp.ridgeOffsetMax n with
      | some rs => rw [hc2] at h; simp at h
      | none =>
        rw [hc2] at h
        rcases eq_or_lt_of_le hj1 with heq | hlt
        · rw [← heq]; exact ⟨hc1, hc2⟩
        · exact fullLoop_none_vertical inp count (n + 1) h j (by omega) (by push_cast at hj2; omega)

theorem splitInnerLoop_some (inp : VerticalInputs) (n : ℤ) :
    ∀ (count : ℕ) (n1 : ℤ) (s : VerticalSolution), inp.splitInnerLoop n count n1 = some s →
      ∃ m, n1 ≤ m ∧ m < n1 + count ∧ inp.splitCandidate n m = some s
  | 0, _, _, h => by simp [splitInnerLoop] at h
  | count + 1, n1, s, h => by
    unfold splitInnerLoop at h
    cases hc : inp.splitCandidate n n1 with
    | some s1 =>
      rw [hc] at h
      simp only [Option.some.injEq] at h
      subst h
      exact ⟨n1, le_refl _, by push_cast; omega, hc⟩
    | none =>
      rw [hc] at h
      obtain ⟨m, h1, h2, h3⟩ := splitInnerLoop_some inp n count (n1 + 1) s h
      exact ⟨m, by omega, by push_cast; omega, h3⟩

theorem splitLoop_some_vertical (inp : VerticalInputs) :
    ∀ (count : ℕ) (n : ℤ) (s : VerticalSolution), inp.splitLoop count n = some s →
      ∃ m n1, n ≤ m ∧ m < n + count ∧ 1 ≤ n1 ∧ n1 ≤ m - 2 ∧ inp.splitCandidate m n1 = some s
  | 0, _, _, h => by simp [splitLoop] at h
  | count + 1, n, s, h => by
    unfold splitLoop at h
    cases hc : inp.splitInnerLoop n (n - 2).toNat 1 with
    | some s1 =>
      rw [hc] at h
      simp only [Option.some.injEq] at h
      subst h
      obtain ⟨n1, h1, h2, h3⟩ := inp.splitInnerLoop_some n _ _ _ hc
      exact ⟨n, n1, le_refl _, by push_cast; omega, h1, by omega, h3⟩
    | none =>
      rw [hc] at h
      obtain ⟨m, n1, h1, h2, h3⟩ := splitLoop_some_vertical inp count (n + 1) s h
      exact ⟨m, n1, by omega, by push_cast; omega, h3⟩

/-- A split candidate that is accepted: its shape and its ridge offsets. -/
theorem splitCandidate_some_vertical (inp : VerticalInputs) (n n1 : ℤ) (s : VerticalSolution)
    (h : inp.splitCandidate n n1 = some s) :
    0 < n - 2 - n1 ∧
      s = .split n n1 (n - 2 - n1) (inp.rafterHeights.map (inp.splitRafter n1 (n - 2 - n1))) ∧
      ∀ r ∈ inp.rafterHeights.map (inp.splitRafter n1 (n - 2 - n1)),
        inp.withinRidgeOffset r.effectiveRidgeOffset = true := by
  unfold splitCandidate at h
  simp only at h
  split_ifs at h with h1 h2
  simp only [Option.some.injEq] at h
  refine ⟨by omega, h.symm, ?_⟩
  intro r hr
  exact List.all_eq_true.mp h2 r hr

/-- A full candidate that is accepted: its rafters and their ridge offsets. -/
theorem fullCandidate_some_vertical (inp : VerticalInputs) (anchor : ℚ) (n : ℤ)
    (rs : List FullRafterResult) (h : inp.fullCandidate anchor n = some rs) :
    List.Forall₂ (fun height r => inp.fullRafter anchor n height = some r) inp.rafterHeights rs ∧
      ∀ r ∈ rs, inp.withinRidgeOffset r.effectiveRidgeOffset = true := by
  unfold fullCandidate at h
  cases ha : allResults (inp.rafterHeights.map (inp.fullRafter anchor n)) with
  | none => rw [ha] at h; simp at h
  | some rs1 =>
    rw [ha] at h
    simp only at h
    split_ifs at h with h2
    simp only [Option.some.injEq] at h
    subst h
    exact ⟨allResults_map _ _ _ ha, fun r hr => List.all_eq_true.mp h2 r hr⟩

/-- The three ways the cascade ends. -/
theorem solve_cases_vertical (inp : VerticalInputs) :
    (∃ s, inp.fullTier = some s ∧ inp.solve = some s) ∨
    (∃ s, inp.fullTier = none ∧ inp.splitTier = some s ∧ inp.solve = some s) ∨
    (inp.fullTier = none ∧ inp.splitTier = none ∧ inp.solve = some inp.cutTier) := by
  cases hf : inp.fullTier with
  | some s => exact Or.inl ⟨s, rfl, by simp only [solve, hf]⟩
  | none =>
    cases hs : inp.splitTier with
    | some s => exact Or.inr (Or.inl ⟨s, rfl, rfl, by simp only [solve, hf, hs]⟩)
    | none => exact Or.inr (Or.inr ⟨rfl, rfl, by simp only [solve, hf, hs]⟩)


/-- Shape of a `full` solution of the cascade. -/
theorem solve_full_vertical (inp : VerticalInputs) (n : ℤ) (rs : List FullRafterResult)
    (h : inp.solve = some (.full n rs)) :
    inp.minCourses ≤ n ∧ n ≤ inp.maxCourses ∧
      ∃ anchor, (anchor = inp.ridgeOffsetMin ∨ anchor = inp.ridgeOffsetMax) ∧
        inp.fullCandidate anchor n = some rs := by
  rcases inp.solve_cases_vertical with ⟨s, hf, hs⟩ | ⟨s, _, hsp, hs⟩ | ⟨_, _, hs⟩
  · rw [hs] at h
    simp only [Option.some.injEq] at h
    subst h
    obtain ⟨m, rs1, heq, h1, h2, hc, _⟩ := inp.fullLoop_some_vertical _ _ _ hf
    simp only [VerticalSolution.full.injEq] at heq
    obtain ⟨hn, hrs⟩ := heq
    subst hn hrs
    refine ⟨h1, by omega, ?_⟩
    rcases hc with hc | ⟨_, hc⟩
    · exact ⟨_, Or.inl rfl, hc⟩
    · exact ⟨_, Or.inr rfl, hc⟩
  · rw [hs] at h
    simp only [Option.some.injEq] at h
    subst h
    obtain ⟨m, n1, _, _, _, _, hc⟩ := inp.splitLoop_some_vertical _ _ _ hsp
    have := (inp.splitCandidate_some_vertical m n1 _ hc).2.1
    cases this
  · rw [hs] at h
    simp [cutTier] at h

/-- Shape of a `split` solution of the cascade. -/
theorem solve_split_vertical (inp : VerticalInputs) (n n1 n2 : ℤ) (rs : List SplitRafterResult)
    (h : inp.solve = some (.split n n1 n2 rs)) :
    inp.minCourses ≤ n ∧ n ≤ inp.maxCourses ∧ 1 ≤ n1 ∧ 1 ≤ n2 ∧ n2 = n - 2 - n1 ∧
      rs = inp.rafterHeights.map (inp.splitRafter n1 n2) ∧
      ∀ r ∈ rs, inp.withinRidgeOffset r.effectiveRidgeOffset = true := by
  rcases inp.solve_cases_vertical with ⟨s, hf, hs⟩ | ⟨s, _, hsp, hs⟩ | ⟨_, _, hs⟩
  · rw [hs] at h
    simp only [Option.some.injEq] at h
    subst h
    obtain ⟨m, rs1, heq, _⟩ := inp.fullLoop_some_vertical _ _ _ hf
    cases heq
  · rw [hs] at h
    simp only [Option.some.injEq] at h
    subst h
    obtain ⟨m, k, hm1, hm2, hk1, _, hc⟩ := inp.splitLoop_some_vertical _ _ _ hsp
    obtain ⟨hpos, heq, hall⟩ := inp.splitCandidate_some_vertical m k _ hc
    simp only [VerticalSolution.split.injEq] at heq
    obtain ⟨e1, e2, e3, e4⟩ := heq
    subst e1 e2 e3 e4
    exact ⟨hm1, by omega, hk1, by omega, rfl, rfl, hall⟩
  · rw [hs] at h
    simp [cutTier] at h

/-- Shape of a `cut` solution of the cascade. -/
theorem solve_cut_vertical (inp : VerticalInputs) (n : ℤ) (rs : List CutRafterResult)
    (h : inp.solve = some (.cut n rs)) :
    n = inp.fullCourses + 1 ∧ rs = inp.rafterHeights.map inp.cutRafter := by
  rcases inp.solve_cases_vertical with ⟨s, hf, hs⟩ | ⟨s, _, hsp, hs⟩ | ⟨_, _, hs⟩
  · rw [hs] at h
    simp only [Option.some.injEq] at h
    subst h
    obtain ⟨m, rs1, heq, _⟩ := inp.fullLoop_some_vertical _ _ _ hf
    cases heq
  · rw [hs] at h
    simp only [Option.some.injEq] at h
    subst h
    obtain ⟨m, n1, _, _, _, _, hc⟩ := inp.splitLoop_some_vertical _ _ _ hsp
    have := (inp.splitCandidate_some_vertical m n1 _ hc).2.1
    cases this
  · rw [hs] at h
    simp only [cutTier, Option.some.injEq, VerticalSolution.cut.injEq] at h
    exact ⟨h.1.symm, h.2.symm⟩

/-- The cascade always leaves a solution: the cut tier is unconditional. -/
theorem solve_isSome_vertical (inp : VerticalInputs) : ∃ s, inp.solve = some s := by
  rcases inp.solve_cases_vertical with ⟨s, _, hs⟩ | ⟨s, _, _, hs⟩ | ⟨_, _, hs⟩ <;> exact ⟨_, hs⟩

/-- Every solution of the cascade has one result per rafter. -/
theorem solve_length_vertical (inp : VerticalInputs) (s : VerticalSolution) (h : inp.solve = some s) :
    match s with
    | .full _ rs => rs.length = inp.rafterHeights.length
    | .split _ _ _ rs => rs.length = inp.rafterHeights.length
    | .cut _ rs => rs.length = inp.rafterHeights.length := by
  cases s with
  | full n rs =>
    obtain ⟨_, _, anchor, _, hc⟩ := inp.solve_full_vertical n rs h
    exact (inp.fullCandidate_some_vertical anchor n rs hc).1.length_eq.symm
  | split n n1 n2 rs =>
    obtain ⟨_, _, _, _, _, hrs, _⟩ := inp.solve_split_vertical n n1 n2 rs h
    simp [hrs]
  | cut n rs =>
    obtain ⟨_, hrs⟩ := inp.solve_cut_vertical n rs h
    simp [hrs]

theorem buildRecord_ok_vertical (inp : VerticalInputs) (inputRafter : ℚ) (s : VerticalSolution)
    (h : inp.solve = some s) (hw : inp.rafterHeights ≠ []) :
    ∃ r, inp.buildRecord inputRafter s = .ok r ∧ r.solution = solutionName s := by
  have hlen := inp.solve_length_vertical s h
  have hpos : 0 < inp.rafterHeights.length := List.length_pos.mpr hw
  cases s with
  | full n rs =>
    cases rs with
    | nil => simp at hlen; omega
    | cons a rest => exact ⟨_, rfl, rfl⟩
  | split n n1 n2 rs =>
    cases rs with
    | nil => simp at hlen; omega
    | cons a rest => exact ⟨_, rfl, rfl⟩
  | cut n rs =>
    cases rs with
    | nil => simp at hlen; omega
    | cons a rest => exact ⟨_, rfl, rfl⟩

end VerticalInputs

theorem calculateVertical_of_valid (inp : VerticalInputs)
    (hv : ¬ (inp.rafterHeights = [] ∨ ∃ h ∈ inp.rafterHeights, h < 500)) :
    ∃ s r, inp.solve = some s ∧ calculateVertical inp = .ok r ∧
      r.solution = VerticalInputs.solutionName s ∧
      ∃ inputRafter, inp.buildRecord inputRafter s = .ok r := by
  push_neg at hv
  obtain ⟨hne, hall⟩ := hv
  obtain ⟨s, hs⟩ := inp.solve_isSome_vertical
  unfold calculateVertical
  cases hw : inp.rafterHeights with
  | nil => exact absurd hw hne
  | cons first rest =>
    have hany : (first :: rest).any (fun h => decide (h < 500)) = false := by
      rw [List.any_eq_false]
      intro w hwm
      have := hall w (by rw [hw]; exact hwm)
      simpa using this
    obtain ⟨r, hr, hname⟩ := inp.buildRecord_ok_vertical first s hs hne
    refine ⟨s, r, hs, ?_, hname, first, hr⟩
    simp only [hany, hs]
    simpa using hr

theorem calculateVertical_of_invalid (inp : VerticalInputs)
    (hv : inp.rafterHeights = [] ∨ ∃ h ∈ inp.rafterHeights, h < 500) :
    calculateVertical inp = .error rafterHeightError := by
  unfold calculateVertical
  cases hw : inp.rafterHeights with
  | nil => rfl
  | cons first rest =>
    have hany : (first :: rest).any (fun h => decide (h < 500)) = true := by
      rcases hv with h | ⟨w, hwm, hlt⟩
      · rw [hw] at h; cases h
      · rw [List.any_eq_true]
        exact ⟨w, by rw [← hw]; exact hwm, by simpa using hlt⟩
    simp only [hany]
    rfl

/-- C2: `calculateVertical` raises the rafter-height error when `rafterHeights` is
empty or holds a value below 500, returns a record for every other request
(both gauges non-zero, so that the course counts are finite), whatever its
warnings, and never raises the final "Unable to compute a vertical solution"
error. -/
theorem calculateVertical_fails_iff_invalid_heights (inp : VerticalInputs)
    (hmin : inp.minGauge ≠ 0) (hmax : inp.maxGauge ≠ 0) :
    ((inp.rafterHeights = [] ∨ ∃ h ∈ inp.rafterHeights, h < 500) →
        calculateVertical inp = .error rafterHeightError) ∧
      (¬ (inp.rafterHeights = [] ∨ ∃ h ∈ inp.rafterHeights, h < 500) →
        ∃ r, calculateVertical inp = .ok r) ∧
      ((∃ e, calculateVertical inp = .error e) ↔
        (inp.rafterHeights = [] ∨ ∃ h ∈ inp.rafterHeights, h < 500)) ∧
      calculateVertical inp ≠ .error verticalUnsolvableError := by
  have _ := hmin
  have _ := hmax
  refine ⟨calculateVertical_of_invalid inp, ?_, ?_, ?_⟩
  · intro hv
    obtain ⟨s, r, _, hr, _⟩ := calculateVertical_of_valid inp hv
    exact ⟨r, hr⟩
  · constructor
    · rintro ⟨e, he⟩
      by_contra hv
      obtain ⟨s, r, _, hr, _⟩ := calculateVertical_of_valid inp hv
      rw [hr] at he
      cases he
    · intro hv
      exact ⟨_, calculateVertical_of_invalid inp hv⟩
  · by_cases hv : inp.rafterHeights = [] ∨ ∃ h ∈ inp.rafterHeights, h < 500
    · rw [calculateVertical_of_invalid inp hv]
      intro h
      have : rafterHeightError = verticalUnsolvableError := by injection h
      revert this
      decide
    · obtain ⟨s, r, _, hr, _⟩ := calculateVertical_of_valid inp hv
      rw [hr]
      intro h
      cases h

namespace HorizontalInputs

/-- The three ways the cascade ends, with the final `tilesWide`. -/
theorem solve_cases_horizontal (inp : HorizontalInputs) :
    (∃ tw rs, inp.fullTier = (tw, some rs) ∧ inp.solve = (tw, some (.full rs))) ∨
    (∃ tw rs, inp.fullTier = (tw, none) ∧ inp.splitTier tw = some rs ∧
      inp.solve = (tw, some (.split rs))) ∨
    (∃ tw, inp.fullTier = (tw, none) ∧ inp.splitTier tw = none ∧
      inp.solve = (tw, some (.cut (inp.cutTier tw)))) := by
  rcases hf : inp.fullTier with ⟨tw, o⟩
  cases o with
  | some rs =>
    left
    exact ⟨tw, rs, rfl, by simp only [solve, hf]⟩
  | none =>
    right
    cases hs : inp.splitTier tw with
    | some rs =>
      left
      exact ⟨tw, rs, rfl, hs, by simp only [solve, hf, hs]⟩
    | none =>
      right
      exact ⟨tw, rfl, hs, by simp only [solve, hf, hs]⟩

/-- The cascade always leaves a solution: the cut tier is unconditional. -/
theorem solve_isSome_horizontal (inp : HorizontalInputs) : ∃ s, inp.solve.2 = some s := by
  rcases inp.solve_cases_horizontal with ⟨tw, rs, _, h⟩ | ⟨tw, rs, _, _, h⟩ | ⟨tw, _, _, h⟩ <;>
    exact ⟨_, by rw [h]⟩

/-- Every solution of the cascade has one result per width. -/
theorem solve_length_horizontal (inp : HorizontalInputs) (s : HorizontalSolution)
    (h : inp.solve.2 = some s) :
    match s with
    | .full rs => rs.length = inp.widths.length
    | .split rs => rs.length = inp.widths.length
    | .cut rs => rs.length = inp.widths.length := by
  rcases inp.solve_cases_horizontal with ⟨tw, rs, hf, hs⟩ | ⟨tw, rs, _, hsp, hs⟩ | ⟨tw, _, _, hs⟩
  · rw [hs] at h
    simp only [Option.some.injEq] at h
    subst h
    exact inp.fullCandidate_length tw rs (inp.fullLoop_some_horizontal _ _ _ _ _ hf).1
  · rw [hs] at h
    simp only [Option.some.injEq] at h
    subst h
    obtain ⟨m, _, _, hm, _⟩ := inp.splitLoop_some_horizontal tw _ _ rs hsp
    exact inp.splitCandidate_length tw m rs hm
  · rw [hs] at h
    simp only [Option.some.injEq] at h
    subst h
    simp [cutTier, desiredTotalWidths]

theorem buildRecord_ok_horizontal (inp : HorizontalInputs) (width : ℚ) (s : HorizontalSolution)
    (h : inp.solve.2 = some s) (hw : inp.widths ≠ []) :
    ∃ r, inp.buildRecord width s = .ok r ∧ r.solution = solutionName s := by
  have hlen := inp.solve_length_horizontal s h
  have hpos : 0 < inp.widths.length := List.length_pos.mpr hw
  cases s with
  | full rs =>
    cases rs with
    | nil => simp at hlen; omega
    | cons a rest => exact ⟨_, rfl, rfl⟩
  | split rs =>
    cases rs with
    | nil => simp at hlen; omega
    | cons a rest => exact ⟨_, rfl, rfl⟩
  | cut rs =>
    cases rs with
    | nil => simp at hlen; omega
    | cons a rest => exact ⟨_, rfl, rfl⟩

end HorizontalInputs

theorem calculateHorizontal_of_valid (inp : HorizontalInputs)
    (hv : ¬ (inp.widths = [] ∨ ∃ w ∈ inp.widths, w < 500)) :
    ∃ s r, inp.solve.2 = some s ∧ calculateHorizontal inp = .ok r ∧
      r.solution = HorizontalInputs.solutionName s ∧
      ∃ width, inp.buildRecord width s = .ok r := by
  push_neg at hv
  obtain ⟨hne, hall⟩ := hv
  obtain ⟨s, hs⟩ := inp.solve_isSome_horizontal
  unfold calculateHorizontal
  cases hw : inp.widths with
  | nil => exact absurd hw hne
  | cons width rest =>
    have hany : (width :: rest).any (fun w => decide (w < 500)) = false := by
      rw [List.any_eq_false]
      intro w hwm
      have := hall w (by rw [hw]; exact hwm)
      simpa using this
    obtain ⟨r, hr, hname⟩ := inp.buildRecord_ok_horizontal width s hs hne
    refine ⟨s, r, hs, ?_, hname, width, hr⟩
    simp only [hany, hs]
    simpa using hr

theorem calculateHorizontal_of_invalid (inp : HorizontalInputs)
    (hv : inp.widths = [] ∨ ∃ w ∈ inp.widths, w < 500) :
    calculateHorizontal inp = .error widthError := by
  unfold calculateHorizontal
  cases hw : inp.widths with
  | nil => rfl
  | cons width rest =>
    have hany : (width :: rest).any (fun w => decide (w < 500)) = true := by
      rcases hv with h | ⟨w, hwm, hlt⟩
      · rw [hw] at h; cases h
      · rw [List.any_eq_true]
        exact ⟨w, by rw [← hw]; exact hwm, by simpa using hlt⟩
    simp only [hany]
    rfl

/-- C1: `calculateHorizontal` raises the width error when `widths` is empty or holds
a value below 500, returns a record for every other request (cover width plus
either spacing bound non-zero, so that the tile counts are finite), and never
raises the final "Unable to compute a horizontal solution" error. -/
theorem calculateHorizontal_fails_iff_invalid_widths (inp : HorizontalInputs)
    (hmin : inp.tileCoverWidth + inp.minSpacing ≠ 0)
    (hmax : inp.tileCoverWidth + inp.maxSpacing ≠ 0) :
    ((inp.widths = [] ∨ ∃ w ∈ inp.widths, w < 500) →
        calculateHorizontal inp = .error widthError) ∧
      (¬ (inp.widths = [] ∨ ∃ w ∈ inp.widths, w < 500) →
        ∃ r, calculateHorizontal inp = .ok r) ∧
      ((∃ e, calculateHorizontal inp = .error e) ↔
        (inp.widths = [] ∨ ∃ w ∈ inp.widths, w < 500)) ∧
      calculateHorizontal inp ≠ .error horizontalUnsolvableError := by
  have _ := hmin
  have _ := hmax
  refine ⟨calculateHorizontal_of_invalid inp, ?_, ?_, ?_⟩
  · intro hv
    obtain ⟨s, r, _, hr, _⟩ := calculateHorizontal_of_valid inp hv
    exact ⟨r, hr⟩
  · constructor
    · rintro ⟨e, he⟩
      by_contra hv
      obtain ⟨s, r, _, hr, _⟩ := calculateHorizontal_of_valid inp hv
      rw [hr] at he
      cases he
    · intro hv
      exact ⟨_, calculateHorizontal_of_invalid inp hv⟩
  · by_cases hv : inp.widths = [] ∨ ∃ w ∈ inp.widths, w < 500
    · rw [calculateHorizontal_of_invalid inp hv]
      intro h
      have : widthError = horizontalUnsolvableError := by injection h
      revert this
      decide
    · obtain ⟨s, r, _, hr, _⟩ := calculateHorizontal_of_valid inp hv
      rw [hr]
      intro h
      cases h

namespace VerticalInputs

theorem withinRidgeOffset_iff (inp : VerticalInputs) (x : ℚ) :
    inp.withinRidgeOffset x = true ↔ inp.ridgeOffsetMin ≤ x ∧ x ≤ 65 := by
  simp [withinRidgeOffset, ridgeOffsetMax]

theorem fullRafter_total (inp : VerticalInputs) (anchor : ℚ) (n : ℤ) (height : ℚ)
    (r : FullRafterResult) (h : inp.fullRafter anchor n height = some r) :
    inp.computedTotalFull n r = height := by
  unfold fullRafter at h
  cases hg : clampRoundDiv (height - inp.firstBatten - anchor) ((n : ℚ) - 1)
      inp.minGauge inp.maxGauge with
  | none => rw [hg] at h; simp at h
  | some g =>
    rw [hg] at h
    simp only [Option.some.injEq] at h
    subst h
    simp only [computedTotalFull]
    ring

theorem splitRafter_total (inp : VerticalInputs) (n1 n2 : ℤ) (height : ℚ) :
    inp.computedTotalSplit n1 n2 (inp.splitRafter n1 n2 height) = height := by
  simp only [computedTotalSplit, splitRafter]
  ring

theorem cutRafter_total (inp : VerticalInputs) (height : ℚ) :
    inp.computedTotalCut (inp.cutRafter height) = height := by
  simp only [computedTotalCut, cutRafter]
  ring

theorem clampRoundDiv_mem (x y : ℚ) (lo hi : ℤ) (g : ℚ) (hle : lo ≤ hi)
    (h : clampRoundDiv x y lo hi = some g) : (lo : ℚ) ≤ g ∧ g ≤ hi := by
  have hq : (lo : ℚ) ≤ hi := by exact_mod_cast hle
  unfold clampRoundDiv at h
  split_ifs at h with h1 h2 h3
  · simp only [Option.some.injEq] at h
    rw [← h, jsRound_intCast]
    exact ⟨hq, le_refl _⟩
  · simp only [Option.some.injEq] at h
    rw [← h, min_eq_left hq, jsRound_intCast]
    exact ⟨le_refl _, hq⟩
  · simp only [Option.some.injEq] at h
    rw [← h]
    exact clampRound_mem _ lo hi hle

theorem fullRafter_gauge_mem (inp : VerticalInputs) (anchor : ℚ) (n : ℤ) (height : ℚ)
    (r : FullRafterResult) (a b : ℤ) (ha : inp.minGauge = a) (hb : inp.maxGauge = b)
    (hab : a ≤ b) (h : inp.fullRafter anchor n height = some r) :
    inp.minGauge ≤ r.battenGauge ∧ r.battenGauge ≤ inp.maxGauge := by
  unfold fullRafter at h
  cases hg : clampRoundDiv (height - inp.firstBatten - anchor) ((n : ℚ) - 1)
      inp.minGauge inp.maxGauge with
  | none => rw [hg] at h; simp at h
  | some g =>
    rw [hg] at h
    simp only [Option.some.injEq] at h
    subst h
    rw [ha, hb] at hg ⊢
    exact clampRoundDiv_mem _ _ a b g hab hg

end VerticalInputs

/-- C4: whichever tier `calculateVertical` returns (both gauges non-zero), the total
recomputed by that tier's formula of step 8 differs from each rafter's height
by at most 3 (it is the height itself). -/
theorem calculateVertical_total_within_tolerance (inp : VerticalInputs)
    (hmin : inp.minGauge ≠ 0) (hmax : inp.maxGauge ≠ 0) (rec : VerticalResult)
    (hrec : calculateVertical inp = .ok rec) :
    ∃ s, inp.solve = some s ∧ rec.solution = VerticalInputs.solutionName s ∧
      match s with
      | .full n_spaces rafterResults =>
        List.Forall₂ (fun rafterHeight r =>
          |rafterHeight - inp.computedTotalFull n_spaces r| ≤ 3) inp.rafterHeights rafterResults
      | .split _ n1 n2 rafterResults =>
        List.Forall₂ (fun rafterHeight r =>
          |rafterHeight - inp.computedTotalSplit n1 n2 r| ≤ 3) inp.rafterHeights rafterResults
      | .cut _ rafterResults =>
        List.Forall₂ (fun rafterHeight r =>
          |rafterHeight - inp.computedTotalCut r| ≤ 3) inp.rafterHeights rafterResults := by
  have _ := hmin
  have _ := hmax
  have hv : ¬ (inp.rafterHeights = [] ∨ ∃ h ∈ inp.rafterHeights, h < 500) := by
    intro hv
    rw [calculateVertical_of_invalid inp hv] at hrec
    cases hrec
  obtain ⟨s, r, hs, hr, hname, _⟩ := calculateVertical_of_valid inp hv
  rw [hr] at hrec
  cases hrec
  refine ⟨s, hs, hname, ?_⟩
  cases s with
  | full n rs =>
    obtain ⟨_, _, anchor, _, hc⟩ := inp.solve_full_vertical n rs hs
    refine (inp.fullCandidate_some_vertical anchor n rs hc).1.imp ?_
    intro height r hfr
    rw [inp.fullRafter_total anchor n height r hfr]
    norm_num
  | split n n1 n2 rs =>
    obtain ⟨_, _, _, _, _, hrs, _⟩ := inp.solve_split_vertical n n1 n2 rs hs
    subst hrs
    simp only
    rw [List.forall₂_map_right_iff, List.forall₂_same]
    intro height _
    rw [inp.splitRafter_total]
    norm_num
  | cut n rs =>
    obtain ⟨_, hrs⟩ := inp.solve_cut_vertical n rs hs
    subst hrs
    simp only
    rw [List.forall₂_map_right_iff, List.forall₂_same]
    intro height _
    rw [inp.cutRafter_total]
    norm_num

/-- C6: when `calculateVertical` returns "Full Courses" or "Split Gauge" on a request
with integer gauges `0 < minGauge ≤ maxGauge`, every rafter's accepted gauge
(`battenGauge`, or `gauge1` and `gauge2`) lies in `[minGauge, maxGauge]` and
every rafter's effective ridge offset lies in `[ridgeOffsetMin, 65]`. -/
theorem calculateVertical_full_split_within_bounds (inp : VerticalInputs) (a b : ℤ)
    (ha : inp.minGauge = a) (hb : inp.maxGauge = b) (hpos : 0 < a) (hab : a ≤ b)
    (rec : VerticalResult) (hrec : calculateVertical inp = .ok rec)
    (htier : rec.solution = "Full Courses" ∨ rec.solution = "Split Gauge") :
    (inp.ridgeOffsetMin = if inp.useDryRidge = "YES" then 40 else 25) ∧
    ∃ s, inp.solve = some s ∧ rec.solution = VerticalInputs.solutionName s ∧
      match s with
      | .full _ rafterResults =>
        rafterResults.length = inp.rafterHeights.length ∧
        ∀ r ∈ rafterResults,
          inp.minGauge ≤ r.battenGauge ∧ r.battenGauge ≤ inp.maxGauge ∧
          inp.ridgeOffsetMin ≤ r.effectiveRidgeOffset ∧ r.effectiveRidgeOffset ≤ 65
      | .split _ _ _ rafterResults =>
        rafterResults.length = inp.rafterHeights.length ∧
        ∀ r ∈ rafterResults,
          inp.minGauge ≤ r.gauge1 ∧ r.gauge1 ≤ inp.maxGauge ∧
          inp.minGauge ≤ r.gauge2 ∧ r.gauge2 ≤ inp.maxGauge ∧
          inp.ridgeOffsetMin ≤ r.effectiveRidgeOffset ∧ r.effectiveRidgeOffset ≤ 65
      | .cut _ _ => False := by
  have _ := hpos
  have hv : ¬ (inp.rafterHeights = [] ∨ ∃ h ∈ inp.rafterHeights, h < 500) := by
    intro hv
    rw [calculateVertical_of_invalid inp hv] at hrec
    cases hrec
  obtain ⟨s, r, hs, hr, hname, _⟩ := calculateVertical_of_valid inp hv
  rw [hr] at hrec
  cases hrec
  refine ⟨rfl, s, hs, hname, ?_⟩
  have hlen := inp.solve_length_vertical s hs
  cases s with
  | full n rs =>
    obtain ⟨_, _, anchor, _, hc⟩ := inp.solve_full_vertical n rs hs
    obtain ⟨hf2, hw⟩ := inp.fullCandidate_some_vertical anchor n rs hc
    refine ⟨hlen, ?_⟩
    intro r hr
    have hero := (inp.withinRidgeOffset_iff _).mp (hw r hr)
    obtain ⟨height, _, hfr⟩ : ∃ height, height ∈ inp.rafterHeights ∧
        inp.fullRafter anchor n height = some r := by
      have := List.forall₂_iff_zip.mp hf2
      obtain ⟨i, hi, rfl⟩ := List.getElem_of_mem hr
      have hi2 : i < inp.rafterHeights.length := by rw [hf2.length_eq]; exact hi
      refine ⟨inp.rafterHeights[i], List.getElem_mem _, ?_⟩
      apply this.2
      rw [List.mem_iff_getElem]
      refine ⟨i, by simp [hi, hi2], by simp⟩
    have hg := inp.fullRafter_gauge_mem anchor n height r a b ha hb hab hfr
    exact ⟨hg.1, hg.2, hero.1, hero.2⟩
  | split n n1 n2 rs =>
    obtain ⟨_, _, _, _, _, hrs, hw⟩ := inp.solve_split_vertical n n1 n2 rs hs
    refine ⟨hlen, ?_⟩
    intro r hr
    have hero := (inp.withinRidgeOffset_iff _).mp (hw r hr)
    rw [hrs] at hr
    obtain ⟨height, _, rfl⟩ := List.mem_map.mp hr
    simp only [VerticalInputs.splitRafter] at hero ⊢
    rw [ha, hb] at hero ⊢
    exact ⟨(clampRound_mem _ a b hab).1, (clampRound_mem _ a b hab).2,
      (clampRound_mem _ a b hab).1, (clampRound_mem _ a b hab).2, hero.1, hero.2⟩
  | cut n rs =>
    simp [VerticalInputs.solutionName] at hname
    rw [hname] at htier
    exfalso
    rcases htier with h | h <;> revert h <;> decide

theorem allResults_isSome_of_forall {α β : Type} (f : α → Option β) :
    ∀ (l : List α), (∀ a ∈ l, (f a).isSome = true) → (allResults (l.map f)).isSome = true
  | [], _ => by simp [allResults]
  | a :: l, h => by
    have ha := h a (List.mem_cons_self _ _)
    have hl := allResults_isSome_of_forall f l (fun b hb => h b (List.mem_cons_of_mem _ hb))
    obtain ⟨b, hb⟩ := Option.isSome_iff_exists.mp ha
    obtain ⟨bs, hbs⟩ := Option.isSome_iff_exists.mp hl
    simp [allResults, hb, hbs]

namespace HorizontalInputs

/-- The overhang bounds are integers, so a clamped and rounded overhang stays
inside them. -/
theorem overhang_clampRound_mem (inp : HorizontalInputs) (x : ℚ) :
    inp.minOverhang ≤ clampRound x inp.minOverhang inp.maxOverhang ∧
      clampRound x inp.minOverhang inp.maxOverhang ≤ inp.maxOverhang := by
  unfold minOverhang maxOverhang
  split_ifs
  · have := clampRound_mem x 20 40 (by norm_num)
    simpa using this
  · have := clampRound_mem x 25 75 (by norm_num)
    simpa using this

/-- The bound test of lines 86-87 never rejects the overhangs computed just before
it. -/
theorem overhangOutOfBounds_new (inp : HorizontalInputs) (desired tiled : ℚ) :
    inp.overhangOutOfBounds (inp.newOverhangLeft desired tiled)
      (inp.newOverhangRight desired tiled) = false := by
  unfold overhangOutOfBounds
  rw [decide_eq_false_iff_not]
  rintro (⟨h1, h2, h3⟩ | ⟨h1, h2, h3⟩)
  · have hl : inp.newOverhangLeft desired tiled =
        clampRound (inp.overhangLeft - (desired - tiled) / 2) inp.minOverhang inp.maxOverhang := by
      unfold newOverhangLeft
      rw [if_neg]
      rintro (h | h)
      · exact h1 h
      · exact h2 h
    rw [hl] at h3
    have := inp.overhang_clampRound_mem (inp.overhangLeft - (desired - tiled) / 2)
    rcases h3 with h3 | h3 <;> linarith [this.1, this.2]
  · have hr : inp.newOverhangRight desired tiled =
        clampRound (inp.overhangRight - (desired - tiled) / 2) inp.minOverhang inp.maxOverhang := by
      unfold newOverhangRight
      rw [if_neg]
      rintro (h | h)
      · exact h1 h
      · exact h2 h
    rw [hr] at h3
    have := inp.overhang_clampRound_mem (inp.overhangRight - (desired - tiled) / 2)
    rcases h3 with h3 | h3 <;> linarith [this.1, this.2]

/-- The result of a width in the full tier, which is never `null`. -/
theorem fullWidth_eq (inp : HorizontalInputs) (tilesWide : ℤ) (desired : ℚ) :
    inp.fullWidth tilesWide desired = some
      { totalWidth := desired
        overhangLeft := inp.newOverhangLeft desired (inp.fullTiledWidth tilesWide)
        overhangRight := inp.newOverhangRight desired (inp.fullTiledWidth tilesWide)
        firstMark := jsRound (inp.firstMark (inp.fullSpacing tilesWide)
          (inp.newOverhangLeft desired (inp.fullTiledWidth tilesWide)))
        secondMark := inp.secondMark (inp.fullSpacing tilesWide)
          (inp.firstMark (inp.fullSpacing tilesWide)
            (inp.newOverhangLeft desired (inp.fullTiledWidth tilesWide)))
        totalSets := inp.totalSets tilesWide
        adjustedMarks := inp.adjustedMarks (inp.fullSpacing tilesWide)
        actualSpacing := inp.fullSpacing tilesWide } := by
  unfold fullWidth
  simp only [overhangOutOfBounds_new]
  rfl

/-- The result of a width in the split tier, which is never `null`. -/
theorem splitWidth_eq (inp : HorizontalInputs) (tilesWide n1 n2 : ℤ) (desired : ℚ) :
    ∃ r, inp.splitWidth tilesWide n1 n2 desired = some r ∧
      r.spacing1 = (inp.splitSpacings tilesWide n1 n2 desired).1 ∧
      r.spacing2 = (inp.splitSpacings tilesWide n1 n2 desired).2 ∧
      r.overhangLeft = inp.newOverhangLeft desired
        (inp.splitTiledWidth tilesWide n1 n2 r.spacing1 r.spacing2) ∧
      r.overhangRight = inp.newOverhangRight desired
        (inp.splitTiledWidth tilesWide n1 n2 r.spacing1 r.spacing2) ∧
      r.totalWidth = desired := by
  unfold splitWidth
  simp only [overhangOutOfBounds_new]
  exact ⟨_, rfl, rfl, rfl, rfl, rfl, rfl⟩

/-- A tile count is accepted by the full tier exactly when it leaves a regular
tile and its spacing is within the spacing bounds. -/
theorem fullCandidate_isSome_iff (inp : HorizontalInputs) (tileCount : ℤ) :
    (inp.fullCandidate tileCount).isSome = true ↔
      0 < inp.regularTiles tileCount ∧ inp.minSpacing ≤ inp.fullSpacing tileCount ∧
        inp.fullSpacing tileCount ≤ inp.maxSpacing := by
  unfold fullCandidate
  split_ifs with h1 h2
  · simp only [Option.isSome_none, Bool.false_eq_true, false_iff]
    rintro ⟨h, _, _⟩
    omega
  · simp only [Option.isSome_none, Bool.false_eq_true, false_iff]
    rintro ⟨_, h3, h4⟩
    rcases h2 with h2 | h2 <;> linarith
  · push_neg at h1 h2
    refine iff_of_true ?_ ⟨h1, h2.1, h2.2⟩
    apply allResults_isSome_of_forall
    intro d _
    rw [fullWidth_eq]
    rfl

/-- An accepted tile count: its spacing and the result of every width. -/
theorem fullCandidate_some_horizontal (inp : HorizontalInputs) (tileCount : ℤ) (rs : List FullWidthResult)
    (h : inp.fullCandidate tileCount = some rs) :
    0 < inp.regularTiles tileCount ∧ inp.minSpacing ≤ inp.fullSpacing tileCount ∧
      inp.fullSpacing tileCount ≤ inp.maxSpacing ∧
      List.Forall₂ (fun width r => inp.fullWidth tileCount
        (width + inp.overhangLeft + inp.overhangRight - inp.widthReduction) = some r)
        inp.widths rs := by
  have hsome := (inp.fullCandidate_isSome_iff tileCount).mp (by rw [h]; rfl)
  refine ⟨hsome.1, hsome.2.1, hsome.2.2, ?_⟩
  unfold fullCandidate at h
  split_ifs at h
  have := allResults_map _ _ _ h
  unfold desiredTotalWidths at this
  rw [List.forall₂_map_left_iff] at this
  exact this

/-- An accepted split point: the result of every width. -/
theorem splitCandidate_some_horizontal (inp : HorizontalInputs) (tilesWide n1 : ℤ)
    (rs : List SplitWidthResult) (h : inp.splitCandidate tilesWide n1 = some rs) :
    0 < tilesWide - 1 - n1 ∧
      List.Forall₂ (fun width r => inp.splitWidth tilesWide n1 (tilesWide - 1 - n1)
        (width + inp.overhangLeft + inp.overhangRight - inp.widthReduction) = some r)
        inp.widths rs := by
  unfold splitCandidate at h
  simp only at h
  split_ifs at h with h1
  refine ⟨by omega, ?_⟩
  have := allResults_map _ _ _ h
  unfold desiredTotalWidths at this
  rw [List.forall₂_map_left_iff] at this
  exact this

/-- Shape of a `full` solution of the cascade. -/
theorem solve_full_horizontal (inp : HorizontalInputs) (tw : ℤ) (rs : List FullWidthResult)
    (h : inp.solve = (tw, some (.full rs))) :
    inp.minTileCount ≤ tw ∧ tw ≤ inp.maxTileCount ∧ inp.fullCandidate tw = some rs := by
  rcases inp.solve_cases_horizontal with ⟨tw1, rs1, hf, hs⟩ | ⟨tw1, rs1, _, _, hs⟩ | ⟨tw1, _, _, hs⟩
  · rw [hs] at h
    simp only [Prod.mk.injEq, Option.some.injEq, HorizontalSolution.full.injEq] at h
    obtain ⟨e1, e2⟩ := h
    subst e1 e2
    obtain ⟨h1, h2, h3, _⟩ := inp.fullLoop_some_horizontal _ _ _ _ _ hf
    exact ⟨h2, by omega, h1⟩
  · rw [hs] at h
    simp at h
  · rw [hs] at h
    simp at h

/-- Shape of a `split` solution of the cascade. -/
theorem solve_split_horizontal (inp : HorizontalInputs) (tw : ℤ) (rs : List SplitWidthResult)
    (h : inp.solve = (tw, some (.split rs))) :
    inp.fullTier = (tw, none) ∧
      ∃ n1, 1 ≤ n1 ∧ 1 ≤ tw - 1 - n1 ∧ inp.splitCandidate tw n1 = some rs := by
  rcases inp.solve_cases_horizontal with ⟨tw1, rs1, hf, hs⟩ | ⟨tw1, rs1, hf, hsp, hs⟩ | ⟨tw1, _, _, hs⟩
  · rw [hs] at h
    simp at h
  · rw [hs] at h
    simp only [Prod.mk.injEq, Option.some.injEq, HorizontalSolution.split.injEq] at h
    obtain ⟨e1, e2⟩ := h
    subst e1 e2
    obtain ⟨m, h1, _, h3, _⟩ := inp.splitLoop_some_horizontal _ _ _ _ hsp
    exact ⟨hf, m, h1, by have := (inp.splitCandidate_some_horizontal _ _ _ h3).1; omega, h3⟩
  · rw [hs] at h
    simp at h

/-- Shape of a `cut` solution of the cascade. -/
theorem solve_cut_horizontal (inp : HorizontalInputs) (tw : ℤ) (rs : List CutWidthResult)
    (h : inp.solve = (tw, some (.cut rs))) :
    inp.fullTier = (tw, none) ∧ inp.splitTier tw = none ∧ rs = inp.cutTier tw := by
  rcases inp.solve_cases_horizontal with ⟨tw1, rs1, hf, hs⟩ | ⟨tw1, rs1, hf, hsp, hs⟩ | ⟨tw1, hf, hsp, hs⟩
  · rw [hs] at h
    simp at h
  · rw [hs] at h
    simp at h
  · rw [hs] at h
    simp only [Prod.mk.injEq, Option.some.injEq, HorizontalSolution.cut.injEq] at h
    obtain ⟨e1, e2⟩ := h
    subst e1 e2
    exact ⟨hf, hsp, rfl⟩


theorem abs_jsRound_sub_le (x : ℚ) : |jsRound x - x| ≤ 1 / 2 := by
  rw [abs_le]
  constructor
  · linarith [lt_jsRound x]
  · linarith [jsRound_le x]

/-- Without an abutment side, unclamped overhangs rebuild the width within 1. -/
theorem reconstruction_of_unclamped (inp : HorizontalInputs)
    (hL : inp.abutmentSide ≠ "LEFT") (hR : inp.abutmentSide ≠ "RIGHT")
    (hB : inp.abutmentSide ≠ "BOTH") (width tiled : ℚ)
    (hu : inp.overhangsUnclamped
      (width + inp.overhangLeft + inp.overhangRight - inp.widthReduction) tiled) :
    |(width
        + inp.newOverhangLeft
          (width + inp.overhangLeft + inp.overhangRight - inp.widthReduction) tiled
        + inp.newOverhangRight
          (width + inp.overhangLeft + inp.overhangRight - inp.widthReduction) tiled
        - inp.widthReduction) - tiled| ≤ 1 := by
  obtain ⟨⟨h1, h2⟩, h3, h4⟩ := hu
  have hl : ¬ (inp.abutmentSide = "LEFT" ∨ inp.abutmentSide = "BOTH") := by
    rintro (h | h)
    · exact hL h
    · exact hB h
  have hr : ¬ (inp.abutmentSide = "RIGHT" ∨ inp.abutmentSide = "BOTH") := by
    rintro (h | h)
    · exact hR h
    · exact hB h
  unfold newOverhangLeft newOverhangRight
  rw [if_neg hl, if_neg hr, clampRound_of_mem h1 h2, clampRound_of_mem h3 h4]
  have e1 := abs_le.mp (abs_jsRound_sub_le
    (inp.overhangLeft - (width + inp.overhangLeft + inp.overhangRight - inp.widthReduction
      - tiled) / 2))
  have e2 := abs_le.mp (abs_jsRound_sub_le
    (inp.overhangRight - (width + inp.overhangLeft + inp.overhangRight - inp.widthReduction
      - tiled) / 2))
  rw [abs_le]
  constructor <;> linarith [e1.1, e1.2, e2.1, e2.2]

end HorizontalInputs

/-- C5: when `calculateHorizontal` returns "Even Sets" (cover width plus either
spacing bound non-zero, as when `tileCoverWidth > 0` and
`0 ≤ minSpacing ≤ maxSpacing`), the accepted spacing of every width lies in
`[minSpacing, maxSpacing]`, each overhang on an abutment side is 0, and each
other overhang lies in `[minOverhang, maxOverhang]`, which is 20..40 with
`useDryVerge = "YES"` and 25..75 otherwise. -/
theorem calculateHorizontal_even_sets_within_bounds (inp : HorizontalInputs)
    (hmin : inp.tileCoverWidth + inp.minSpacing ≠ 0)
    (hmax : inp.tileCoverWidth + inp.maxSpacing ≠ 0)
    (rec : HorizontalResult) (hrec : calculateHorizontal inp = .ok rec)
    (htier : rec.solution = "Even Sets") :
    (inp.minOverhang = if inp.useDryVerge = "YES" then 20 else 25) ∧
    (inp.maxOverhang = if inp.useDryVerge = "YES" then 40 else 75) ∧
    ∃ tilesWide widthResults, inp.solve = (tilesWide, some (.full widthResults)) ∧
      List.Forall₂ (fun (_width : ℚ) (r : FullWidthResult) =>
        (inp.minSpacing ≤ r.actualSpacing ∧ r.actualSpacing ≤ inp.maxSpacing) ∧
        (if inp.abutmentSide = "LEFT" ∨ inp.abutmentSide = "BOTH" then r.overhangLeft = 0
          else inp.minOverhang ≤ r.overhangLeft ∧ r.overhangLeft ≤ inp.maxOverhang) ∧
        (if inp.abutmentSide = "RIGHT" ∨ inp.abutmentSide = "BOTH" then r.overhangRight = 0
          else inp.minOverhang ≤ r.overhangRight ∧ r.overhangRight ≤ inp.maxOverhang))
        inp.widths widthResults := by
  have _ := hmin
  have _ := hmax
  have hv : ¬ (inp.widths = [] ∨ ∃ w ∈ inp.widths, w < 500) := by
    intro hv
    rw [calculateHorizontal_of_invalid inp hv] at hrec
    cases hrec
  obtain ⟨s, r, hs, hr, hname, _⟩ := calculateHorizontal_of_valid inp hv
  rw [hr] at hrec
  cases hrec
  refine ⟨rfl, rfl, ?_⟩
  cases s with
  | full rs =>
    have hsolve : inp.solve = (inp.solve.1, some (.full rs)) := by rw [← hs]
    obtain ⟨_, _, hc⟩ := inp.solve_full_horizontal _ rs hsolve
    obtain ⟨_, h1, h2, hall⟩ := inp.fullCandidate_some_horizontal _ rs hc
    refine ⟨inp.solve.1, rs, hsolve, hall.imp ?_⟩
    intro width r hwr
    rw [HorizontalInputs.fullWidth_eq] at hwr
    simp only [Option.some.injEq] at hwr
    subst hwr
    refine ⟨⟨h1, h2⟩, ?_, ?_⟩
    · simp only [HorizontalInputs.newOverhangLeft]
      split_ifs
      · rfl
      · exact inp.overhang_clampRound_mem _
    · simp only [HorizontalInputs.newOverhangRight]
      split_ifs
      · rfl
      · exact inp.overhang_clampRound_mem _
  | split rs =>
    rw [hname] at htier
    exfalso
    revert htier
    simp only [HorizontalInputs.solutionName]
    decide
  | cut rs =>
    rw [hname] at htier
    exfalso
    revert htier
    simp only [HorizontalInputs.solutionName]
    decide

/-- C3 (amended): for a request without an abutment side (cover width plus either
spacing bound non-zero), whichever tier is returned, every width whose
redistributed overhangs are not clamped is rebuilt within 1 mm:
`|(width + overhangLeft + overhangRight - widthReduction) - tiledWidth| ≤ 1`,
with that width's result overhangs and the tier's tiled width. -/
theorem calculateHorizontal_reconstruction_unclamped (inp : HorizontalInputs)
    (hmin : inp.tileCoverWidth + inp.minSpacing ≠ 0)
    (hmax : inp.tileCoverWidth + inp.maxSpacing ≠ 0)
    (hL : inp.abutmentSide ≠ "LEFT") (hR : inp.abutmentSide ≠ "RIGHT")
    (hB : inp.abutmentSide ≠ "BOTH")
    (rec : HorizontalResult) (hrec : calculateHorizontal inp = .ok rec) :
    ∃ tilesWide s, inp.solve = (tilesWide, some s) ∧
      rec.solution = HorizontalInputs.solutionName s ∧
      match s with
      | .full widthResults =>
        List.Forall₂ (fun width r =>
          inp.overhangsUnclamped
            (width + inp.overhangLeft + inp.overhangRight - inp.widthReduction)
            (inp.fullTiledWidth tilesWide) →
          |(width + r.overhangLeft + r.overhangRight - inp.widthReduction)
            - inp.fullTiledWidth tilesWide| ≤ 1) inp.widths widthResults
      | .split widthResults =>
        ∃ n1 n2 : ℤ, 1 ≤ n1 ∧ 1 ≤ n2 ∧ n1 + n2 = tilesWide - 1 ∧
        List.Forall₂ (fun width (r : SplitWidthResult) =>
          inp.overhangsUnclamped
            (width + inp.overhangLeft + inp.overhangRight - inp.widthReduction)
            (inp.splitTiledWidth tilesWide n1 n2 r.spacing1 r.spacing2) →
          |(width + r.overhangLeft + r.overhangRight - inp.widthReduction)
            - inp.splitTiledWidth tilesWide n1 n2 r.spacing1 r.spacing2| ≤ 1)
          inp.widths widthResults
      | .cut widthResults =>
        List.Forall₂ (fun width (r : CutWidthResult) =>
          inp.overhangsUnclamped
            (width + inp.overhangLeft + inp.overhangRight - inp.widthReduction)
            (inp.cutTiledWidth tilesWide r.actualSpacing r.cutTileWidth) →
          |(width + r.overhangLeft + r.overhangRight - inp.widthReduction)
            - inp.cutTiledWidth tilesWide r.actualSpacing r.cutTileWidth| ≤ 1)
          inp.widths widthResults := by
  have _ := hmin
  have _ := hmax
  have hv : ¬ (inp.widths = [] ∨ ∃ w ∈ inp.widths, w < 500) := by
    intro hv
    rw [calculateHorizontal_of_invalid inp hv] at hrec
    cases hrec
  obtain ⟨s, r, hs, hr, hname, _⟩ := calculateHorizontal_of_valid inp hv
  rw [hr] at hrec
  cases hrec
  have hsolve : inp.solve = (inp.solve.1, some s) := by rw [← hs]
  refine ⟨inp.solve.1, s, hsolve, hname, ?_⟩
  cases s with
  | full rs =>
    obtain ⟨_, _, hc⟩ := inp.solve_full_horizontal _ rs hsolve
    obtain ⟨_, _, _, hall⟩ := inp.fullCandidate_some_horizontal _ rs hc
    refine hall.imp ?_
    intro width r hwr hu
    rw [HorizontalInputs.fullWidth_eq] at hwr
    simp only [Option.some.injEq] at hwr
    subst hwr
    exact inp.reconstruction_of_unclamped hL hR hB width _ hu
  | split rs =>
    obtain ⟨_, n1, h1, h2, hc⟩ := inp.solve_split_horizontal _ rs hsolve
    obtain ⟨_, hall⟩ := inp.splitCandidate_some_horizontal _ _ rs hc
    refine ⟨n1, inp.solve.1 - 1 - n1, h1, h2, by ring, hall.imp ?_⟩
    intro width r hwr hu
    obtain ⟨r1, hr1, _, _, hl, hrr, _⟩ := inp.splitWidth_eq inp.solve.1 n1 (inp.solve.1 - 1 - n1)
      (width + inp.overhangLeft + inp.overhangRight - inp.widthReduction)
    rw [hr1] at hwr
    simp only [Option.some.injEq] at hwr
    subst hwr
    rw [hl, hrr]
    exact inp.reconstruction_of_unclamped hL hR hB width _ hu
  | cut rs =>
    obtain ⟨_, _, hrs⟩ := inp.solve_cut_horizontal _ rs hsolve
    subst hrs
    simp only [HorizontalInputs.cutTier, HorizontalInputs.desiredTotalWidths, List.map_map]
    rw [List.forall₂_map_right_iff, List.forall₂_same]
    intro width _ hu
    exact inp.reconstruction_of_unclamped hL hR hB width _ hu

namespace HorizontalInputs

theorem solutionName_even_sets (s : HorizontalSolution)
    (h : solutionName s = "Even Sets") : ∃ rs, s = .full rs := by
  cases s with
  | full rs => exact ⟨rs, rfl⟩
  | split rs => exfalso; revert h; simp only [solutionName]; decide
  | cut rs => exfalso; revert h; simp only [solutionName]; decide

/-- A tile count within the bounds that the full tier accepts makes the cascade
stop in the full tier. -/
theorem solve_full_of_candidate_horizontal (inp : HorizontalInputs) (k : ℤ)
    (h1 : inp.minTileCount ≤ k) (h2 : k ≤ inp.maxTileCount)
    (h3 : (inp.fullCandidate k).isSome = true) :
    ∃ tw rs, inp.solve = (tw, some (.full rs)) := by
  obtain ⟨tw, rs, hf⟩ := inp.fullLoop_of_candidate_horizontal
    (inp.maxTileCount - inp.minTileCount + 1).toNat inp.minTileCount 0 k h1 (by omega) h3
  rcases inp.solve_cases_horizontal with ⟨tw1, rs1, _, hs⟩ | ⟨tw1, rs1, hf1, _, _⟩ | ⟨tw1, hf1, _, _⟩
  · exact ⟨tw1, rs1, hs⟩
  · unfold fullTier at hf1
    rw [hf] at hf1
    simp at hf1
  · unfold fullTier at hf1
    rw [hf] at hf1
    simp at hf1

end HorizontalInputs

theorem calculateHorizontal_even_sets_solve (inp : HorizontalInputs) (rec : HorizontalResult)
    (hrec : calculateHorizontal inp = .ok rec) (htier : rec.solution = "Even Sets") :
    ¬ (inp.widths = [] ∨ ∃ w ∈ inp.widths, w < 500) ∧
      ∃ tw rs, inp.solve = (tw, some (.full rs)) := by
  have hv : ¬ (inp.widths = [] ∨ ∃ w ∈ inp.widths, w < 500) := by
    intro hv
    rw [calculateHorizontal_of_invalid inp hv] at hrec
    cases hrec
  obtain ⟨s, r, hs, hr, hname, _⟩ := calculateHorizontal_of_valid inp hv
  rw [hr] at hrec
  cases hrec
  rw [hname] at htier
  obtain ⟨rs, rfl⟩ := HorizontalInputs.solutionName_even_sets s htier
  exact ⟨hv, inp.solve.1, rs, by rw [← hs]⟩

theorem calculateHorizontal_solve_even_sets (inp : HorizontalInputs)
    (hv : ¬ (inp.widths = [] ∨ ∃ w ∈ inp.widths, w < 500)) (tw : ℤ)
    (rs : List FullWidthResult) (h : inp.solve = (tw, some (.full rs))) :
    ∃ rec, calculateHorizontal inp = .ok rec ∧ rec.solution = "Even Sets" := by
  obtain ⟨s, r, hs, hr, hname, _⟩ := calculateHorizontal_of_valid inp hv
  rw [h] at hs
  simp only [Option.some.injEq] at hs
  subst hs
  exact ⟨r, hr, hname⟩

/-- C7: when `calculateHorizontal` returns "Even Sets" on a request with
`tileCoverWidth > 0` and `0 ≤ minSpacing ≤ maxSpacing`, the same request with
`maxSpacing` replaced by any larger value also returns "Even Sets". -/
theorem calculateHorizontal_maxSpacing_monotone (inp : HorizontalInputs)
    (hcover : 0 < inp.tileCoverWidth) (hmin : 0 ≤ inp.minSpacing)
    (hle : inp.minSpacing ≤ inp.maxSpacing) (maxSpacing' : ℚ)
    (hge : inp.maxSpacing ≤ maxSpacing')
    (rec : HorizontalResult) (hrec : calculateHorizontal inp = .ok rec)
    (htier : rec.solution = "Even Sets") :
    ∃ rec', calculateHorizontal { inp with maxSpacing := maxSpacing' } = .ok rec' ∧
      rec'.solution = "Even Sets" := by
  obtain ⟨hv, tw, rs, hs⟩ := calculateHorizontal_even_sets_solve inp rec hrec htier
  obtain ⟨h1, h2, hc⟩ := inp.solve_full_horizontal tw rs hs
  obtain ⟨hreg, hsp1, hsp2⟩ := (inp.fullCandidate_isSome_iff tw).mp (by rw [hc]; rfl)
  have hregq : (0 : ℚ) < (inp.regularTiles tw : ℚ) := by exact_mod_cast hreg
  -- the remaining width is positive, as the accepted spacing is not negative
  have hrem : 0 < inp.remainingWidth := by
    have hfl : (0 : ℚ) < (inp.roundedCoverWidth tw : ℚ) := by
      have : inp.fullSpacing tw = (inp.roundedCoverWidth tw : ℚ) - inp.tileCoverWidth := rfl
      linarith
    have hle2 : ((inp.roundedCoverWidth tw : ℤ) : ℚ)
        ≤ inp.remainingWidth / (inp.regularTiles tw : ℚ) := Int.floor_le _
    have hdiv : 0 < inp.remainingWidth / (inp.regularTiles tw : ℚ) := lt_of_lt_of_le hfl hle2
    by_contra hneg
    push_neg at hneg
    have := div_nonpos_of_nonpos_of_nonneg hneg hregq.le
    linarith
  have hcm : 0 < inp.tileCoverWidth + inp.maxSpacing := by linarith
  have hmono : ⌊inp.remainingWidth / (inp.tileCoverWidth + maxSpacing')⌋
      ≤ ⌊inp.remainingWidth / (inp.tileCoverWidth + inp.maxSpacing)⌋ := by
    apply Int.floor_mono
    exact div_le_div_of_nonneg_left hrem.le hcm (by linarith)
  have hmin' : ({ inp with maxSpacing := maxSpacing' } : HorizontalInputs).minTileCount ≤ tw := by
    have e : ({ inp with maxSpacing := maxSpacing' } : HorizontalInputs).minTileCount
        = ⌊inp.remainingWidth / (inp.tileCoverWidth + maxSpacing')⌋ + inp.lhCount := rfl
    have e2 : inp.minTileCount
        = ⌊inp.remainingWidth / (inp.tileCoverWidth + inp.maxSpacing)⌋ + inp.lhCount := rfl
    rw [e]
    rw [e2] at h1
    omega
  have hmax' : tw ≤ ({ inp with maxSpacing := maxSpacing' } : HorizontalInputs).maxTileCount :=
    h2
  have hc' : (({ inp with maxSpacing := maxSpacing' } : HorizontalInputs).fullCandidate
      tw).isSome = true := by
    rw [HorizontalInputs.fullCandidate_isSome_iff]
    exact ⟨hreg, hsp1, le_trans hsp2 hge⟩
  obtain ⟨tw', rs', hs'⟩ := HorizontalInputs.solve_full_of_candidate_horizontal _ tw hmin' hmax' hc'
  exact calculateHorizontal_solve_even_sets _ hv tw' rs' hs'

namespace VerticalInputs

theorem solutionName_full (s : VerticalSolution)
    (h : solutionName s = "Full Courses") : ∃ n rs, s = .full n rs := by
  cases s with
  | full n rs => exact ⟨n, rs, rfl⟩
  | split n n1 n2 rs => exfalso; revert h; simp only [solutionName]; decide
  | cut n rs => exfalso; revert h; simp only [solutionName]; decide

/-- A course count within the bounds that the full tier accepts, at either anchor,
makes the cascade stop in the full tier. -/
theorem solve_full_of_candidate_vertical (inp : VerticalInputs) (k : ℤ)
    (h1 : inp.minCourses ≤ k) (h2 : k ≤ inp.maxCourses)
    (h3 : (inp.fullCandidate inp.ridgeOffsetMin k).isSome = true ∨
      (inp.fullCandidate inp.ridgeOffsetMax k).isSome = true) :
    ∃ n rs, inp.solve = some (.full n rs) := by
  obtain ⟨m, rs, hf⟩ := inp.fullLoop_of_candidate_vertical
    (inp.maxCourses - inp.minCourses + 1).toNat inp.minCourses k h1 (by omega) h3
  rcases inp.solve_cases_vertical with ⟨s, hf1, hs⟩ | ⟨s, hf1, _, _⟩ | ⟨hf1, _, _⟩
  · unfold fullTier at hf1
    rw [hf] at hf1
    simp only [Option.some.injEq] at hf1
    subst hf1
    exact ⟨m, rs, hs⟩
  · unfold fullTier at hf1
    rw [hf] at hf1
    simp at hf1
  · unfold fullTier at hf1
    rw [hf] at hf1
    simp at hf1

/-- A gauge accepted below an integer `maxGauge` was not clamped at it, so a
larger `maxGauge` yields the same gauge. -/
theorem clampRoundDiv_of_lt (x y lo : ℚ) (hi : ℤ) (hi' g : ℚ) (hlo : lo ≤ hi)
    (hhi : (hi : ℚ) ≤ hi') (h : clampRoundDiv x y lo hi = some g) (hg : g < hi) :
    clampRoundDiv x y lo hi' = some g := by
  unfold clampRoundDiv at h ⊢
  split_ifs at h ⊢ with h1 h2 h3
  · simp only [Option.some.injEq] at h
    rw [jsRound_intCast] at h
    linarith
  · rw [min_eq_left hlo] at h
    rw [min_eq_left (le_trans hlo hhi)]
    exact h
  · simp only [Option.some.injEq] at h
    have hx : x / y < hi := by
      by_contra hge
      push_neg at hge
      have : clampRound (x / y) lo hi = hi := by
        unfold clampRound
        rw [min_eq_right (le_trans hge (le_max_left _ _)), jsRound_intCast]
      linarith
    have hm : max (x / y) lo ≤ hi := max_le hx.le hlo
    simp only [Option.some.injEq]
    rw [← h]
    unfold clampRound
    rw [min_eq_left hm, min_eq_left (le_trans hm hhi)]

end VerticalInputs

/-- C8 (amended): when `calculateVertical` returns "Full Courses" on a request with
`0 < minGauge ≤ maxGauge`, `maxGauge` an integer, with at least one course
(`Total Courses ≥ 1`) and every rafter's accepted gauge below `maxGauge`, the
same request with `maxGauge` replaced by any larger value also returns
"Full Courses". -/
theorem calculateVertical_maxGauge_monotone_unclamped (inp : VerticalInputs) (b : ℤ)
    (hb : inp.maxGauge = b) (hpos : 0 < inp.minGauge) (hle : inp.minGauge ≤ inp.maxGauge)
    (maxGauge' : ℚ) (hge : inp.maxGauge ≤ maxGauge')
    (hv : ¬ (inp.rafterHeights = [] ∨ ∃ h ∈ inp.rafterHeights, h < 500))
    (n : ℤ) (rs : List FullRafterResult) (hs : inp.solve = some (.full n rs))
    (hn : 1 ≤ n) (hgauge : ∀ r ∈ rs, r.battenGauge < inp.maxGauge) :
    (∃ rec, calculateVertical inp = .ok rec ∧ rec.solution = "Full Courses" ∧
      rec.totalCourses = n) ∧
    ∃ rec', calculateVertical { inp with maxGauge := maxGauge' } = .ok rec' ∧
      rec'.solution = "Full Courses" := by
  constructor
  · obtain ⟨s, r, hs1, hr, hname, first, hbuild⟩ := calculateVertical_of_valid inp hv
    rw [hs] at hs1
    simp only [Option.some.injEq] at hs1
    subst hs1
    refine ⟨r, hr, hname, ?_⟩
    cases rs with
    | nil => simp [VerticalInputs.buildRecord] at hbuild
    | cons a rest =>
      simp only [VerticalInputs.buildRecord, Except.ok.injEq] at hbuild
      rw [← hbuild]
  · obtain ⟨h1, h2, anchor, hanchor, hc⟩ := inp.solve_full_vertical n rs hs
    obtain ⟨hall, hwithin⟩ := inp.fullCandidate_some_vertical anchor n rs hc
    have hmaxpos : 0 < inp.maxGauge := lt_of_lt_of_le hpos hle
    -- the same rafter results under the larger maxGauge
    have hall' : List.Forall₂ (fun height r =>
        ({ inp with maxGauge := maxGauge' } : VerticalInputs).fullRafter anchor n height = some r)
        inp.rafterHeights rs := by
      have hmem : List.Forall₂ (fun height r =>
          inp.fullRafter anchor n height = some r ∧ r ∈ rs) inp.rafterHeights rs := by
        have aux : ∀ (l : List ℚ) (l2 : List FullRafterResult),
            List.Forall₂ (fun height r => inp.fullRafter anchor n height = some r) l l2 →
            List.Forall₂ (fun height r =>
              inp.fullRafter anchor n height = some r ∧ r ∈ l2) l l2 := by
          intro l l2 hf
          induction hf with
          | nil => exact List.Forall₂.nil
          | cons hab _ ih =>
            exact List.Forall₂.cons ⟨hab, List.mem_cons_self _ _⟩
              (ih.imp (fun _ _ hp => ⟨hp.1, List.mem_cons_of_mem _ hp.2⟩))
        exact aux _ _ hall
      refine hmem.imp ?_
      rintro height r ⟨hfr, hr⟩
      have hlt := hgauge r hr
      unfold VerticalInputs.fullRafter at hfr ⊢
      cases hg : clampRoundDiv (height - inp.firstBatten - anchor) ((n : ℚ) - 1)
          inp.minGauge inp.maxGauge with
      | none => rw [hg] at hfr; simp at hfr
      | some g =>
        rw [hg] at hfr
        simp only [Option.some.injEq] at hfr
        have hgr : r.battenGauge = g := by rw [← hfr]
        rw [hb] at hg
        have hg' := VerticalInputs.clampRoundDiv_of_lt _ _ inp.minGauge b maxGauge' g
          (by rw [← hb]; exact hle) (by rw [← hb]; exact hge) hg
          (by rw [← hgr, ← hb]; exact hlt)
        show (match clampRoundDiv (height - inp.firstBatten - anchor) ((n : ℚ) - 1)
            inp.minGauge maxGauge' with
          | none => none
          | some roundedBattenGauge =>
            some { battenGauge := roundedBattenGauge
                   effectiveRidgeOffset :=
                     height - (inp.firstBatten + ((n : ℚ) - 1) * roundedBattenGauge) }) = some r
        rw [hg']
        exact congrArg some hfr
    have hc' : ({ inp with maxGauge := maxGauge' } : VerticalInputs).fullCandidate anchor n
        = some rs := by
      have hmap : (inp.rafterHeights.map
          (({ inp with maxGauge := maxGauge' } : VerticalInputs).fullRafter anchor n))
          = rs.map some := by
        have aux : ∀ (l : List ℚ) (l2 : List FullRafterResult),
            List.Forall₂ (fun height r =>
              ({ inp with maxGauge := maxGauge' } : VerticalInputs).fullRafter anchor n height
                = some r) l l2 →
            l.map (({ inp with maxGauge := maxGauge' } : VerticalInputs).fullRafter anchor n)
              = l2.map some := by
          intro l l2 hf
          induction hf with
          | nil => rfl
          | cons hab _ ih => simp [hab, ih]
        exact aux _ _ hall'
      have hres : allResults (rs.map (some : FullRafterResult → Option FullRafterResult))
          = some rs := by
        have := allResults_map_of_forall (some : FullRafterResult → Option FullRafterResult)
          id rs (fun _ _ => rfl)
        simpa using this
      unfold VerticalInputs.fullCandidate
      rw [show ({ inp with maxGauge := maxGauge' } : VerticalInputs).rafterHeights
        = inp.rafterHeights from rfl, hmap, hres]
      have hw : rs.all (fun r => ({ inp with maxGauge := maxGauge' } :
          VerticalInputs).withinRidgeOffset r.effectiveRidgeOffset) = true := by
        rw [List.all_eq_true]
        exact hwithin
      simp only [hw, if_true]
    have hmin' : ({ inp with maxGauge := maxGauge' } : VerticalInputs).minCourses ≤ n := by
      have e : ({ inp with maxGauge := maxGauge' } : VerticalInputs).minCourses
          = ⌈(inp.maxRafterHeight - inp.firstBatten - inp.ridgeOffsetMax) / maxGauge'⌉ + 1 := rfl
      have e2 : inp.minCourses
          = ⌈(inp.maxRafterHeight - inp.firstBatten - inp.ridgeOffsetMax) / inp.maxGauge⌉ + 1 :=
        rfl
      rw [e]
      rw [e2] at h1
      have hpos' : 0 < maxGauge' := lt_of_lt_of_le hmaxpos hge
      rcases le_or_lt 0 (inp.maxRafterHeight - inp.firstBatten - inp.ridgeOffsetMax) with hN | hN
      · have : ⌈(inp.maxRafterHeight - inp.firstBatten - inp.ridgeOffsetMax) / maxGauge'⌉
            ≤ ⌈(inp.maxRafterHeight - inp.firstBatten - inp.ridgeOffsetMax) / inp.maxGauge⌉ :=
          Int.ceil_mono (div_le_div_of_nonneg_left hN hmaxpos hge)
        omega
      · have hneg : (inp.maxRafterHeight - inp.firstBatten - inp.ridgeOffsetMax) / maxGauge'
            ≤ ((0 : ℤ) : ℚ) := by
          have := div_nonpos_of_nonpos_of_nonneg hN.le hpos'.le
          simpa using this
        have : ⌈(inp.maxRafterHeight - inp.firstBatten - inp.ridgeOffsetMax) / maxGauge'⌉ ≤ 0 :=
          Int.ceil_le.mpr hneg
        omega
    have hmax' : n ≤ ({ inp with maxGauge := maxGauge' } : VerticalInputs).maxCourses := h2
    have hcand : (({ inp with maxGauge := maxGauge' } : VerticalInputs).fullCandidate
          ({ inp with maxGauge := maxGauge' } : VerticalInputs).ridgeOffsetMin n).isSome = true ∨
        (({ inp with maxGauge := maxGauge' } : VerticalInputs).fullCandidate
          ({ inp with maxGauge := maxGauge' } : VerticalInputs).ridgeOffsetMax n).isSome
          = true := by
      rcases hanchor with ha | ha
      · left
        rw [show ({ inp with maxGauge := maxGauge' } : VerticalInputs).ridgeOffsetMin
          = anchor from ha.symm, hc']
        rfl
      · right
        rw [show ({ inp with maxGauge := maxGauge' } : VerticalInputs).ridgeOffsetMax
          = anchor from ha.symm, hc']
        rfl
    obtain ⟨n', rs', hs'⟩ := VerticalInputs.solve_full_of_candidate_vertical _ n hmin' hmax' hcand
    obtain ⟨s, r, hs1, hr, hname, _⟩ :=
      calculateVertical_of_valid ({ inp with maxGauge := maxGauge' } : VerticalInputs) hv
    rw [hs'] at hs1
    simp only [Option.some.injEq] at hs1
    subst hs1
    exact ⟨r, hr, hname⟩

/-! ## Scenarios -/

/-- C9: on scenario A `calculateHorizontal` returns "Even Sets"; the accepted spacing
is 10, within `[10, 40]`, and "LH Overhang" and "RH Overhang" are both 50,
within `[25, 75]`. -/
theorem calculateHorizontal_scenarioA :
    calculateHorizontal scenarioA = .ok
      { width := 3000, solution := "Even Sets", newWidth := 3100, lhOverhang := some 50,
        rhOverhang := some 50, cutTile := none, firstMark := 620, secondMark := none,
        marks := (3, 3, 930), splitMarks := none } ∧
    scenarioA.solve = (10, some (.full
      [{ totalWidth := 3100, overhangLeft := 50, overhangRight := 50, firstMark := 620,
         secondMark := none, totalSets := 3, adjustedMarks := 930, actualSpacing := 10 }])) ∧
    (scenarioA.minSpacing = 10 ∧ scenarioA.maxSpacing = 40 ∧
      scenarioA.minSpacing ≤ 10 ∧ (10 : ℚ) ≤ scenarioA.maxSpacing) ∧
    (scenarioA.minOverhang = 25 ∧ scenarioA.maxOverhang = 75 ∧
      scenarioA.minOverhang ≤ 50 ∧ (50 : ℚ) ≤ scenarioA.maxOverhang) := by
  refine ⟨by with_unfolding_all rfl, by decide!, by decide!, by decide!⟩

/-- C10: on scenario B (scenario A with `abutmentSide = "LEFT"`) the left overhang
is 0 (base and result), dry verge is treated as "NO", the width reduction is
5, and "New Width" is `3000 + 0 + 50 - 5 = 3045`. -/
theorem calculateHorizontal_scenarioB :
    scenarioB.overhangLeft = 0 ∧ scenarioB.overhangRight = 50 ∧
    scenarioB.dryVergeFlag = "NO" ∧ scenarioB.widthReduction = 5 ∧
    scenarioB.solve = (9, some (.full
      [{ totalWidth := 3045, overhangLeft := 0, overhangRight := 49, firstMark := 676,
         secondMark := none, totalSets := 2, adjustedMarks := 1014, actualSpacing := 38 }])) ∧
    calculateHorizontal scenarioB = .ok
      { width := 3000, solution := "Even Sets", newWidth := 3045, lhOverhang := none,
        rhOverhang := none, cutTile := none, firstMark := 676, secondMark := none,
        marks := (2, 3, 1014), splitMarks := none } ∧
    3000 + scenarioB.overhangLeft + scenarioB.overhangRight - scenarioB.widthReduction
      = 3045 := by
  refine ⟨by decide!, by decide!, by decide!, by decide!, by decide!,
    by with_unfolding_all rfl, by decide!⟩

/-! ## Counterexamples -/

/-- C3 fails as stated.  In the batch `[3000, 2000]` the tile count is solved for
3000 (tiled width 3100) and the overhangs of the 2000 mm width are clamped at
75, so the rebuilt width misses the tiled width by 950.  On scenario B the
abutment side is forced to 0 and the rebuilt width misses by 2. -/
theorem calculateHorizontal_reconstruction_counterexample :
    (∃ r1 r2, twoWidths.solve = (10, some (.full [r1, r2])) ∧
      ¬ |((2000 : ℚ) + r2.overhangLeft + r2.overhangRight - twoWidths.widthReduction)
          - twoWidths.fullTiledWidth 10| ≤ 1) ∧
    (∃ r, scenarioB.solve = (9, some (.full [r])) ∧
      ¬ |((3000 : ℚ) + r.overhangLeft + r.overhangRight - scenarioB.widthReduction)
          - scenarioB.fullTiledWidth 9| ≤ 1) := by
  refine ⟨⟨{ totalWidth := 3100, overhangLeft := 50, overhangRight := 50, firstMark := 620,
              secondMark := none, totalSets := 3, adjustedMarks := 930, actualSpacing := 10 },
            { totalWidth := 2100, overhangLeft := 75, overhangRight := 75, firstMark := 645,
              secondMark := none, totalSets := 3, adjustedMarks := 930, actualSpacing := 10 },
            by decide!, by decide!⟩,
          ⟨{ totalWidth := 3045, overhangLeft := 0, overhangRight := 49, firstMark := 676,
             secondMark := none, totalSets := 2, adjustedMarks := 1014, actualSpacing := 38 },
            by decide!, by decide!⟩⟩

/-- C8 fails as stated.  With a 2324 mm rafter and `maxGauge = 345` the full tier
accepts 7 courses at the clamped gauge 345; with `maxGauge = 350` no course
count passes at either anchor and the result is "Cut Course".  With the first
batten above the ridge the full tier accepts 0 courses at `maxGauge = 120`,
and `maxGauge = 345` raises `minCourses` to 1, above `maxCourses`. -/
theorem calculateVertical_maxGauge_counterexample :
    (calculateVertical clampedGauge = .ok
        { inputRafter := 2324, totalCourses := 7, solution := "Full Courses",
          ridgeOffset := 54, underEaveBatten := none, eaveBatten := some 135,
          firstBatten := 200, cutCourse := none, gauge := (6, 345), splitGauge := none,
          warning := none } ∧
      clampedGauge.maxGauge ≤ 350 ∧
      calculateVertical { clampedGauge with maxGauge := 350 } = .ok
        { inputRafter := 2324, totalCourses := 6, solution := "Cut Course",
          ridgeOffset := 25, underEaveBatten := none, eaveBatten := some 135,
          firstBatten := 200, cutCourse := some 349, gauge := (5, 350), splitGauge := none,
          warning := none }) ∧
    (calculateVertical shortRafter = .ok
        { inputRafter := 500, totalCourses := 0, solution := "Full Courses",
          ridgeOffset := 25, underEaveBatten := none, eaveBatten := none,
          firstBatten := 575, cutCourse := none, gauge := (-1, 100), splitGauge := none,
          warning := none } ∧
      shortRafter.maxGauge ≤ 345 ∧
      calculateVertical { shortRafter with maxGauge := 345 } = .ok
        { inputRafter := 500, totalCourses := 0, solution := "Cut Course",
          ridgeOffset := 25, underEaveBatten := none, eaveBatten := none,
          firstBatten := 575, cutCourse := some 245, gauge := (-1, 345), splitGauge := none,
          warning := none }) := by
  refine ⟨⟨except_eq_ok_of_decide _ _ (by decide!), by decide!, except_eq_ok_of_decide _ _ (by decide!)⟩,
    ⟨except_eq_ok_of_decide _ _ (by decide!), by decide!, except_eq_ok_of_decide _ _ (by decide!)⟩⟩

/-! ## Instances of the theorems on the scenarios -/

theorem scenarioA_result : calculateHorizontal scenarioA = .ok scenarioAResult := by
  with_unfolding_all rfl

theorem scenarioA_solve : scenarioA.solve = (10, some (.full [scenarioAWidthResult])) := by
  decide!

theorem scenarioC_result : calculateVertical scenarioC = .ok scenarioCResult := by
  with_unfolding_all rfl

theorem scenarioC_solve : scenarioC.solve = some (.full 8 [scenarioCRafterResult]) := by
  decide!

/-- C1 on scenario A, which returns a record, and on the 400 mm width of scenario D,
which raises the width error. -/
theorem calculateHorizontal_fails_iff_invalid_widths_witness :
    (scenarioA.tileCoverWidth + scenarioA.minSpacing ≠ 0 ∧
      scenarioA.tileCoverWidth + scenarioA.maxSpacing ≠ 0) ∧
    (∃ r, calculateHorizontal scenarioA = .ok r) ∧
    calculateHorizontal narrowWidth = .error widthError :=
  ⟨⟨by decide!, by decide!⟩,
    (calculateHorizontal_fails_iff_invalid_widths scenarioA (by decide!) (by decide!)).2.1
      (by decide!),
    (calculateHorizontal_fails_iff_invalid_widths narrowWidth (by decide!) (by decide!)).1
      (by decide!)⟩

/-- C2 on scenario C, which returns a record, and on the 400 mm rafter of scenario D,
which raises the rafter-height error. -/
theorem calculateVertical_fails_iff_invalid_heights_witness :
    (scenarioC.minGauge ≠ 0 ∧ scenarioC.maxGauge ≠ 0) ∧
    (∃ r, calculateVertical scenarioC = .ok r) ∧
    calculateVertical shortHeight = .error rafterHeightError :=
  ⟨⟨by decide!, by decide!⟩,
    (calculateVertical_fails_iff_invalid_heights scenarioC (by decide!) (by decide!)).2.1
      (by decide!),
    (calculateVertical_fails_iff_invalid_heights shortHeight (by decide!) (by decide!)).1
      (by decide!)⟩

/-- C3 (amended) on scenario A: the overhangs of the 3000 mm width are not clamped
and the width is rebuilt within 1. -/
theorem calculateHorizontal_reconstruction_unclamped_witness :
    scenarioA.overhangsUnclamped
      (3000 + scenarioA.overhangLeft + scenarioA.overhangRight - scenarioA.widthReduction)
      (scenarioA.fullTiledWidth 10) ∧
    |((3000 : ℚ) + scenarioAWidthResult.overhangLeft + scenarioAWidthResult.overhangRight
        - scenarioA.widthReduction) - scenarioA.fullTiledWidth 10| ≤ 1 := by
  have hu : scenarioA.overhangsUnclamped
      (3000 + scenarioA.overhangLeft + scenarioA.overhangRight - scenarioA.widthReduction)
      (scenarioA.fullTiledWidth 10) := by
    unfold HorizontalInputs.overhangsUnclamped
    decide!
  refine ⟨hu, ?_⟩
  obtain ⟨tw, s, hs, _, h⟩ := calculateHorizontal_reconstruction_unclamped scenarioA
    (by decide!) (by decide!) (by decide!) (by decide!) (by decide!) scenarioAResult
    scenarioA_result
  rw [scenarioA_solve] at hs
  cases hs
  have h' : List.Forall₂ (fun width (r : FullWidthResult) =>
      scenarioA.overhangsUnclamped
        (width + scenarioA.overhangLeft + scenarioA.overhangRight - scenarioA.widthReduction)
        (scenarioA.fullTiledWidth 10) →
      |(width + r.overhangLeft + r.overhangRight - scenarioA.widthReduction)
        - scenarioA.fullTiledWidth 10| ≤ 1) [(3000 : ℚ)] [scenarioAWidthResult] := h
  exact (List.forall₂_cons.mp h').1 hu

/-- C4 on scenario C: the total recomputed for the 2500 mm rafter is within 3 of
2500. -/
theorem calculateVertical_total_within_tolerance_witness :
    (scenarioC.minGauge ≠ 0 ∧ scenarioC.maxGauge ≠ 0) ∧
    |(2500 : ℚ) - scenarioC.computedTotalFull 8 scenarioCRafterResult| ≤ 3 := by
  refine ⟨⟨by decide!, by decide!⟩, ?_⟩
  obtain ⟨s, hs, _, h⟩ := calculateVertical_total_within_tolerance scenarioC
    (by decide!) (by decide!) scenarioCResult scenarioC_result
  rw [scenarioC_solve] at hs
  cases hs
  have h' : List.Forall₂ (fun rafterHeight r =>
      |rafterHeight - scenarioC.computedTotalFull 8 r| ≤ 3) [(2500 : ℚ)]
      [scenarioCRafterResult] := h
  exact (List.forall₂_cons.mp h').1

/-- C5 on scenario A: spacing 10 within `[10, 40]`, both overhangs within
`[25, 75]`. -/
theorem calculateHorizontal_even_sets_within_bounds_witness :
    (scenarioA.tileCoverWidth + scenarioA.minSpacing ≠ 0 ∧
      scenarioA.tileCoverWidth + scenarioA.maxSpacing ≠ 0) ∧
    (scenarioA.minSpacing ≤ scenarioAWidthResult.actualSpacing ∧
      scenarioAWidthResult.actualSpacing ≤ scenarioA.maxSpacing) ∧
    (scenarioA.minOverhang ≤ scenarioAWidthResult.overhangLeft ∧
      scenarioAWidthResult.overhangLeft ≤ scenarioA.maxOverhang) ∧
    (scenarioA.minOverhang ≤ scenarioAWidthResult.overhangRight ∧
      scenarioAWidthResult.overhangRight ≤ scenarioA.maxOverhang) := by
  refine ⟨⟨by decide!, by decide!⟩, ?_⟩
  obtain ⟨_, _, tw, rs, hs, h⟩ := calculateHorizontal_even_sets_within_bounds scenarioA
    (by decide!) (by decide!) scenarioAResult scenarioA_result (by decide!)
  rw [scenarioA_solve] at hs
  cases hs
  have h' : List.Forall₂ (fun (_width : ℚ) (r : FullWidthResult) =>
      (scenarioA.minSpacing ≤ r.actualSpacing ∧ r.actualSpacing ≤ scenarioA.maxSpacing) ∧
      (if scenarioA.abutmentSide = "LEFT" ∨ scenarioA.abutmentSide = "BOTH" then
          r.overhangLeft = 0
        else scenarioA.minOverhang ≤ r.overhangLeft ∧ r.overhangLeft ≤ scenarioA.maxOverhang) ∧
      (if scenarioA.abutmentSide = "RIGHT" ∨ scenarioA.abutmentSide = "BOTH" then
          r.overhangRight = 0
        else scenarioA.minOverhang ≤ r.overhangRight ∧
          r.overhangRight ≤ scenarioA.maxOverhang)) [(3000 : ℚ)] [scenarioAWidthResult] := h
  obtain ⟨h1, h2, h3⟩ := (List.forall₂_cons.mp h').1
  rw [if_neg (by decide!)] at h2 h3
  exact ⟨h1, h2, h3⟩

/-- C6 on scenario C: gauge 325 within `[280, 345]`, ridge offset 25 within
`[25, 65]`. -/
theorem calculateVertical_full_split_within_bounds_witness :
    (scenarioC.minGauge = ((280 : ℤ) : ℚ) ∧ scenarioC.maxGauge = ((345 : ℤ) : ℚ)) ∧
    scenarioC.minGauge ≤ scenarioCRafterResult.battenGauge ∧
    scenarioCRafterResult.battenGauge ≤ scenarioC.maxGauge ∧
    scenarioC.ridgeOffsetMin ≤ scenarioCRafterResult.effectiveRidgeOffset ∧
    scenarioCRafterResult.effectiveRidgeOffset ≤ 65 := by
  refine ⟨⟨by decide!, by decide!⟩, ?_⟩
  obtain ⟨_, s, hs, _, h⟩ := calculateVertical_full_split_within_bounds scenarioC 280 345
    (by decide!) (by decide!) (by decide) (by decide) scenarioCResult scenarioC_result
    (Or.inl (by decide!))
  rw [scenarioC_solve] at hs
  cases hs
  exact h.2 scenarioCRafterResult (List.mem_singleton_self _)

/-- C7 on scenario A with `maxSpacing` raised from 40 to 50. -/
theorem calculateHorizontal_maxSpacing_monotone_witness :
    (0 < scenarioA.tileCoverWidth ∧ 0 ≤ scenarioA.minSpacing ∧
      scenarioA.minSpacing ≤ scenarioA.maxSpacing ∧ scenarioA.maxSpacing ≤ 50) ∧
    ∃ rec', calculateHorizontal { scenarioA with maxSpacing := 50 } = .ok rec' ∧
      rec'.solution = "Even Sets" :=
  ⟨⟨by decide!, by decide!, by decide!, by decide!⟩,
    calculateHorizontal_maxSpacing_monotone scenarioA (by decide!) (by decide!) (by decide!) 50
      (by decide!) scenarioAResult scenarioA_result (by decide!)⟩

/-- C8 (amended) on scenario C, whose 8 courses have gauge 325 below 345, with
`maxGauge` raised from 345 to 400. -/
theorem calculateVertical_maxGauge_monotone_unclamped_witness :
    (scenarioC.maxGauge = ((345 : ℤ) : ℚ) ∧ 0 < scenarioC.minGauge ∧
      scenarioC.minGauge ≤ scenarioC.maxGauge ∧ scenarioC.maxGauge ≤ 400 ∧
      scenarioCRafterResult.battenGauge < scenarioC.maxGauge) ∧
    ∃ rec', calculateVertical { scenarioC with maxGauge := 400 } = .ok rec' ∧
      rec'.solution = "Full Courses" :=
  ⟨⟨by decide!, by decide!, by decide!, by decide!, by decide!⟩,
    (calculateVertical_maxGauge_monotone_unclamped scenarioC 345 (by decide!) (by decide!)
      (by decide!) 400 (by decide!) (by decide!) 8 [scenarioCRafterResult] scenarioC_solve
      (by decide) (by decide!)).2⟩

/-! ## The returned records -/

/-- A returned vertical record comes from a valid batch, the solution of the
cascade and the first rafter. -/
theorem calculateVertical_ok (inp : VerticalInputs) (rec : VerticalResult)
    (hrec : calculateVertical inp = .ok rec) :
    ¬ (inp.rafterHeights = [] ∨ ∃ h ∈ inp.rafterHeights, h < 500) ∧
      ∃ s first rest, inp.rafterHeights = first :: rest ∧ inp.solve = some s ∧
        inp.buildRecord first s = .ok rec := by
  have hv : ¬ (inp.rafterHeights = [] ∨ ∃ h ∈ inp.rafterHeights, h < 500) := by
    intro hv
    rw [calculateVertical_of_invalid inp hv] at hrec
    cases hrec
  refine ⟨hv, ?_⟩
  unfold calculateVertical at hrec
  cases hw : inp.rafterHeights with
  | nil => exact absurd (Or.inl hw) hv
  | cons first rest =>
    rw [hw] at hrec
    simp only at hrec
    split_ifs at hrec
    cases hs : inp.solve with
    | none => rw [hs] at hrec; cases hrec
    | some s =>
      rw [hs] at hrec
      exact ⟨s, first, rest, rfl, rfl, hrec⟩

/-- A returned horizontal record comes from a valid batch, the solution of the
cascade and the first width. -/
theorem calculateHorizontal_ok (inp : HorizontalInputs) (rec : HorizontalResult)
    (hrec : calculateHorizontal inp = .ok rec) :
    ¬ (inp.widths = [] ∨ ∃ w ∈ inp.widths, w < 500) ∧
      ∃ tw s first rest, inp.widths = first :: rest ∧ inp.solve = (tw, some s) ∧
        inp.buildRecord first s = .ok rec := by
  have hv : ¬ (inp.widths = [] ∨ ∃ w ∈ inp.widths, w < 500) := by
    intro hv
    rw [calculateHorizontal_of_invalid inp hv] at hrec
    cases hrec
  refine ⟨hv, ?_⟩
  unfold calculateHorizontal at hrec
  cases hw : inp.widths with
  | nil => exact absurd (Or.inl hw) hv
  | cons first rest =>
    rw [hw] at hrec
    simp only at hrec
    split_ifs at hrec
    cases hs : inp.solve.2 with
    | none => rw [hs] at hrec; cases hrec
    | some s =>
      rw [hs] at hrec
      exact ⟨inp.solve.1, s, first, rest, rfl, by rw [← hs], hrec⟩

namespace VerticalInputs

/-- The fields of the vertical record that do not depend on the tier. -/
theorem buildRecord_fields (inp : VerticalInputs) (first : ℚ) (s : VerticalSolution)
    (rec : VerticalResult) (h : inp.buildRecord first s = .ok rec) :
    rec.inputRafter = first ∧ rec.solution = solutionName s ∧
      rec.firstBatten = inp.firstBatten ∧
      rec.eaveBatten = (if inp.materialType = "Slate" ∨ inp.materialType = "Fibre Cement Slate"
        ∨ inp.materialType = "Plain Tile" then some inp.eaveBatten else none) ∧
      rec.underEaveBatten = (if inp.materialType = "Fibre Cement Slate" then
        some inp.underEaveBattenValue else none) ∧
      rec.warning = (if inp.warnings s = [] then none else some (inp.warnings s)) := by
  cases s with
  | full n rs =>
    cases rs with
    | nil => simp [buildRecord] at h
    | cons a rest =>
      simp only [buildRecord, Except.ok.injEq] at h
      subst h
      exact ⟨rfl, rfl, rfl, rfl, rfl, rfl⟩
  | split n n1 n2 rs =>
    cases rs with
    | nil => simp [buildRecord] at h
    | cons a rest =>
      simp only [buildRecord, Except.ok.injEq] at h
      subst h
      exact ⟨rfl, rfl, rfl, rfl, rfl, rfl⟩
  | cut n rs =>
    cases rs with
    | nil => simp [buildRecord] at h
    | cons a rest =>
      simp only [buildRecord, Except.ok.injEq] at h
      subst h
      exact ⟨rfl, rfl, rfl, rfl, rfl, rfl⟩

end VerticalInputs

/-- C11: in every record `calculateVertical` returns, "1st Batten" is
`slateTileHeight - gutterOverhang + 25` for "Slate" and "Fibre Cement Slate",
`- 15` for "Plain Tile" and `- 25` for any other material; "Eave Batten" is
the first batten less 65 for "Plain Tile" and less `maxGauge` for the two
slates; "Under Eave Batten" is present only for "Fibre Cement Slate" and is
the eave batten less 120. -/
theorem calculateVertical_batten_offsets (inp : VerticalInputs) (rec : VerticalResult)
    (hrec : calculateVertical inp = .ok rec) :
    (inp.materialType = "Slate" ∨ inp.materialType = "Fibre Cement Slate" →
      rec.firstBatten = inp.slateTileHeight - inp.gutterOverhang + 25 ∧
      rec.eaveBatten = some (rec.firstBatten - inp.maxGauge)) ∧
    (inp.materialType = "Plain Tile" →
      rec.firstBatten = inp.slateTileHeight - inp.gutterOverhang - 15 ∧
      rec.eaveBatten = some (rec.firstBatten - 65)) ∧
    (inp.materialType ≠ "Slate" → inp.materialType ≠ "Fibre Cement Slate" →
      inp.materialType ≠ "Plain Tile" →
      rec.firstBatten = inp.slateTileHeight - inp.gutterOverhang - 25) ∧
    (inp.materialType = "Fibre Cement Slate" →
      ∃ eave, rec.eaveBatten = some eave ∧ rec.underEaveBatten = some (eave - 120)) ∧
    (inp.materialType ≠ "Fibre Cement Slate" → rec.underEaveBatten = none) := by
  obtain ⟨_, s, first, rest, _, _, hb⟩ := calculateVertical_ok inp rec hrec
  obtain ⟨_, _, hfb, heave, hunder, _⟩ := inp.buildRecord_fields first s rec hb
  have hps : ("Plain Tile" : String) ≠ "Slate" := by decide
  have hpf : ("Plain Tile" : String) ≠ "Fibre Cement Slate" := by decide
  have hsf : ("Slate" : String) ≠ "Fibre Cement Slate" := by decide
  refine ⟨?_, ?_, ?_, ?_, ?_⟩
  · intro hm
    have hnp : inp.materialType ≠ "Plain Tile" := by
      rcases hm with h | h <;> rw [h] <;> decide
    have e1 : inp.firstBatten = inp.slateTileHeight - inp.gutterOverhang + 25 := by
      unfold VerticalInputs.firstBatten
      rw [if_pos hm]
    have e2 : inp.eaveBatten = inp.firstBatten - inp.maxGauge := by
      unfold VerticalInputs.eaveBatten
      rw [if_neg hnp]
    rw [heave, hfb, e1.symm, e2]
    refine ⟨rfl, ?_⟩
    rw [if_pos]
    rcases hm with h | h
    · exact Or.inl h
    · exact Or.inr (Or.inl h)
  · intro hm
    have hn : ¬ (inp.materialType = "Slate" ∨ inp.materialType = "Fibre Cement Slate") := by
      rw [hm]
      rintro (h | h)
      · exact hps h
      · exact hpf h
    have e1 : inp.firstBatten = inp.slateTileHeight - inp.gutterOverhang - 15 := by
      unfold VerticalInputs.firstBatten
      rw [if_neg hn, if_pos hm]
    have e2 : inp.eaveBatten = inp.firstBatten - 65 := by
      unfold VerticalInputs.eaveBatten VerticalInputs.eaveBattenAdjustment
      rw [if_pos hm, if_pos hm]
    rw [heave, hfb, e1.symm, e2]
    refine ⟨rfl, ?_⟩
    rw [if_pos (Or.inr (Or.inr hm))]
  · intro h1 h2 h3
    rw [hfb]
    unfold VerticalInputs.firstBatten
    rw [if_neg, if_neg h3]
    rintro (h | h)
    · exact h1 h
    · exact h2 h
  · intro hm
    refine ⟨inp.eaveBatten, ?_, ?_⟩
    · rw [heave, if_pos (Or.inr (Or.inl hm))]
    · rw [hunder, if_pos hm]
      unfold VerticalInputs.underEaveBattenValue
      rw [if_pos hm]
  · intro hm
    rw [hunder, if_neg hm]

/-- C11 on scenario C: "1st Batten" 200 and "Eave Batten" 135. -/
theorem calculateVertical_batten_offsets_witness :
    calculateVertical scenarioC = .ok scenarioCResult ∧
    (scenarioCResult.firstBatten = scenarioC.slateTileHeight - scenarioC.gutterOverhang - 15 ∧
      scenarioCResult.eaveBatten = some (scenarioCResult.firstBatten - 65)) ∧
    scenarioCResult.firstBatten = 200 ∧ scenarioCResult.eaveBatten = some 135 :=
  ⟨scenarioC_result,
    (calculateVertical_batten_offsets scenarioC scenarioCResult scenarioC_result).2.1
      (by decide),
    by decide!, by decide!⟩

namespace VerticalInputs

theorem belowThreshold_not_mem_totalWarningsFrom {ρ : Type} (f : ρ → ℚ) :
    ∀ (heights : List ℚ) (results : List ρ) (index : ℕ),
      VerticalWarning.belowThreshold ∉ totalWarningsFrom f index heights results
  | [], _, _ => by simp [totalWarningsFrom]
  | _ :: _, [], _ => by simp [totalWarningsFrom]
  | h :: hs, r :: rs, index => by
    have ih := belowThreshold_not_mem_totalWarningsFrom f hs rs (index + 1)
    unfold totalWarningsFrom
    simp only
    split_ifs
    · intro hmem
      rcases List.mem_cons.mp hmem with heq | hmem'
      · cases heq
      · exact ih hmem'
    · exact ih

/-- The below-threshold advisory is in the warning text exactly when
`hasInvalidGauge` holds. -/
theorem belowThreshold_mem_warnings (inp : VerticalInputs) (s : VerticalSolution) :
    VerticalWarning.belowThreshold ∈ inp.warnings s ↔ inp.hasInvalidGauge s = true := by
  have hno : VerticalWarning.belowThreshold ∉ inp.totalWarnings s := by
    cases s <;> exact belowThreshold_not_mem_totalWarningsFrom _ _ _ _
  unfold warnings
  by_cases h : inp.hasInvalidGauge s = true
  · simp [h]
  · simp [h, hno]

end VerticalInputs

/-- C12 (amended): the returned record carries the below-threshold advisory in its
"Warning" exactly when, in the full tier, a rafter's `battenGauge` is below
`minGauge`; in the split tier, a rafter's `gauge1` or `gauge2` is below
`minGauge`; in the cut tier, a rafter's cut course is below 75 (both gauges
non-zero). -/
theorem calculateVertical_below_threshold_warning (inp : VerticalInputs)
    (hmin : inp.minGauge ≠ 0) (hmax : inp.maxGauge ≠ 0)
    (rec : VerticalResult) (hrec : calculateVertical inp = .ok rec) :
    ∃ s, inp.solve = some s ∧ rec.solution = VerticalInputs.solutionName s ∧
      ((∃ ws, rec.warning = some ws ∧ VerticalWarning.belowThreshold ∈ ws) ↔
        match s with
        | .full _ rafterResults => ∃ r ∈ rafterResults, r.battenGauge < inp.minGauge
        | .split _ _ _ rafterResults =>
          ∃ r ∈ rafterResults, r.gauge1 < inp.minGauge ∨ r.gauge2 < inp.minGauge
        | .cut _ rafterResults => ∃ r ∈ rafterResults, r.cutCourseGauge < 75) := by
  have _ := hmin
  have _ := hmax
  obtain ⟨_, s, first, rest, _, hs, hb⟩ := calculateVertical_ok inp rec hrec
  obtain ⟨_, hname, _, _, _, hw⟩ := inp.buildRecord_fields first s rec hb
  refine ⟨s, hs, hname, ?_⟩
  have hiff : (∃ ws, rec.warning = some ws ∧ VerticalWarning.belowThreshold ∈ ws) ↔
      inp.hasInvalidGauge s = true := by
    rw [← inp.belowThreshold_mem_warnings s, hw]
    constructor
    · rintro ⟨ws, h1, h2⟩
      split_ifs at h1
      simp only [Option.some.injEq] at h1
      rw [h1]
      exact h2
    · intro h
      refine ⟨inp.warnings s, ?_, h⟩
      rw [if_neg]
      intro hnil
      rw [hnil] at h
      simp at h
  rw [hiff]
  cases s with
  | full n rs => simp [VerticalInputs.hasInvalidGauge]
  | split n n1 n2 rs => simp [VerticalInputs.hasInvalidGauge]
  | cut n rs => simp [VerticalInputs.hasInvalidGauge]

/-- C12 fails as stated: a 2500 mm slate rafter with gauges 50..70 returns
"Full Courses" at gauge 70, below 75, without a "Warning". -/
theorem calculateVertical_below_threshold_counterexample :
    calculateVertical lowGauge = .ok
      { inputRafter := 2500, totalCourses := 29, solution := "Full Courses",
        ridgeOffset := 65, underEaveBatten := none, eaveBatten := some 405,
        firstBatten := 475, cutCourse := none, gauge := (28, 70), splitGauge := none,
        warning := none } ∧
    lowGauge.solve = some (.full 29 [{ battenGauge := 70, effectiveRidgeOffset := 65 }]) ∧
    (70 : ℚ) < 75 := by
  refine ⟨by with_unfolding_all rfl, by decide!, by norm_num⟩

/-- C12 (amended) on the 620 mm rafter: the cut course 50 is below 75 and the record
carries the advisory. -/
theorem calculateVertical_below_threshold_warning_witness :
    (lowCutCourse.minGauge ≠ 0 ∧ lowCutCourse.maxGauge ≠ 0) ∧
    lowCutCourse.solve = some (.cut 2
      [{ cutCourseGauge := 50, fullCourses := 1, effectiveRidgeOffset := 25 }]) ∧
    ∃ rec ws, calculateVertical lowCutCourse = .ok rec ∧ rec.warning = some ws ∧
      VerticalWarning.belowThreshold ∈ ws := by
  have hs : lowCutCourse.solve = some (.cut 2
      [{ cutCourseGauge := 50, fullCourses := 1, effectiveRidgeOffset := 25 }]) := by decide!
  refine ⟨⟨by decide!, by decide!⟩, hs, ?_⟩
  obtain ⟨_, rec, _, hrec, _⟩ := calculateVertical_of_valid lowCutCourse (by decide!)
  obtain ⟨s, hs', _, hiff⟩ := calculateVertical_below_threshold_warning lowCutCourse
    (by decide!) (by decide!) rec hrec
  rw [hs] at hs'
  cases hs'
  obtain ⟨ws, h1, h2⟩ := hiff.mpr ⟨_, List.mem_singleton_self _, by decide!⟩
  exact ⟨rec, ws, hrec, h1, h2⟩

namespace HorizontalInputs

/-- The spacings of one width in the split tier, for integer spacing bounds. -/
theorem splitSpacings_mem (inp : HorizontalInputs) (a b : ℤ) (ha : inp.minSpacing = a)
    (hb : inp.maxSpacing = b) (hab : a ≤ b) (tilesWide n1 n2 : ℤ) (desired : ℚ) :
    (inp.minSpacing ≤ (inp.splitSpacings tilesWide n1 n2 desired).1 ∧
      (inp.splitSpacings tilesWide n1 n2 desired).1 ≤ inp.maxSpacing) ∧
    (inp.minSpacing ≤ (inp.splitSpacings tilesWide n1 n2 desired).2 ∧
      (inp.splitSpacings tilesWide n1 n2 desired).2 ≤ inp.maxSpacing) ∧
    (((inp.splitSpacings tilesWide n1 n2 desired).1 = inp.maxSpacing ∧
        (inp.minSpacing + inp.maxSpacing) / 2 ≤ (inp.splitSpacings tilesWide n1 n2 desired).2) ∨
      (inp.splitSpacings tilesWide n1 n2 desired).1
        = (inp.splitSpacings tilesWide n1 n2 desired).2) := by
  have hq : (a : ℚ) ≤ b := by exact_mod_cast hab
  unfold splitSpacings
  simp only
  split_ifs with h
  · rw [ha, hb]
    exact ⟨clampRound_mem _ a b hab, clampRound_mem _ a b hab, Or.inr rfl⟩
  · push_neg at h
    refine ⟨⟨by rw [ha, hb]; exact hq, le_refl _⟩, ?_, Or.inl ⟨rfl, h⟩⟩
    rw [ha, hb]
    exact clampRound_mem _ a b hab

theorem solutionName_split_sets (s : HorizontalSolution)
    (h : solutionName s = "Split Sets") : ∃ rs, s = .split rs := by
  cases s with
  | full rs => exfalso; revert h; simp only [solutionName]; decide
  | split rs => exact ⟨rs, rfl⟩
  | cut rs => exfalso; revert h; simp only [solutionName]; decide

theorem solutionName_cut_course (s : HorizontalSolution)
    (h : solutionName s = "Cut Course") : ∃ rs, s = .cut rs := by
  cases s with
  | full rs => exfalso; revert h; simp only [solutionName]; decide
  | split rs => exfalso; revert h; simp only [solutionName]; decide
  | cut rs => exact ⟨rs, rfl⟩

/-- The fields of the horizontal record that do not depend on the tier. -/
theorem buildRecord_solution (inp : HorizontalInputs) (first : ℚ) (s : HorizontalSolution)
    (rec : HorizontalResult) (h : inp.buildRecord first s = .ok rec) :
    rec.width = first ∧ rec.solution = solutionName s := by
  cases s with
  | full rs =>
    cases rs with
    | nil => simp [buildRecord] at h
    | cons a rest =>
      simp only [buildRecord, Except.ok.injEq] at h
      subst h
      exact ⟨rfl, rfl⟩
  | split rs =>
    cases rs with
    | nil => simp [buildRecord] at h
    | cons a rest =>
      simp only [buildRecord, Except.ok.injEq] at h
      subst h
      exact ⟨rfl, rfl⟩
  | cut rs =>
    cases rs with
    | nil => simp [buildRecord] at h
    | cons a rest =>
      simp only [buildRecord, Except.ok.injEq] at h
      subst h
      exact ⟨rfl, rfl⟩

end HorizontalInputs

/-- C13: when `calculateHorizontal` returns "Split Sets" on a request with integer
`0 ≤ minSpacing ≤ maxSpacing` (cover width plus either bound non-zero), the
group sizes satisfy `n1 ≥ 1`, `n2 ≥ 1` and `n1 + n2 = tilesWide - 1`, and for
every width `spacing1` and `spacing2` lie in `[minSpacing, maxSpacing]`, with
either `spacing1 = maxSpacing` and `spacing2 ≥ (minSpacing + maxSpacing) / 2`,
or `spacing1 = spacing2`. -/
theorem calculateHorizontal_split_sets_spacings (inp : HorizontalInputs) (a b : ℤ)
    (hmin : inp.tileCoverWidth + inp.minSpacing ≠ 0)
    (hmax : inp.tileCoverWidth + inp.maxSpacing ≠ 0)
    (ha : inp.minSpacing = a) (hb : inp.maxSpacing = b) (h0 : 0 ≤ a) (hab : a ≤ b)
    (rec : HorizontalResult) (hrec : calculateHorizontal inp = .ok rec)
    (htier : rec.solution = "Split Sets") :
    ∃ tilesWide widthResults, inp.solve = (tilesWide, some (.split widthResults)) ∧
      ∃ n1 n2 : ℤ, 1 ≤ n1 ∧ 1 ≤ n2 ∧ n1 + n2 = tilesWide - 1 ∧
        inp.splitCandidate tilesWide n1 = some widthResults ∧
        List.Forall₂ (fun (_width : ℚ) (r : SplitWidthResult) =>
          (inp.minSpacing ≤ r.spacing1 ∧ r.spacing1 ≤ inp.maxSpacing) ∧
          (inp.minSpacing ≤ r.spacing2 ∧ r.spacing2 ≤ inp.maxSpacing) ∧
          ((r.spacing1 = inp.maxSpacing ∧ (inp.minSpacing + inp.maxSpacing) / 2 ≤ r.spacing2) ∨
            r.spacing1 = r.spacing2))
          inp.widths widthResults := by
  have _ := h0
  have _ := hmin
  have _ := hmax
  obtain ⟨_, tw, s, first, rest, _, hs, hbuild⟩ := calculateHorizontal_ok inp rec hrec
  obtain ⟨_, hname⟩ := inp.buildRecord_solution first s rec hbuild
  rw [hname] at htier
  obtain ⟨rs, rfl⟩ := HorizontalInputs.solutionName_split_sets s htier
  obtain ⟨_, n1, h1, h2, hc⟩ := inp.solve_split_horizontal tw rs hs
  obtain ⟨_, hall⟩ := inp.splitCandidate_some_horizontal tw n1 rs hc
  refine ⟨tw, rs, hs, n1, tw - 1 - n1, h1, h2, by ring, hc, hall.imp ?_⟩
  intro width r hwr
  obtain ⟨r1, hr1, e1, e2, _⟩ := inp.splitWidth_eq tw n1 (tw - 1 - n1)
    (width + inp.overhangLeft + inp.overhangRight - inp.widthReduction)
  rw [hr1] at hwr
  simp only [Option.some.injEq] at hwr
  subst hwr
  rw [e1, e2]
  exact inp.splitSpacings_mem a b ha hb hab _ _ _ _

/-- C13 on a 3050 mm width with spacing 10..12: ten tiles, groups of 1 and 8 gaps,
both spacings 12. -/
theorem calculateHorizontal_split_sets_spacings_witness :
    (splitSets.tileCoverWidth + splitSets.minSpacing ≠ 0 ∧
      splitSets.tileCoverWidth + splitSets.maxSpacing ≠ 0 ∧
      splitSets.minSpacing = ((10 : ℤ) : ℚ) ∧ splitSets.maxSpacing = ((12 : ℤ) : ℚ)) ∧
    splitSets.solve = (10, some (.split [splitSetsWidthResult])) ∧
    (splitSets.minSpacing ≤ splitSetsWidthResult.spacing1 ∧
      splitSetsWidthResult.spacing1 ≤ splitSets.maxSpacing) ∧
    (splitSets.minSpacing ≤ splitSetsWidthResult.spacing2 ∧
      splitSetsWidthResult.spacing2 ≤ splitSets.maxSpacing) := by
  have hs : splitSets.solve = (10, some (.split [splitSetsWidthResult])) := by decide!
  have hrec : calculateHorizontal splitSets = .ok splitSetsResult := by with_unfolding_all rfl
  refine ⟨⟨by decide!, by decide!, by decide!, by decide!⟩, hs, ?_⟩
  obtain ⟨tw, rs, hs', n1, n2, _, _, _, _, h⟩ := calculateHorizontal_split_sets_spacings
    splitSets 10 12 (by decide!) (by decide!) (by decide!) (by decide!) (by decide)
    (by decide) splitSetsResult hrec
    (by decide!)
  rw [hs] at hs'
  cases hs'
  have h' : List.Forall₂ (fun (_width : ℚ) (r : SplitWidthResult) =>
      (splitSets.minSpacing ≤ r.spacing1 ∧ r.spacing1 ≤ splitSets.maxSpacing) ∧
      (splitSets.minSpacing ≤ r.spacing2 ∧ r.spacing2 ≤ splitSets.maxSpacing) ∧
      ((r.spacing1 = splitSets.maxSpacing ∧
          (splitSets.minSpacing + splitSets.maxSpacing) / 2 ≤ r.spacing2) ∨
        r.spacing1 = r.spacing2)) [(3050 : ℚ)] [splitSetsWidthResult] := h
  obtain ⟨h1, h2, _⟩ := (List.forall₂_cons.mp h').1
  exact ⟨h1, h2⟩

namespace HorizontalInputs

/-- With three or more tiles the split tier accepts its first split point. -/
theorem splitTier_isSome_of_three (inp : HorizontalInputs) (tilesWide : ℤ)
    (h : 3 ≤ tilesWide) : ∃ rs, inp.splitTier tilesWide = some rs ∧
      inp.splitCandidate tilesWide 1 = some rs := by
  have hcand : (inp.splitCandidate tilesWide 1).isSome = true := by
    unfold splitCandidate
    simp only
    rw [if_neg (by omega)]
    apply allResults_isSome_of_forall
    intro d _
    obtain ⟨r, hr, _⟩ := inp.splitWidth_eq tilesWide 1 (tilesWide - 1 - 1) d
    rw [hr]
    rfl
  obtain ⟨rs, hrs⟩ := Option.isSome_iff_exists.mp hcand
  refine ⟨rs, ?_, hrs⟩
  unfold splitTier
  obtain ⟨k, hk⟩ : ∃ k : ℕ, (tilesWide - 2).toNat = k + 1 := ⟨(tilesWide - 2).toNat - 1, by omega⟩
  rw [hk]
  unfold splitLoop
  rw [hrs]

/-- The cut tier is reached only with at most two tiles. -/
theorem splitTier_none (inp : HorizontalInputs) (tilesWide : ℤ)
    (h : inp.splitTier tilesWide = none) : tilesWide ≤ 2 := by
  by_contra hlt
  push_neg at hlt
  obtain ⟨rs, hrs, _⟩ := inp.splitTier_isSome_of_three tilesWide (by omega)
  rw [hrs] at h
  cases h

theorem half_intCast_le_jsRound (c : ℤ) : (c : ℚ) / 2 ≤ jsRound ((c : ℚ) / 2) := by
  have h1 := lt_jsRound ((c : ℚ) / 2)
  unfold jsRound at h1 ⊢
  have h2 : (c : ℚ) - 1 < 2 * ((⌊(c : ℚ) / 2 + 1 / 2⌋ : ℤ) : ℚ) := by linarith
  have h3 : c - 1 < 2 * ⌊(c : ℚ) / 2 + 1 / 2⌋ := by exact_mod_cast h2
  have h4 : c ≤ 2 * ⌊(c : ℚ) / 2 + 1 / 2⌋ := by omega
  have h5 : (c : ℚ) ≤ 2 * ((⌊(c : ℚ) / 2 + 1 / 2⌋ : ℤ) : ℚ) := by exact_mod_cast h4
  linarith

theorem hundred_le_jsRound {x : ℚ} (h : 100 - 1 / 2 ≤ x) : 100 ≤ jsRound x := by
  have h1 : jsRound (100 - 1 / 2) = 100 := by
    unfold jsRound
    norm_num
  rw [← h1]
  exact jsRound_mono h

theorem cutSpacing_of_tooSmall (inp : HorizontalInputs) (tilesWide : ℤ)
    (h : inp.cutTooSmall tilesWide = true) :
    inp.cutSpacing tilesWide
      = clampRound (inp.cutTotalSpacing tilesWide) inp.minSpacing inp.maxSpacing := by
  unfold cutSpacing
  rw [if_pos h]
  rfl

end HorizontalInputs

/-- C14 (amended): when `calculateHorizontal` returns "Cut Course" on a request with
integer `tileCoverWidth > 0` and `0 ≤ minSpacing ≤ maxSpacing`, at most two
tiles are laid and "Cut Tile" is `cutTileWidth`.  If the remainder is not
below both half the cover width and 100, the cut tile is the rounded remainder
and is at least `min (tileCoverWidth / 2) 100`.  If it is below both and the
re-derived spacing `totalSpacing` lies in `[minSpacing, maxSpacing]`, so that
it is not clamped, the cut tile is at least 100. -/
theorem calculateHorizontal_cut_tile_floor (inp : HorizontalInputs) (c : ℤ)
    (hc : inp.tileCoverWidth = c) (hpos : 0 < inp.tileCoverWidth)
    (h0 : 0 ≤ inp.minSpacing) (hle : inp.minSpacing ≤ inp.maxSpacing)
    (rec : HorizontalResult) (hrec : calculateHorizontal inp = .ok rec)
    (htier : rec.solution = "Cut Course") :
    ∃ tilesWide, inp.solve = (tilesWide, some (.cut (inp.cutTier tilesWide))) ∧
      tilesWide ≤ 2 ∧ rec.cutTile = some (inp.cutTileWidth tilesWide) ∧
      (inp.cutTooSmall tilesWide = false →
        inp.cutTileWidth tilesWide = jsRound (inp.cutWidthRemainder tilesWide) ∧
        min (inp.tileCoverWidth / 2) 100 ≤ inp.cutTileWidth tilesWide) ∧
      (inp.cutTooSmall tilesWide = true →
        inp.minSpacing ≤ inp.cutTotalSpacing tilesWide →
        inp.cutTotalSpacing tilesWide ≤ inp.maxSpacing →
        100 ≤ inp.cutTileWidth tilesWide ∧
        min (inp.tileCoverWidth / 2) 100 ≤ inp.cutTileWidth tilesWide) := by
  have _ := hpos
  have _ := hle
  obtain ⟨_, tw, s, first, rest, hw, hs, hbuild⟩ := calculateHorizontal_ok inp rec hrec
  obtain ⟨_, hname⟩ := inp.buildRecord_solution first s rec hbuild
  rw [hname] at htier
  obtain ⟨rs, rfl⟩ := HorizontalInputs.solutionName_cut_course s htier
  obtain ⟨_, hsplit, hrs⟩ := inp.solve_cut_horizontal tw rs hs
  subst hrs
  have htw : tw ≤ 2 := inp.splitTier_none tw hsplit
  refine ⟨tw, hs, htw, ?_, ?_, ?_⟩
  · have hct : inp.cutTier tw = inp.cutWidth tw
        (first + inp.overhangLeft + inp.overhangRight - inp.widthReduction)
        :: (rest.map (fun width => width + inp.overhangLeft + inp.overhangRight
          - inp.widthReduction)).map (inp.cutWidth tw) := by
      simp only [HorizontalInputs.cutTier, HorizontalInputs.desiredTotalWidths, hw,
        List.map_cons]
    rw [hct] at hbuild
    simp only [HorizontalInputs.buildRecord, Except.ok.injEq] at hbuild
    rw [← hbuild]
    rfl
  · intro hsmall
    have hcw : inp.cutTileWidth tw = jsRound (inp.cutWidthRemainder tw) := by
      unfold HorizontalInputs.cutTileWidth
      rw [if_neg (by rw [hsmall]; decide)]
    refine ⟨hcw, ?_⟩
    rw [hcw]
    have hnot : ¬ (inp.cutWidthRemainder tw < inp.tileCoverWidth / 2 ∧
        inp.cutWidthRemainder tw < 100) := by
      intro hh
      have : inp.cutTooSmall tw = true := by
        unfold HorizontalInputs.cutTooSmall
        simp [hh.1, hh.2]
      rw [this] at hsmall
      cases hsmall
    rcases not_and_or.mp hnot with h1 | h1
    · push_neg at h1
      calc min (inp.tileCoverWidth / 2) 100 ≤ inp.tileCoverWidth / 2 := min_le_left _ _
        _ ≤ jsRound (inp.tileCoverWidth / 2) := by
            rw [hc]; exact HorizontalInputs.half_intCast_le_jsRound c
        _ ≤ jsRound (inp.cutWidthRemainder tw) := jsRound_mono h1
    · push_neg at h1
      calc min (inp.tileCoverWidth / 2) 100 ≤ 100 := min_le_right _ _
        _ ≤ jsRound (inp.cutWidthRemainder tw) :=
            HorizontalInputs.hundred_le_jsRound (by linarith)
  · intro hsmall hlo hhi
    have hsp : inp.cutSpacing tw = jsRound (inp.cutTotalSpacing tw) := by
      rw [inp.cutSpacing_of_tooSmall tw hsmall, clampRound_of_mem hlo hhi]
    have hcw : inp.cutTileWidth tw = jsRound (inp.maxDesiredTotalWidth
        - (inp.tilesOnlyWidth tw + HorizontalInputs.gapsTimes tw (inp.cutSpacing tw))) := by
      unfold HorizontalInputs.cutTileWidth
      rw [if_pos hsmall]
    have htarget : (100 : ℚ) ≤ max (inp.tileCoverWidth / 2) 100 := le_max_right _ _
    have h100 : 100 ≤ inp.cutTileWidth tw := by
      rw [hcw]
      apply HorizontalInputs.hundred_le_jsRound
      by_cases h2 : tw > 1
      · have htw2 : tw = 2 := by omega
        have hts : inp.cutTotalSpacing tw = inp.maxDesiredTotalWidth
            - max (inp.tileCoverWidth / 2) 100 - inp.tilesOnlyWidth tw := by
          unfold HorizontalInputs.cutTotalSpacing HorizontalInputs.gapDivisor
          rw [if_pos h2, htw2]
          norm_num
        have hg : HorizontalInputs.gapsTimes tw (inp.cutSpacing tw) = jsRound (inp.cutTotalSpacing tw) := by
          unfold HorizontalInputs.gapsTimes
          rw [if_pos h2, hsp, htw2]
          norm_num
        rw [hg]
        have := jsRound_le (inp.cutTotalSpacing tw)
        linarith
      · have hts : inp.cutTotalSpacing tw = inp.maxDesiredTotalWidth
            - max (inp.tileCoverWidth / 2) 100 - inp.tilesOnlyWidth tw := by
          unfold HorizontalInputs.cutTotalSpacing HorizontalInputs.gapDivisor
          rw [if_neg h2]
          norm_num
        have hg : HorizontalInputs.gapsTimes tw (inp.cutSpacing tw) = 0 := by
          unfold HorizontalInputs.gapsTimes
          rw [if_neg h2]
        rw [hg]
        linarith
    exact ⟨h100, le_trans (min_le_right _ _) h100⟩

/-- C14 fails as stated.  On a 600 mm width the remainder 60 is below both 150 and
100, the re-derived spacing -50 is clamped at `minSpacing = 10`, and
"Cut Tile" is 90, below `min (300 / 2) 100 = 100`.  With the cover width
194.4 the remainder 97.3 is not below half the cover width, 97.2, and is
rounded to 97, below it. -/
theorem calculateHorizontal_cut_tile_counterexample :
    (calculateHorizontal smallCutTile = .ok
        { width := 600, solution := "Cut Course", newWidth := 700, lhOverhang := some 50,
          rhOverhang := some 50, cutTile := some 90, firstMark := 620, secondMark := none,
          marks := (0, 3, 930), splitMarks := none } ∧
      smallCutTile.cutWidthRemainder 2 = 60 ∧ smallCutTile.cutTotalSpacing 2 = -50 ∧
      ¬ min (smallCutTile.tileCoverWidth / 2) 100 ≤ (90 : ℚ)) ∧
    (calculateHorizontal fractionalCover = .ok
        { width := 500, solution := "Cut Course", newWidth := 490, lhOverhang := none,
          rhOverhang := none, cutTile := some 97, firstMark := 397, secondMark := none,
          marks := (0, 3, 595), splitMarks := none } ∧
      fractionalCover.cutWidthRemainder 2 = 973 / 10 ∧
      ¬ min (fractionalCover.tileCoverWidth / 2) 100 ≤ (97 : ℚ)) := by
  refine ⟨⟨by with_unfolding_all rfl, by decide!, by decide!, by decide!⟩,
    ⟨by with_unfolding_all rfl, by decide!, by decide!⟩⟩

/-- C14 (amended) on a 530 mm width between abutments: the remainder 80 is below
both 100 and 100, the re-derived spacing 20 lies in `[10, 40]`, and the cut
tile is 100. -/
theorem calculateHorizontal_cut_tile_floor_witness :
    (enlargedCutTile.tileCoverWidth = ((200 : ℤ) : ℚ) ∧ 0 < enlargedCutTile.tileCoverWidth ∧
      0 ≤ enlargedCutTile.minSpacing ∧
      enlargedCutTile.minSpacing ≤ enlargedCutTile.maxSpacing) ∧
    (enlargedCutTile.cutTooSmall 2 = true ∧
      enlargedCutTile.minSpacing ≤ enlargedCutTile.cutTotalSpacing 2 ∧
      enlargedCutTile.cutTotalSpacing 2 ≤ enlargedCutTile.maxSpacing) ∧
    100 ≤ enlargedCutTile.cutTileWidth 2 ∧
    min (enlargedCutTile.tileCoverWidth / 2) 100 ≤ enlargedCutTile.cutTileWidth 2 := by
  have hrec : calculateHorizontal enlargedCutTile = .ok
      { width := 530, solution := "Cut Course", newWidth := 520, lhOverhang := none,
        rhOverhang := none, cutTile := some 100, firstMark := 440, secondMark := none,
        marks := (0, 3, 660), splitMarks := none } := by with_unfolding_all rfl
  obtain ⟨tw, hs, _, _, _, h⟩ := calculateHorizontal_cut_tile_floor enlargedCutTile 200
    (by decide!) (by decide!) (by decide!) (by decide!) _ hrec (by decide!)
  have htw : tw = 2 := by
    have e : enlargedCutTile.solve.1 = 2 := by decide!
    rw [hs] at e
    exact e
  subst htw
  exact ⟨⟨by decide!, by decide!, by decide!, by decide!⟩,
    ⟨by decide!, by decide!, by decide!⟩, h (by decide!) (by decide!) (by decide!)⟩

/-! ## Defects -/

/-- C15 fails on the code: with a left abutment, `useDryVerge = "YES"` still sets the
right base overhang to 40 and the overhang bounds to 20..40, since both are
computed before `useDryVerge` is reassigned; "New Width" is 3035 instead of
the 3045 of `useDryVerge = "NO"`. -/
theorem calculateHorizontal_abutment_dry_verge_differs :
    calculateHorizontal scenarioBDryVerge = .ok
      { width := 3000, solution := "Even Sets", newWidth := 3035, lhOverhang := none,
        rhOverhang := none, cutTile := none, firstMark := 674, secondMark := none,
        marks := (2, 3, 1011), splitMarks := none } ∧
    calculateHorizontal scenarioB = .ok scenarioBResult ∧
    scenarioBDryVerge.dryVergeFlag = "NO" ∧
    (scenarioBDryVerge.overhangRight = 40 ∧ scenarioBDryVerge.minOverhang = 20 ∧
      scenarioBDryVerge.maxOverhang = 40) ∧
    (scenarioB.overhangRight = 50 ∧ scenarioB.minOverhang = 25 ∧
      scenarioB.maxOverhang = 75) ∧
    calculateHorizontal scenarioBDryVerge ≠ calculateHorizontal scenarioB := by
  have h1 : calculateHorizontal scenarioBDryVerge = .ok
      { width := 3000, solution := "Even Sets", newWidth := 3035, lhOverhang := none,
        rhOverhang := none, cutTile := none, firstMark := 674, secondMark := none,
        marks := (2, 3, 1011), splitMarks := none } := by with_unfolding_all rfl
  have h2 : calculateHorizontal scenarioB = .ok scenarioBResult := by with_unfolding_all rfl
  refine ⟨h1, h2, by decide!, ⟨by decide!, by decide!, by decide!⟩,
    ⟨by decide!, by decide!, by decide!⟩, ?_⟩
  rw [h1, h2]
  intro h
  have h3 := Except.ok.inj h
  revert h3
  decide!

/-- C16 fails on the code: with a left abutment the leading tile is switched off,
yet `firstMark` still adds `lhTileWidth`; a requested 150 mm leading tile
moves "1st Mark" from 676 to 826. -/
theorem calculateHorizontal_abutment_leading_tile_differs :
    calculateHorizontal scenarioBLeadingTile = .ok
      { width := 3000, solution := "Even Sets", newWidth := 3045, lhOverhang := none,
        rhOverhang := none, cutTile := none, firstMark := 826, secondMark := none,
        marks := (2, 3, 1014), splitMarks := none } ∧
    calculateHorizontal { scenarioBLeadingTile with useLHTile := "NO", lhTileWidth := 0 }
      = .ok scenarioBResult ∧
    scenarioBLeadingTile.lhTileFlag = "NO" ∧ scenarioBLeadingTile.lhWidth = 0 ∧
    calculateHorizontal scenarioBLeadingTile ≠
      calculateHorizontal { scenarioBLeadingTile with useLHTile := "NO", lhTileWidth := 0 } := by
  have h1 : calculateHorizontal scenarioBLeadingTile = .ok
      { width := 3000, solution := "Even Sets", newWidth := 3045, lhOverhang := none,
        rhOverhang := none, cutTile := none, firstMark := 826, secondMark := none,
        marks := (2, 3, 1014), splitMarks := none } := by with_unfolding_all rfl
  have h2 : calculateHorizontal
      { scenarioBLeadingTile with useLHTile := "NO", lhTileWidth := 0 }
      = .ok scenarioBResult := by with_unfolding_all rfl
  refine ⟨h1, h2, by decide!, by decide!, ?_⟩
  rw [h1, h2]
  intro h
  have h3 := Except.ok.inj h
  revert h3
  decide!

/-- C20 fails on the code: on a "Split Gauge" result of 8 courses split into 5 and 1,
"Gauge" reads `7 @ 251` (`n_spaces - 1`, not `n1 = 5`) and "Split Gauge"
`1 @ 255`; the displayed record rebuilds `475 + 7 * 251 + 1 * 255 + 26 = 2513`
against the input rafter 2011, while step 8 rebuilds 2011 with `n1`. -/
theorem calculateVertical_split_gauge_record :
    calculateVertical splitGaugeRequest = .ok splitGaugeResult ∧
    splitGaugeRequest.solve = some (.split 8 5 1
      [{ gauge1 := 251, gauge2 := 255, effectiveRidgeOffset := 26 }]) ∧
    splitGaugeResult.gauge = (7, 251) ∧ splitGaugeResult.splitGauge = some (1, 255) ∧
    splitGaugeResult.firstBatten + ((7 : ℤ) : ℚ) * 251 + ((1 : ℤ) : ℚ) * 255
      + splitGaugeResult.ridgeOffset = 2513 ∧
    ¬ |splitGaugeResult.firstBatten + ((7 : ℤ) : ℚ) * 251 + ((1 : ℤ) : ℚ) * 255
      + splitGaugeResult.ridgeOffset - splitGaugeResult.inputRafter| ≤ 3 ∧
    splitGaugeRequest.computedTotalSplit 5 1
      { gauge1 := 251, gauge2 := 255, effectiveRidgeOffset := 26 } = 2011 := by
  refine ⟨except_eq_ok_of_decide _ _ (by decide!), by decide!, by decide!, by decide!, by decide!,
    by decide!, by decide!⟩

/-! ## The full tiers as first accepted candidate -/

namespace HorizontalInputs

/-- A `full` solution of the cascade is the first accepted tile count. -/
theorem solve_full_least_horizontal (inp : HorizontalInputs) (tw : ℤ) (rs : List FullWidthResult)
    (h : inp.solve = (tw, some (.full rs))) :
    ∀ j, inp.minTileCount ≤ j → j < tw → inp.fullCandidate j = none := by
  rcases inp.solve_cases_horizontal with ⟨tw1, rs1, hf, hs⟩ | ⟨tw1, rs1, _, _, hs⟩ |
    ⟨tw1, _, _, hs⟩
  · rw [hs] at h
    simp only [Prod.mk.injEq, Option.some.injEq, HorizontalSolution.full.injEq] at h
    obtain ⟨e1, e2⟩ := h
    subst e1 e2
    exact (inp.fullLoop_some_horizontal _ _ _ _ _ hf).2.2.2
  · rw [hs] at h
    simp at h
  · rw [hs] at h
    simp at h

/-- A tile count is accepted exactly when it leaves a regular tile, its spacing is
within the spacing bounds and no width fails the overhang test. -/
theorem fullCandidate_isSome_iff_overhangs (inp : HorizontalInputs) (k : ℤ) :
    (inp.fullCandidate k).isSome = true ↔
      (0 < inp.regularTiles k ∧ inp.minSpacing ≤ inp.fullSpacing k ∧
        inp.fullSpacing k ≤ inp.maxSpacing ∧
        ∀ width ∈ inp.widths, inp.overhangOutOfBounds
          (inp.newOverhangLeft
            (width + inp.overhangLeft + inp.overhangRight - inp.widthReduction)
            (inp.fullTiledWidth k))
          (inp.newOverhangRight
            (width + inp.overhangLeft + inp.overhangRight - inp.widthReduction)
            (inp.fullTiledWidth k)) = false) := by
  rw [inp.fullCandidate_isSome_iff k]
  constructor
  · rintro ⟨h1, h2, h3⟩
    exact ⟨h1, h2, h3, fun _ _ => inp.overhangOutOfBounds_new _ _⟩
  · rintro ⟨h1, h2, h3, _⟩
    exact ⟨h1, h2, h3⟩

end HorizontalInputs

/-- C17: `calculateHorizontal` returns "Even Sets" exactly when some tile count `k`
in `[minTileCount, maxTileCount]` is accepted: at least one regular tile, the
spacing `floor(remaining / regularTiles) - tileCoverWidth` within
`[minSpacing, maxSpacing]`, and every width of the batch passing the overhang
test.  The layout then uses the smallest such `k`: every smaller candidate of
the range was skipped.  The bounds are `floor(remaining / (cover + maxSpacing))`
and `floor(remaining / (cover + minSpacing))`, each plus 1 with an LH tile. -/
theorem calculateHorizontal_even_sets_iff (inp : HorizontalInputs)
    (hmin : inp.tileCoverWidth + inp.minSpacing ≠ 0)
    (hmax : inp.tileCoverWidth + inp.maxSpacing ≠ 0)
    (rec : HorizontalResult) (hrec : calculateHorizontal inp = .ok rec) :
    (inp.minTileCount = ⌊inp.remainingWidth / (inp.tileCoverWidth + inp.maxSpacing)⌋
        + (if inp.lhTileFlag = "YES" then 1 else 0)) ∧
    (inp.maxTileCount = ⌊inp.remainingWidth / (inp.tileCoverWidth + inp.minSpacing)⌋
        + (if inp.lhTileFlag = "YES" then 1 else 0)) ∧
    (∀ k, inp.regularTiles k = k - (if inp.lhTileFlag = "YES" then 1 else 0) ∧
      inp.fullSpacing k
        = (⌊inp.remainingWidth / (inp.regularTiles k : ℚ)⌋ : ℤ) - inp.tileCoverWidth) ∧
    (∀ k, (inp.fullCandidate k).isSome = true ↔
      (0 < inp.regularTiles k ∧ inp.minSpacing ≤ inp.fullSpacing k ∧
        inp.fullSpacing k ≤ inp.maxSpacing ∧
        ∀ width ∈ inp.widths, inp.overhangOutOfBounds
          (inp.newOverhangLeft
            (width + inp.overhangLeft + inp.overhangRight - inp.widthReduction)
            (inp.fullTiledWidth k))
          (inp.newOverhangRight
            (width + inp.overhangLeft + inp.overhangRight - inp.widthReduction)
            (inp.fullTiledWidth k)) = false)) ∧
    (rec.solution = "Even Sets" ↔
      ∃ k, inp.minTileCount ≤ k ∧ k ≤ inp.maxTileCount ∧
        (inp.fullCandidate k).isSome = true) ∧
    (rec.solution = "Even Sets" →
      ∃ k widthResults, inp.solve = (k, some (.full widthResults)) ∧
        inp.fullCandidate k = some widthResults ∧
        inp.minTileCount ≤ k ∧ k ≤ inp.maxTileCount ∧
        ∀ j, inp.minTileCount ≤ j → j < k → inp.fullCandidate j = none) := by
  have _ := hmin
  have _ := hmax
  obtain ⟨hv, tw, s, first, rest, _, hs, hbuild⟩ := calculateHorizontal_ok inp rec hrec
  obtain ⟨_, hname⟩ := inp.buildRecord_solution first s rec hbuild
  have hfwd : rec.solution = "Even Sets" →
      ∃ k widthResults, inp.solve = (k, some (.full widthResults)) ∧
        inp.fullCandidate k = some widthResults ∧
        inp.minTileCount ≤ k ∧ k ≤ inp.maxTileCount ∧
        ∀ j, inp.minTileCount ≤ j → j < k → inp.fullCandidate j = none := by
    intro htier
    rw [hname] at htier
    obtain ⟨rs, rfl⟩ := HorizontalInputs.solutionName_even_sets s htier
    obtain ⟨h1, h2, hc⟩ := inp.solve_full_horizontal tw rs hs
    exact ⟨tw, rs, hs, hc, h1, h2, inp.solve_full_least_horizontal tw rs hs⟩
  refine ⟨rfl, rfl, fun k => ⟨rfl, rfl⟩, inp.fullCandidate_isSome_iff_overhangs, ⟨?_, ?_⟩, hfwd⟩
  · intro htier
    obtain ⟨k, rs, _, hc, h1, h2, _⟩ := hfwd htier
    exact ⟨k, h1, h2, by rw [hc]; rfl⟩
  · rintro ⟨k, h1, h2, hc⟩
    obtain ⟨tw', rs', hs'⟩ := inp.solve_full_of_candidate_horizontal k h1 h2 hc
    rw [hs] at hs'
    simp only [Prod.mk.injEq, Option.some.injEq] at hs'
    rw [hname, hs'.2]
    rfl

/-- C17 on scenario A: the range is 9..10, tile count 9 is skipped (spacing 44) and
tile count 10 is accepted. -/
theorem calculateHorizontal_even_sets_iff_witness :
    (scenarioA.tileCoverWidth + scenarioA.minSpacing ≠ 0 ∧
      scenarioA.tileCoverWidth + scenarioA.maxSpacing ≠ 0) ∧
    (scenarioA.minTileCount = 9 ∧ scenarioA.maxTileCount = 10) ∧
    scenarioA.fullCandidate 9 = none ∧
    ∃ k widthResults, scenarioA.solve = (k, some (.full widthResults)) ∧
      scenarioA.fullCandidate k = some widthResults ∧
      scenarioA.minTileCount ≤ k ∧ k ≤ scenarioA.maxTileCount ∧
      ∀ j, scenarioA.minTileCount ≤ j → j < k → scenarioA.fullCandidate j = none :=
  ⟨⟨by decide!, by decide!⟩, ⟨by decide!, by decide!⟩, by decide!,
    (calculateHorizontal_even_sets_iff scenarioA (by decide!) (by decide!) scenarioAResult
      scenarioA_result).2.2.2.2.2 (by decide!)⟩

namespace VerticalInputs

theorem allResults_map_some {α : Type} (l : List α) :
    allResults (l.map (some : α → Option α)) = some l := by
  have := allResults_map_of_forall (some : α → Option α) id l (fun _ _ => rfl)
  simpa using this

theorem map_eq_map_some_of_forall₂ {α β : Type} (f : α → Option β) :
    ∀ (l : List α) (l2 : List β), List.Forall₂ (fun a r => f a = some r) l l2 →
      l.map f = l2.map some := by
  intro l l2 hf
  induction hf with
  | nil => rfl
  | cons hab _ ih => simp [hab, ih]

/-- A course count is accepted at an anchor exactly when every rafter has a gauge
(not `NaN`) and an effective ridge offset within `[ridgeOffsetMin, 65]`. -/
theorem fullCandidate_iff (inp : VerticalInputs) (anchor : ℚ) (n : ℤ)
    (rs : List FullRafterResult) :
    inp.fullCandidate anchor n = some rs ↔
      (List.Forall₂ (fun height r => inp.fullRafter anchor n height = some r)
          inp.rafterHeights rs ∧
        ∀ r ∈ rs, inp.ridgeOffsetMin ≤ r.effectiveRidgeOffset ∧ r.effectiveRidgeOffset ≤ 65) := by
  constructor
  · intro h
    obtain ⟨h1, h2⟩ := inp.fullCandidate_some_vertical anchor n rs h
    exact ⟨h1, fun r hr => (inp.withinRidgeOffset_iff _).mp (h2 r hr)⟩
  · rintro ⟨h1, h2⟩
    unfold fullCandidate
    rw [map_eq_map_some_of_forall₂ _ _ _ h1, allResults_map_some]
    have hw : rs.all (fun r => inp.withinRidgeOffset r.effectiveRidgeOffset) = true := by
      rw [List.all_eq_true]
      exact fun r hr => (inp.withinRidgeOffset_iff _).mpr (h2 r hr)
    simp only [hw, if_true]

/-- The `Total Courses` of a record is the `n_spaces` of its solution. -/
theorem buildRecord_totalCourses (inp : VerticalInputs) (first : ℚ) (s : VerticalSolution)
    (rec : VerticalResult) (h : inp.buildRecord first s = .ok rec) :
    rec.totalCourses = match s with
      | .full n _ => n
      | .split n _ _ _ => n
      | .cut n _ => n := by
  cases s with
  | full n rs =>
    cases rs with
    | nil => simp [buildRecord] at h
    | cons a rest =>
      simp only [buildRecord, Except.ok.injEq] at h
      subst h
      rfl
  | split n n1 n2 rs =>
    cases rs with
    | nil => simp [buildRecord] at h
    | cons a rest =>
      simp only [buildRecord, Except.ok.injEq] at h
      subst h
      rfl
  | cut n rs =>
    cases rs with
    | nil => simp [buildRecord] at h
    | cons a rest =>
      simp only [buildRecord, Except.ok.injEq] at h
      subst h
      rfl

/-- A `full` solution of the cascade is the first accepted course count, at the
`ridgeOffsetMin` anchor when that one is accepted. -/
theorem solve_full_least_vertical (inp : VerticalInputs) (n : ℤ) (rs : List FullRafterResult)
    (h : inp.solve = some (.full n rs)) :
    (inp.fullCandidate inp.ridgeOffsetMin n = some rs ∨
      (inp.fullCandidate inp.ridgeOffsetMin n = none ∧
        inp.fullCandidate inp.ridgeOffsetMax n = some rs)) ∧
    ∀ j, inp.minCourses ≤ j → j < n →
      inp.fullCandidate inp.ridgeOffsetMin j = none ∧
      inp.fullCandidate inp.ridgeOffsetMax j = none := by
  rcases inp.solve_cases_vertical with ⟨s, hf, hs⟩ | ⟨s, _, hsp, hs⟩ | ⟨_, _, hs⟩
  · rw [hs] at h
    simp only [Option.some.injEq] at h
    subst h
    obtain ⟨m, rs1, heq, _, _, hc, hj⟩ := inp.fullLoop_some_vertical _ _ _ hf
    simp only [VerticalSolution.full.injEq] at heq
    obtain ⟨hn, hrs⟩ := heq
    subst hn hrs
    exact ⟨hc, hj⟩
  · rw [hs] at h
    simp only [Option.some.injEq] at h
    subst h
    obtain ⟨m, n1, _, _, _, _, hc⟩ := inp.splitLoop_some_vertical _ _ _ hsp
    have := (inp.splitCandidate_some_vertical m n1 _ hc).2.1
    cases this
  · rw [hs] at h
    simp [cutTier] at h

end VerticalInputs

/-- C18: `calculateVertical` returns "Full Courses" exactly when some course count
`n` in `[minCourses, maxCourses]` is accepted at the `ridgeOffsetMin` anchor
or at the `ridgeOffsetMax` anchor: every rafter's clamped and rounded gauge
leaves an effective ridge offset within `[ridgeOffsetMin, 65]`.
"Total Courses" is then the smallest such `n`, with the `ridgeOffsetMin`
anchored results whenever that anchor is accepted.  The bounds are
`ceil((maxRafter - firstBatten - 65) / maxGauge) + 1` and
`floor((maxRafter - firstBatten - ridgeOffsetMin) / minGauge) + 1`. -/
theorem calculateVertical_full_courses_iff (inp : VerticalInputs)
    (hmin : inp.minGauge ≠ 0) (hmax : inp.maxGauge ≠ 0)
    (rec : VerticalResult) (hrec : calculateVertical inp = .ok rec) :
    (inp.minCourses = ⌈(inp.maxRafterHeight - inp.firstBatten - 65) / inp.maxGauge⌉ + 1) ∧
    (inp.maxCourses
      = ⌊(inp.maxRafterHeight - inp.firstBatten - inp.ridgeOffsetMin) / inp.minGauge⌋ + 1) ∧
    (∀ anchor n rs, inp.fullCandidate anchor n = some rs ↔
      (List.Forall₂ (fun height r => inp.fullRafter anchor n height = some r)
          inp.rafterHeights rs ∧
        ∀ r ∈ rs, inp.ridgeOffsetMin ≤ r.effectiveRidgeOffset ∧ r.effectiveRidgeOffset ≤ 65)) ∧
    (rec.solution = "Full Courses" ↔
      ∃ n, inp.minCourses ≤ n ∧ n ≤ inp.maxCourses ∧
        ((inp.fullCandidate inp.ridgeOffsetMin n).isSome = true ∨
          (inp.fullCandidate inp.ridgeOffsetMax n).isSome = true)) ∧
    (rec.solution = "Full Courses" →
      ∃ n rafterResults, inp.solve = some (.full n rafterResults) ∧
        rec.totalCourses = n ∧ inp.minCourses ≤ n ∧ n ≤ inp.maxCourses ∧
        (inp.fullCandidate inp.ridgeOffsetMin n = some rafterResults ∨
          (inp.fullCandidate inp.ridgeOffsetMin n = none ∧
            inp.fullCandidate inp.ridgeOffsetMax n = some rafterResults)) ∧
        ∀ j, inp.minCourses ≤ j → j < n →
          inp.fullCandidate inp.ridgeOffsetMin j = none ∧
          inp.fullCandidate inp.ridgeOffsetMax j = none) := by
  have _ := hmin
  have _ := hmax
  obtain ⟨hv, s, first, rest, _, hs, hbuild⟩ := calculateVertical_ok inp rec hrec
  obtain ⟨_, hname, _⟩ := inp.buildRecord_fields first s rec hbuild
  have htotal := inp.buildRecord_totalCourses first s rec hbuild
  have hfwd : rec.solution = "Full Courses" →
      ∃ n rafterResults, inp.solve = some (.full n rafterResults) ∧
        rec.totalCourses = n ∧ inp.minCourses ≤ n ∧ n ≤ inp.maxCourses ∧
        (inp.fullCandidate inp.ridgeOffsetMin n = some rafterResults ∨
          (inp.fullCandidate inp.ridgeOffsetMin n = none ∧
            inp.fullCandidate inp.ridgeOffsetMax n = some rafterResults)) ∧
        ∀ j, inp.minCourses ≤ j → j < n →
          inp.fullCandidate inp.ridgeOffsetMin j = none ∧
          inp.fullCandidate inp.ridgeOffsetMax j = none := by
    intro htier
    rw [hname] at htier
    obtain ⟨n, rs, rfl⟩ := VerticalInputs.solutionName_full s htier
    obtain ⟨h1, h2, _⟩ := inp.solve_full_vertical n rs hs
    obtain ⟨hc, hj⟩ := inp.solve_full_least_vertical n rs hs
    exact ⟨n, rs, hs, htotal, h1, h2, hc, hj⟩
  refine ⟨rfl, rfl, inp.fullCandidate_iff, ⟨?_, ?_⟩, hfwd⟩
  · intro htier
    obtain ⟨n, rs, _, _, h1, h2, hc, _⟩ := hfwd htier
    refine ⟨n, h1, h2, ?_⟩
    rcases hc with hc | ⟨_, hc⟩
    · left; rw [hc]; rfl
    · right; rw [hc]; rfl
  · rintro ⟨n, h1, h2, hc⟩
    obtain ⟨n', rs', hs'⟩ := inp.solve_full_of_candidate_vertical n h1 h2 hc
    rw [hs] at hs'
    simp only [Option.some.injEq] at hs'
    rw [hname, hs']
    rfl

/-- C18 on scenario C: the range is 8..9 and 8 courses are accepted at the
`ridgeOffsetMin` anchor. -/
theorem calculateVertical_full_courses_iff_witness :
    (scenarioC.minGauge ≠ 0 ∧ scenarioC.maxGauge ≠ 0) ∧
    (scenarioC.minCourses = 8 ∧ scenarioC.maxCourses = 9) ∧
    scenarioC.fullCandidate scenarioC.ridgeOffsetMin 8 = some [scenarioCRafterResult] ∧
    ∃ n rafterResults, scenarioC.solve = some (.full n rafterResults) ∧
      scenarioCResult.totalCourses = n ∧ scenarioC.minCourses ≤ n ∧
      n ≤ scenarioC.maxCourses ∧
      (scenarioC.fullCandidate scenarioC.ridgeOffsetMin n = some rafterResults ∨
        (scenarioC.fullCandidate scenarioC.ridgeOffsetMin n = none ∧
          scenarioC.fullCandidate scenarioC.ridgeOffsetMax n = some rafterResults)) ∧
      ∀ j, scenarioC.minCourses ≤ j → j < n →
        scenarioC.fullCandidate scenarioC.ridgeOffsetMin j = none ∧
        scenarioC.fullCandidate scenarioC.ridgeOffsetMax j = none :=
  ⟨⟨by decide!, by decide!⟩, ⟨by decide!, by decide!⟩, by decide!,
    (calculateVertical_full_courses_iff scenarioC (by decide!) (by decide!) scenarioCResult
      scenarioC_result).2.2.2.2 (by decide!)⟩

/-! ## The cut-course tier -/

theorem le_foldl_max (xs : List ℚ) : ∀ x : ℚ, x ≤ xs.foldl max x ∧
    (∀ y ∈ xs, y ≤ xs.foldl max x) ∧ (xs.foldl max x = x ∨ xs.foldl max x ∈ xs) := by
  induction xs with
  | nil => intro x; simp
  | cons a rest ih =>
    intro x
    obtain ⟨h1, h2, h3⟩ := ih (max x a)
    simp only [List.foldl_cons]
    refine ⟨le_trans (le_max_left _ _) h1, ?_, ?_⟩
    · intro y hy
      rcases List.mem_cons.mp hy with rfl | hy
      · exact le_trans (le_max_right _ _) h1
      · exact h2 y hy
    · rcases h3 with h3 | h3
      · rcases max_choice x a with hm | hm
        · left; rw [h3, hm]
        · right; rw [h3, hm]; exact List.mem_cons_self _ _
      · right; exact List.mem_cons_of_mem _ h3

/-- The tallest entry of a non-empty list is one of its entries and bounds them. -/
theorem listMax_mem (xs : List ℚ) (h : xs ≠ []) :
    listMax xs ∈ xs ∧ ∀ y ∈ xs, y ≤ listMax xs := by
  cases xs with
  | nil => exact absurd rfl h
  | cons x rest =>
    obtain ⟨h1, h2, h3⟩ := le_foldl_max rest x
    have e : listMax (x :: rest) = rest.foldl max x := rfl
    rw [e]
    refine ⟨?_, ?_⟩
    · rcases h3 with h3 | h3
      · rw [h3]; exact List.mem_cons_self _ _
      · exact List.mem_cons_of_mem _ h3
    · intro y hy
      rcases List.mem_cons.mp hy with rfl | hy
      · exact h1
      · exact h2 y hy

namespace VerticalInputs

theorem solutionName_cut (s : VerticalSolution)
    (h : solutionName s = "Cut Course") : ∃ n rs, s = .cut n rs := by
  cases s with
  | full n rs => exfalso; revert h; simp only [solutionName]; decide
  | split n n1 n2 rs => exfalso; revert h; simp only [solutionName]; decide
  | cut n rs => exact ⟨n, rs, rfl⟩

/-- The first batten of an integer request is an integer. -/
theorem firstBatten_int (inp : VerticalInputs) (g t : ℤ) (hg : inp.gutterOverhang = g)
    (ht : inp.slateTileHeight = t) : ∃ z : ℤ, inp.firstBatten = z := by
  unfold firstBatten
  rw [hg, ht]
  split_ifs
  · exact ⟨t - g + 25, by push_cast; ring⟩
  · exact ⟨t - g - 15, by push_cast; ring⟩
  · exact ⟨t - g - 25, by push_cast; ring⟩

theorem ridgeOffsetMin_int (inp : VerticalInputs) : ∃ z : ℤ, inp.ridgeOffsetMin = z := by
  unfold ridgeOffsetMin
  split_ifs
  · exact ⟨40, by norm_num⟩
  · exact ⟨25, by norm_num⟩

/-- The remainder of the tallest rafter after the full courses lies in
`[0, maxGauge)`. -/
theorem cut_remainder_bounds (inp : VerticalInputs) (hpos : 0 < inp.maxGauge) :
    0 ≤ inp.maxRafterHeight - inp.firstBatten - inp.ridgeOffsetMin
        - (inp.fullCourses : ℚ) * inp.maxGauge ∧
    inp.maxRafterHeight - inp.firstBatten - inp.ridgeOffsetMin
        - (inp.fullCourses : ℚ) * inp.maxGauge < inp.maxGauge := by
  have h1 : ((inp.fullCourses : ℤ) : ℚ)
      ≤ (inp.maxRafterHeight - inp.firstBatten - inp.ridgeOffsetMin) / inp.maxGauge :=
    Int.floor_le _
  have h2 : (inp.maxRafterHeight - inp.firstBatten - inp.ridgeOffsetMin) / inp.maxGauge
      < ((inp.fullCourses : ℤ) : ℚ) + 1 := Int.lt_floor_add_one _
  rw [le_div_iff₀ hpos] at h1
  rw [div_lt_iff₀ hpos] at h2
  constructor <;> linarith

end VerticalInputs

/-- C19: when `calculateVertical` ends in "Cut Course" on a request with integer
rafter heights, gutter overhang, tile height and `maxGauge > 0` (and a non-zero
`minGauge`):
`fullCourses = floor((maxRafter - firstBatten - ridgeOffsetMin) / maxGauge)`,
"Total Courses" is `fullCourses + 1`, each rafter's cut course is
`height - firstBatten - ridgeOffsetMin - fullCourses * maxGauge`, unclamped,
each effective ridge offset is `ridgeOffsetMin`, and the cut course of the
tallest rafter lies in `[0, maxGauge)`. -/
theorem calculateVertical_cut_course (inp : VerticalInputs) (g t b : ℤ)
    (hheights : ∀ h ∈ inp.rafterHeights, ∃ z : ℤ, h = z)
    (hg : inp.gutterOverhang = g) (ht : inp.slateTileHeight = t)
    (hb : inp.maxGauge = b) (hpos : 0 < inp.maxGauge) (hmin : inp.minGauge ≠ 0)
    (rec : VerticalResult) (hrec : calculateVertical inp = .ok rec)
    (htier : rec.solution = "Cut Course") :
    (inp.fullCourses
      = ⌊(inp.maxRafterHeight - inp.firstBatten - inp.ridgeOffsetMin) / inp.maxGauge⌋) ∧
    rec.totalCourses = inp.fullCourses + 1 ∧
    (inp.maxRafterHeight ∈ inp.rafterHeights ∧
      ∀ h ∈ inp.rafterHeights, h ≤ inp.maxRafterHeight) ∧
    ∃ rafterResults, inp.solve = some (.cut (inp.fullCourses + 1) rafterResults) ∧
      List.Forall₂ (fun height (r : CutRafterResult) =>
        r.cutCourseGauge = height - inp.firstBatten - inp.ridgeOffsetMin
          - (inp.fullCourses : ℚ) * inp.maxGauge ∧
        r.fullCourses = inp.fullCourses ∧
        r.effectiveRidgeOffset = inp.ridgeOffsetMin ∧
        (height = inp.maxRafterHeight →
          0 ≤ r.cutCourseGauge ∧ r.cutCourseGauge < inp.maxGauge))
        inp.rafterHeights rafterResults := by
  have _ := hmin
  obtain ⟨hv, s, first, rest, hw, hs, hbuild⟩ := calculateVertical_ok inp rec hrec
  obtain ⟨_, hname, _⟩ := inp.buildRecord_fields first s rec hbuild
  have htotal := inp.buildRecord_totalCourses first s rec hbuild
  rw [hname] at htier
  obtain ⟨n, rs, rfl⟩ := VerticalInputs.solutionName_cut s htier
  obtain ⟨hn, hrs⟩ := inp.solve_cut_vertical n rs hs
  subst hn hrs
  have hne : inp.rafterHeights ≠ [] := by rw [hw]; exact List.cons_ne_nil _ _
  refine ⟨rfl, htotal, listMax_mem inp.rafterHeights hne, _, hs, ?_⟩
  rw [List.forall₂_map_right_iff, List.forall₂_same]
  intro height hmem
  obtain ⟨zh, hzh⟩ := hheights height hmem
  obtain ⟨zf, hzf⟩ := inp.firstBatten_int g t hg ht
  obtain ⟨zr, hzr⟩ := inp.ridgeOffsetMin_int
  have hround : jsRound (height - inp.firstBatten - inp.ridgeOffsetMin
      - (inp.fullCourses : ℚ) * inp.maxGauge)
      = height - inp.firstBatten - inp.ridgeOffsetMin
        - (inp.fullCourses : ℚ) * inp.maxGauge := by
    have e : height - inp.firstBatten - inp.ridgeOffsetMin
        - (inp.fullCourses : ℚ) * inp.maxGauge
        = ((zh - zf - zr - inp.fullCourses * b : ℤ) : ℚ) := by
      rw [hzh, hzf, hzr, hb]
      push_cast
      ring
    rw [e, jsRound_intCast]
  have hcut : (inp.cutRafter height).cutCourseGauge
      = height - inp.firstBatten - inp.ridgeOffsetMin
        - (inp.fullCourses : ℚ) * inp.maxGauge := by
    simp only [VerticalInputs.cutRafter]
    exact hround
  refine ⟨hcut, rfl, ?_, ?_⟩
  · simp only [VerticalInputs.cutRafter]
    rw [hround]
    ring
  · intro hmax
    rw [hcut, hmax]
    exact inp.cut_remainder_bounds hpos

/-- C19 on the 2324 mm rafter with `maxGauge = 350`: 5 full courses, 6 courses in
total, cut course `2324 - 200 - 25 - 5 * 350 = 349` in `[0, 350)`, ridge
offset 25. -/
theorem calculateVertical_cut_course_witness :
    ((∀ h ∈ cutCourseRequest.rafterHeights, ∃ z : ℤ, h = z) ∧
      cutCourseRequest.gutterOverhang = ((50 : ℤ) : ℚ) ∧
      cutCourseRequest.slateTileHeight = ((265 : ℤ) : ℚ) ∧
      cutCourseRequest.maxGauge = ((350 : ℤ) : ℚ) ∧ 0 < cutCourseRequest.maxGauge ∧
      cutCourseRequest.minGauge ≠ 0) ∧
    calculateVertical cutCourseRequest = .ok cutCourseResult ∧
    cutCourseRequest.fullCourses = 5 ∧ cutCourseResult.totalCourses = 5 + 1 ∧
    cutCourseRequest.solve = some (.cut 6
      [{ cutCourseGauge := 349, fullCourses := 5, effectiveRidgeOffset := 25 }]) := by
  have hh : ∀ h ∈ cutCourseRequest.rafterHeights, ∃ z : ℤ, h = z := by
    intro h hm
    have hm' : h ∈ [(2324 : ℚ)] := hm
    rw [List.mem_singleton] at hm'
    exact ⟨2324, by rw [hm']; norm_num⟩
  have hrec : calculateVertical cutCourseRequest = .ok cutCourseResult :=
    except_eq_ok_of_decide _ _ (by decide!)
  have hfc : cutCourseRequest.fullCourses = 5 := by decide!
  obtain ⟨_, htot, _, rs, hs, _⟩ := calculateVertical_cut_course cutCourseRequest 50 265 350
    hh (by decide!) (by decide!) (by decide!) (by decide!) (by decide!) cutCourseResult hrec
    (by decide!)
  rw [hfc] at htot
  exact ⟨⟨hh, by decide!, by decide!, by decide!, by decide!, by decide!⟩, hrec, hfc, htot,
    by decide!⟩


/-! ## The warnings of calculateVertical -/

theorem forall₂_exists_left {α β : Type} {R : α → β → Prop} {l1 : List α} {l2 : List β}
    (h : List.Forall₂ R l1 l2) : ∀ b ∈ l2, ∃ a ∈ l1, R a b := by
  induction h with
  | nil => intro b hb; cases hb
  | cons hab _ ih =>
    intro b hb
    rcases List.mem_cons.mp hb with rfl | hb
    · exact ⟨_, List.mem_cons_self _ _, hab⟩
    · obtain ⟨a, ha, hr⟩ := ih b hb
      exact ⟨a, List.mem_cons_of_mem _ ha, hr⟩

namespace VerticalInputs

/-- No tolerance message is produced when every recomputed total is the rafter
height. -/
theorem totalWarningsFrom_eq_nil {ρ : Type} (f : ρ → ℚ) (heights : List ℚ) (results : List ρ)
    (h : List.Forall₂ (fun height r => f r = height) heights results) :
    ∀ index, totalWarningsFrom f index heights results = [] := by
  induction h with
  | nil => intro index; simp [totalWarningsFrom]
  | cons hab _ ih =>
    intro index
    unfold totalWarningsFrom
    simp only
    rw [hab, if_neg]
    · exact ih (index + 1)
    · simp [tolerance]

/-- In every solution of the cascade the total recomputed in step 8 is the rafter
height itself. -/
theorem solve_totals (inp : VerticalInputs) (s : VerticalSolution) (h : inp.solve = some s) :
    match s with
    | .full n rs =>
      List.Forall₂ (fun height r => inp.computedTotalFull n r = height) inp.rafterHeights rs
    | .split _ n1 n2 rs =>
      List.Forall₂ (fun height r => inp.computedTotalSplit n1 n2 r = height)
        inp.rafterHeights rs
    | .cut _ rs =>
      List.Forall₂ (fun height r => inp.computedTotalCut r = height) inp.rafterHeights rs := by
  cases s with
  | full n rs =>
    obtain ⟨_, _, anchor, _, hc⟩ := inp.solve_full_vertical n rs h
    exact (inp.fullCandidate_some_vertical anchor n rs hc).1.imp
      (fun height r hfr => inp.fullRafter_total anchor n height r hfr)
  | split n n1 n2 rs =>
    obtain ⟨_, _, _, _, _, hrs, _⟩ := inp.solve_split_vertical n n1 n2 rs h
    subst hrs
    simp only
    rw [List.forall₂_map_right_iff, List.forall₂_same]
    exact fun height _ => inp.splitRafter_total n1 n2 height
  | cut n rs =>
    obtain ⟨_, hrs⟩ := inp.solve_cut_vertical n rs h
    subst hrs
    simp only
    rw [List.forall₂_map_right_iff, List.forall₂_same]
    exact fun height _ => inp.cutRafter_total height

theorem solve_totalWarnings (inp : VerticalInputs) (s : VerticalSolution)
    (h : inp.solve = some s) : inp.totalWarnings s = [] := by
  have ht := inp.solve_totals s h
  cases s with
  | full n rs => exact totalWarningsFrom_eq_nil _ _ _ ht 0
  | split n n1 n2 rs => exact totalWarningsFrom_eq_nil _ _ _ ht 0
  | cut n rs => exact totalWarningsFrom_eq_nil _ _ _ ht 0

/-- With integer gauge bounds no accepted full or split gauge is below `minGauge`. -/
theorem solve_gauges_ge (inp : VerticalInputs) (a b : ℤ) (ha : inp.minGauge = a)
    (hb : inp.maxGauge = b) (hab : a ≤ b) (s : VerticalSolution) (h : inp.solve = some s) :
    match s with
    | .full _ rs => ∀ r ∈ rs, inp.minGauge ≤ r.battenGauge
    | .split _ _ _ rs => ∀ r ∈ rs, inp.minGauge ≤ r.gauge1 ∧ inp.minGauge ≤ r.gauge2
    | .cut _ _ => True := by
  cases s with
  | full n rs =>
    obtain ⟨_, _, anchor, _, hc⟩ := inp.solve_full_vertical n rs h
    intro r hr
    obtain ⟨height, _, hfr⟩ :=
      forall₂_exists_left (inp.fullCandidate_some_vertical anchor n rs hc).1 r hr
    exact (inp.fullRafter_gauge_mem anchor n height r a b ha hb hab hfr).1
  | split n n1 n2 rs =>
    obtain ⟨_, _, _, _, _, hrs, _⟩ := inp.solve_split_vertical n n1 n2 rs h
    intro r hr
    rw [hrs] at hr
    obtain ⟨height, _, rfl⟩ := List.mem_map.mp hr
    simp only [splitRafter]
    rw [ha, hb]
    exact ⟨(clampRound_mem _ a b hab).1, (clampRound_mem _ a b hab).1⟩
  | cut n rs => trivial

end VerticalInputs

/-- C23: on a request with integer gauges `0 < minGauge ≤ maxGauge`, the record
`calculateVertical` returns has a "Warning" exactly when the tier is
"Cut Course" and some rafter's rounded cut course is below 75, and the
warning is then the below-threshold advisory alone: in the full and split
tiers no gauge is below `minGauge`, and in every tier the total recomputed in
step 8 is the rafter height, so no "Computed total ... differs" message is
produced. -/
theorem calculateVertical_warning_iff (inp : VerticalInputs) (a b : ℤ)
    (ha : inp.minGauge = a) (hb : inp.maxGauge = b) (hpos : 0 < a) (hab : a ≤ b)
    (rec : VerticalResult) (hrec : calculateVertical inp = .ok rec) :
    ∃ s, inp.solve = some s ∧ rec.solution = VerticalInputs.solutionName s ∧
      inp.totalWarnings s = [] ∧
      (match s with
        | .full n rs =>
          (∀ r ∈ rs, inp.minGauge ≤ r.battenGauge) ∧
          List.Forall₂ (fun height r => inp.computedTotalFull n r = height)
            inp.rafterHeights rs
        | .split _ n1 n2 rs =>
          (∀ r ∈ rs, inp.minGauge ≤ r.gauge1 ∧ inp.minGauge ≤ r.gauge2) ∧
          List.Forall₂ (fun height r => inp.computedTotalSplit n1 n2 r = height)
            inp.rafterHeights rs
        | .cut _ rs =>
          List.Forall₂ (fun height r => inp.computedTotalCut r = height)
            inp.rafterHeights rs) ∧
      ((∃ ws, rec.warning = some ws) ↔
        (rec.solution = "Cut Course" ∧
          ∃ n rs, s = .cut n rs ∧ ∃ r ∈ rs, r.cutCourseGauge < 75)) ∧
      (∀ ws, rec.warning = some ws → ws = [VerticalWarning.belowThreshold]) := by
  have _ := hpos
  obtain ⟨_, s, first, rest, _, hs, hbuild⟩ := calculateVertical_ok inp rec hrec
  obtain ⟨_, hname, _, _, _, hw⟩ := inp.buildRecord_fields first s rec hbuild
  have htw := inp.solve_totalWarnings s hs
  have htot := inp.solve_totals s hs
  have hge := inp.solve_gauges_ge a b ha hb hab s hs
  have hwarn : inp.warnings s
      = if inp.hasInvalidGauge s then [VerticalWarning.belowThreshold] else [] := by
    unfold VerticalInputs.warnings
    rw [htw, List.append_nil]
  have hinv : inp.hasInvalidGauge s = true ↔
      (rec.solution = "Cut Course" ∧
        ∃ n rs, s = .cut n rs ∧ ∃ r ∈ rs, r.cutCourseGauge < 75) := by
    cases s with
    | full n rs =>
      constructor
      · intro h
        simp only [VerticalInputs.hasInvalidGauge, List.any_eq_true, decide_eq_true_eq] at h
        obtain ⟨r, hr, hlt⟩ := h
        have := hge r hr
        linarith
      · rintro ⟨_, n', rs', heq, _⟩
        cases heq
    | split n n1 n2 rs =>
      constructor
      · intro h
        simp only [VerticalInputs.hasInvalidGauge, List.any_eq_true, Bool.or_eq_true,
          decide_eq_true_eq] at h
        obtain ⟨r, hr, hlt⟩ := h
        have := hge r hr
        rcases hlt with hlt | hlt <;> linarith [this.1, this.2]
      · rintro ⟨_, n', rs', heq, _⟩
        cases heq
    | cut n rs =>
      constructor
      · intro h
        simp only [VerticalInputs.hasInvalidGauge, List.any_eq_true, decide_eq_true_eq] at h
        exact ⟨hname, n, rs, rfl, h⟩
      · rintro ⟨_, n', rs', heq, hex⟩
        cases heq
        simp only [VerticalInputs.hasInvalidGauge, List.any_eq_true, decide_eq_true_eq]
        exact hex
  refine ⟨s, hs, hname, htw, ?_, ?_, ?_⟩
  · cases s with
    | full n rs => exact ⟨hge, htot⟩
    | split n n1 n2 rs => exact ⟨hge, htot⟩
    | cut n rs => exact htot
  · rw [← hinv, hw, hwarn]
    by_cases hi : inp.hasInvalidGauge s = true
    · simp [hi]
    · simp [hi]
  · intro ws hws
    rw [hw, hwarn] at hws
    by_cases hi : inp.hasInvalidGauge s = true
    · simp [hi] at hws
      exact hws.symm
    · simp [hi] at hws

/-- C23 on the 620 mm rafter, whose cut course 50 is below 75 and whose record has
the advisory alone as "Warning", and on scenario C, whose record has none. -/
theorem calculateVertical_warning_iff_witness :
    (lowCutCourse.minGauge = ((280 : ℤ) : ℚ) ∧ lowCutCourse.maxGauge = ((345 : ℤ) : ℚ)) ∧
    (∃ rec, calculateVertical lowCutCourse = .ok rec ∧
      rec.warning = some [VerticalWarning.belowThreshold]) ∧
    (calculateVertical scenarioC = .ok scenarioCResult ∧ scenarioCResult.warning = none) := by
  refine ⟨⟨by decide!, by decide!⟩, ?_, scenarioC_result, rfl⟩
  obtain ⟨_, rec, _, hrec, _⟩ := calculateVertical_of_valid lowCutCourse (by decide!)
  obtain ⟨s, hs, hname, _, _, hiff, hall⟩ := calculateVertical_warning_iff lowCutCourse 280 345
    (by decide!) (by decide!) (by decide) (by decide) rec hrec
  have hsolve : lowCutCourse.solve = some (.cut 2
      [{ cutCourseGauge := 50, fullCourses := 1, effectiveRidgeOffset := 25 }]) := by decide!
  rw [hsolve] at hs
  cases hs
  obtain ⟨ws, hws⟩ := hiff.mpr ⟨hname, 2, _, rfl, _, List.mem_singleton_self _, by decide!⟩
  exact ⟨rec, hrec, by rw [hws, hall ws hws]⟩

/-! ## The overhang test and the tiers after the full tier -/

theorem foldl_max_map_mono (f : ℚ → ℚ) (hf : Monotone f) (rest : List ℚ) :
    ∀ x : ℚ, (rest.map f).foldl max (f x) = f (rest.foldl max x) := by
  induction rest with
  | nil => intro x; rfl
  | cons a rest ih =>
    intro x
    simp only [List.map_cons, List.foldl_cons]
    rw [← hf.map_max]
    exact ih (max x a)

/-- Shifting every entry of a non-empty list shifts its maximum. -/
theorem listMax_map_mono (f : ℚ → ℚ) (hf : Monotone f) (xs : List ℚ) (h : xs ≠ []) :
    listMax (xs.map f) = f (listMax xs) := by
  cases xs with
  | nil => exact absurd rfl h
  | cons x rest => exact foldl_max_map_mono f hf rest x

namespace HorizontalInputs

/-- The widest desired total width is the widest width plus the base overhangs less
the width reduction. -/
theorem maxDesiredTotalWidth_eq (inp : HorizontalInputs) (h : inp.widths ≠ []) :
    inp.maxDesiredTotalWidth
      = listMax inp.widths + inp.overhangLeft + inp.overhangRight - inp.widthReduction := by
  unfold maxDesiredTotalWidth desiredTotalWidths
  exact listMax_map_mono
    (fun width => width + inp.overhangLeft + inp.overhangRight - inp.widthReduction)
    (fun x y hxy => by simp only; linarith) inp.widths h

/-- The per-width result of the split tier is never `null`. -/
theorem splitWidth_isSome (inp : HorizontalInputs) (tilesWide n1 n2 : ℤ) (desired : ℚ) :
    (inp.splitWidth tilesWide n1 n2 desired).isSome = true := by
  obtain ⟨r, hr, _⟩ := inp.splitWidth_eq tilesWide n1 n2 desired
  rw [hr]
  rfl

/-- The per-width result of the full tier is never `null`. -/
theorem fullWidth_isSome (inp : HorizontalInputs) (tilesWide : ℤ) (desired : ℚ) :
    (inp.fullWidth tilesWide desired).isSome = true := by
  rw [inp.fullWidth_eq tilesWide desired]
  rfl

end HorizontalInputs

theorem calculateHorizontal_even_sets_iff_spacing (inp : HorizontalInputs)
    (rec : HorizontalResult) (hrec : calculateHorizontal inp = .ok rec) :
    rec.solution = "Even Sets" ↔
      ∃ k, inp.minTileCount ≤ k ∧ k ≤ inp.maxTileCount ∧ 0 < inp.regularTiles k ∧
        inp.minSpacing ≤ inp.fullSpacing k ∧ inp.fullSpacing k ≤ inp.maxSpacing := by
  obtain ⟨hv, tw, s, first, rest, _, hs, hbuild⟩ := calculateHorizontal_ok inp rec hrec
  obtain ⟨_, hname⟩ := inp.buildRecord_solution first s rec hbuild
  constructor
  · intro htier
    rw [hname] at htier
    obtain ⟨rs, rfl⟩ := HorizontalInputs.solutionName_even_sets s htier
    obtain ⟨h1, h2, hc⟩ := inp.solve_full_horizontal tw rs hs
    obtain ⟨h3, h4, h5⟩ := (inp.fullCandidate_isSome_iff tw).mp (by rw [hc]; rfl)
    exact ⟨tw, h1, h2, h3, h4, h5⟩
  · rintro ⟨k, h1, h2, h3, h4, h5⟩
    obtain ⟨tw', rs', hs'⟩ := inp.solve_full_of_candidate_horizontal k h1 h2
      ((inp.fullCandidate_isSome_iff k).mpr ⟨h3, h4, h5⟩)
    rw [hs] at hs'
    simp only [Prod.mk.injEq, Option.some.injEq] at hs'
    rw [hname, hs'.2]
    rfl

/-- C21: in the full and split tiers of `calculateHorizontal` the overhang-bound
rejection is unreachable.  For every candidate and every width the clamped and
rounded overhang of a non-abutment side lies in `[minOverhang, maxOverhang]`,
the test of lines 86-87 is false and the per-width result is never `null`.
Hence "Even Sets" is returned exactly when some tile count in
`[minTileCount, maxTileCount]` (with a regular tile, so that its spacing is
computed) has its spacing in `[minSpacing, maxSpacing]`; and a batch with the
same widest width returns "Even Sets" on the same condition, whatever its
other widths.  (Cover width plus either spacing bound non-zero.) -/
theorem calculateHorizontal_overhang_rejection_unreachable (inp : HorizontalInputs)
    (hmin : inp.tileCoverWidth + inp.minSpacing ≠ 0)
    (hmax : inp.tileCoverWidth + inp.maxSpacing ≠ 0) :
    (∀ desiredTotalWidth tiledWidth : ℚ,
      (¬ (inp.abutmentSide = "LEFT" ∨ inp.abutmentSide = "BOTH") →
        inp.minOverhang ≤ inp.newOverhangLeft desiredTotalWidth tiledWidth ∧
        inp.newOverhangLeft desiredTotalWidth tiledWidth ≤ inp.maxOverhang) ∧
      (¬ (inp.abutmentSide = "RIGHT" ∨ inp.abutmentSide = "BOTH") →
        inp.minOverhang ≤ inp.newOverhangRight desiredTotalWidth tiledWidth ∧
        inp.newOverhangRight desiredTotalWidth tiledWidth ≤ inp.maxOverhang) ∧
      inp.overhangOutOfBounds (inp.newOverhangLeft desiredTotalWidth tiledWidth)
        (inp.newOverhangRight desiredTotalWidth tiledWidth) = false) ∧
    (∀ (tileCount : ℤ) (desiredTotalWidth : ℚ),
      (inp.fullWidth tileCount desiredTotalWidth).isSome = true) ∧
    (∀ (tilesWide n1 n2 : ℤ) (desiredTotalWidth : ℚ),
      (inp.splitWidth tilesWide n1 n2 desiredTotalWidth).isSome = true) ∧
    (∀ rec, calculateHorizontal inp = .ok rec →
      (rec.solution = "Even Sets" ↔
        ∃ k, inp.minTileCount ≤ k ∧ k ≤ inp.maxTileCount ∧ 0 < inp.regularTiles k ∧
          inp.minSpacing ≤ inp.fullSpacing k ∧ inp.fullSpacing k ≤ inp.maxSpacing)) ∧
    (∀ (widths' : List ℚ) (rec rec' : HorizontalResult),
      listMax widths' = listMax inp.widths →
      calculateHorizontal inp = .ok rec →
      calculateHorizontal { inp with widths := widths' } = .ok rec' →
      (rec'.solution = "Even Sets" ↔ rec.solution = "Even Sets")) := by
  have _ := hmin
  have _ := hmax
  refine ⟨?_, inp.fullWidth_isSome, inp.splitWidth_isSome,
    calculateHorizontal_even_sets_iff_spacing inp, ?_⟩
  · intro desired tiled
    refine ⟨?_, ?_, inp.overhangOutOfBounds_new desired tiled⟩
    · intro h
      unfold HorizontalInputs.newOverhangLeft
      rw [if_neg h]
      exact inp.overhang_clampRound_mem _
    · intro h
      unfold HorizontalInputs.newOverhangRight
      rw [if_neg h]
      exact inp.overhang_clampRound_mem _
  · intro widths' rec rec' hmaxw hrec hrec'
    obtain ⟨hv, _⟩ := calculateHorizontal_ok inp rec hrec
    obtain ⟨hv', _⟩ := calculateHorizontal_ok _ rec' hrec'
    have hne : inp.widths ≠ [] := fun h => hv (Or.inl h)
    have hne' : widths' ≠ [] := fun h => hv' (Or.inl h)
    have hdes : ({ inp with widths := widths' } : HorizontalInputs).maxDesiredTotalWidth
        = inp.maxDesiredTotalWidth := by
      rw [HorizontalInputs.maxDesiredTotalWidth_eq _ hne',
        HorizontalInputs.maxDesiredTotalWidth_eq inp hne]
      show listMax widths' + inp.overhangLeft + inp.overhangRight - inp.widthReduction
        = listMax inp.widths + inp.overhangLeft + inp.overhangRight - inp.widthReduction
      rw [hmaxw]
    have hrem : ({ inp with widths := widths' } : HorizontalInputs).remainingWidth
        = inp.remainingWidth := by
      unfold HorizontalInputs.remainingWidth
      rw [hdes]
      rfl
    have e1 : ({ inp with widths := widths' } : HorizontalInputs).minTileCount
        = inp.minTileCount := by
      unfold HorizontalInputs.minTileCount
      rw [hrem]
      rfl
    have e2 : ({ inp with widths := widths' } : HorizontalInputs).maxTileCount
        = inp.maxTileCount := by
      unfold HorizontalInputs.maxTileCount
      rw [hrem]
      rfl
    have e3 : ∀ k, ({ inp with widths := widths' } : HorizontalInputs).fullSpacing k
        = inp.fullSpacing k := by
      intro k
      unfold HorizontalInputs.fullSpacing HorizontalInputs.roundedCoverWidth
      rw [hrem]
      rfl
    rw [calculateHorizontal_even_sets_iff_spacing _ rec' hrec',
      calculateHorizontal_even_sets_iff_spacing inp rec hrec, e1, e2]
    constructor
    · rintro ⟨k, h1, h2, h3, h4, h5⟩
      rw [e3 k] at h4 h5
      exact ⟨k, h1, h2, h3, h4, h5⟩
    · rintro ⟨k, h1, h2, h3, h4, h5⟩
      refine ⟨k, h1, h2, h3, ?_, ?_⟩
      · rw [e3 k]; exact h4
      · rw [e3 k]; exact h5

/-- C21 on the batch `[3000, 2000]`: the 2000 mm width is not rejected at tile
count 10 although its overhangs are clamped, and the batch returns
"Even Sets" as scenario A does. -/
theorem calculateHorizontal_overhang_rejection_unreachable_witness :
    (twoWidths.tileCoverWidth + twoWidths.minSpacing ≠ 0 ∧
      twoWidths.tileCoverWidth + twoWidths.maxSpacing ≠ 0) ∧
    (twoWidths.fullWidth 10 2100).isSome = true ∧
    (∃ rec, calculateHorizontal twoWidths = .ok rec ∧ rec.solution = "Even Sets") ∧
    ∃ k, twoWidths.minTileCount ≤ k ∧ k ≤ twoWidths.maxTileCount ∧
      0 < twoWidths.regularTiles k ∧ twoWidths.minSpacing ≤ twoWidths.fullSpacing k ∧
      twoWidths.fullSpacing k ≤ twoWidths.maxSpacing := by
  have h := calculateHorizontal_overhang_rejection_unreachable twoWidths (by decide!)
    (by decide!)
  obtain ⟨_, rec, _, hrec, hname, _⟩ := calculateHorizontal_of_valid twoWidths (by decide!)
  have htier : rec.solution = "Even Sets" := by
    have hs : twoWidths.solve.2 = some (.full
        [{ totalWidth := 3100, overhangLeft := 50, overhangRight := 50, firstMark := 620,
           secondMark := none, totalSets := 3, adjustedMarks := 930, actualSpacing := 10 },
         { totalWidth := 2100, overhangLeft := 75, overhangRight := 75, firstMark := 645,
           secondMark := none, totalSets := 3, adjustedMarks := 930,
           actualSpacing := 10 }]) := by decide!
    obtain ⟨_, tw, s, first, rest, _, hs', hbuild⟩ := calculateHorizontal_ok twoWidths rec hrec
    rw [hs'] at hs
    simp only [Option.some.injEq] at hs
    rw [(twoWidths.buildRecord_solution first s rec hbuild).2, hs]
    rfl
  exact ⟨⟨by decide!, by decide!⟩, h.2.1 10 2100, ⟨rec, hrec, htier⟩,
    (h.2.2.2.1 rec hrec).mp htier⟩

namespace HorizontalInputs

/-- The first group of a split at `n1 = 1` holds no complete set. -/
theorem floor_one_div_setSize (inp : HorizontalInputs) :
    ⌊((1 : ℤ) : ℚ) / inp.setSize⌋ = 0 := by
  unfold setSize
  split_ifs
  · rw [Int.floor_eq_iff]; norm_num
  · rw [Int.floor_eq_iff]; norm_num

/-- With at most two tiles the split loop has no iteration. -/
theorem splitTier_of_le_two (inp : HorizontalInputs) (tilesWide : ℤ) (h : tilesWide ≤ 2) :
    inp.splitTier tilesWide = none := by
  unfold splitTier
  have : (tilesWide - 2).toNat = 0 := by omega
  rw [this]
  rfl

/-- The `tilesWide` left by a full tier that fails: the last count of the range. -/
theorem fullTier_none_tilesWide (inp : HorizontalInputs) (tw : ℤ)
    (h : inp.fullTier = (tw, none)) :
    tw = if inp.minTileCount ≤ inp.maxTileCount then inp.maxTileCount else 0 := by
  unfold fullTier at h
  obtain ⟨_, h2⟩ := inp.fullLoop_none_horizontal _ _ _ _ h
  rw [h2]
  split_ifs with h3 h4 h4
  · omega
  · rfl
  · omega
  · omega

end HorizontalInputs

/-- C22: when the full tier of `calculateHorizontal` fails, the outcome is decided
by the last tried tile count `tilesWide` (the end of the range, or 0 for an
empty range).  With `tilesWide ≥ 3` the result is "Split Sets" at the split
point `n1 = 1`, `n2 = tilesWide - 2`, every `sets1` is `floor(1 / setSize) = 0`
and "Split Marks" reads 0 sets; with `tilesWide ≤ 2` the result is
"Cut Course".  (Cover width plus either spacing bound non-zero.) -/
theorem calculateHorizontal_after_full_tier (inp : HorizontalInputs)
    (hmin : inp.tileCoverWidth + inp.minSpacing ≠ 0)
    (hmax : inp.tileCoverWidth + inp.maxSpacing ≠ 0)
    (rec : HorizontalResult) (hrec : calculateHorizontal inp = .ok rec)
    (hfail : rec.solution ≠ "Even Sets") :
    ∃ tilesWide, inp.fullTier = (tilesWide, none) ∧
      (tilesWide = if inp.minTileCount ≤ inp.maxTileCount then inp.maxTileCount else 0) ∧
      (3 ≤ tilesWide →
        rec.solution = "Split Sets" ∧
        ∃ widthResults, inp.solve = (tilesWide, some (.split widthResults)) ∧
          inp.splitCandidate tilesWide 1 = some widthResults ∧
          List.Forall₂ (fun width (r : SplitWidthResult) =>
            inp.splitWidth tilesWide 1 (tilesWide - 2)
              (width + inp.overhangLeft + inp.overhangRight - inp.widthReduction) = some r ∧
            r.sets1 = 0) inp.widths widthResults ∧
          ∃ marks, rec.splitMarks = some (0, inp.setSize, marks)) ∧
      (tilesWide ≤ 2 →
        rec.solution = "Cut Course" ∧
        inp.solve = (tilesWide, some (.cut (inp.cutTier tilesWide)))) ∧
      (rec.solution = "Split Sets" ↔ 3 ≤ tilesWide) ∧
      (rec.solution = "Cut Course" ↔ tilesWide ≤ 2) := by
  have _ := hmin
  have _ := hmax
  obtain ⟨_, tw, s, first, rest, hw, hs, hbuild⟩ := calculateHorizontal_ok inp rec hrec
  obtain ⟨_, hname⟩ := inp.buildRecord_solution first s rec hbuild
  have hne1 : ("Split Sets" : String) ≠ "Cut Course" := by decide
  rcases inp.solve_cases_horizontal with ⟨tw1, rs1, _, hs1⟩ | ⟨tw1, rs1, hf, hsp, hs1⟩ |
    ⟨tw1, hf, hsp, hs1⟩
  · rw [hs] at hs1
    simp only [Prod.mk.injEq, Option.some.injEq] at hs1
    exfalso
    apply hfail
    rw [hname, hs1.2]
    rfl
  · rw [hs] at hs1
    simp only [Prod.mk.injEq, Option.some.injEq] at hs1
    obtain ⟨e1, e2⟩ := hs1
    subst e1 e2
    have hthree : 3 ≤ tw := by
      by_contra hlt
      rw [inp.splitTier_of_le_two tw (by omega)] at hsp
      cases hsp
    obtain ⟨rs', hrs', hcand⟩ := inp.splitTier_isSome_of_three tw hthree
    rw [hsp] at hrs'
    simp only [Option.some.injEq] at hrs'
    subst hrs'
    have hsplit : rec.solution = "Split Sets" := by rw [hname]; rfl
    obtain ⟨_, hall⟩ := inp.splitCandidate_some_horizontal tw 1 rs1 hcand
    have hn2 : tw - 1 - 1 = tw - 2 := by ring
    rw [hn2] at hall
    have hall' : List.Forall₂ (fun width (r : SplitWidthResult) =>
        inp.splitWidth tw 1 (tw - 2)
          (width + inp.overhangLeft + inp.overhangRight - inp.widthReduction) = some r ∧
        r.sets1 = 0) inp.widths rs1 := by
      refine hall.imp ?_
      intro width r hwr
      refine ⟨hwr, ?_⟩
      unfold HorizontalInputs.splitWidth at hwr
      simp only [HorizontalInputs.overhangOutOfBounds_new] at hwr
      simp only [Bool.false_eq_true, if_false, Option.some.injEq] at hwr
      rw [← hwr]
      exact inp.floor_one_div_setSize
    refine ⟨tw, hf, inp.fullTier_none_tilesWide tw hf, ?_, ?_, ?_, ?_⟩
    · intro _
      refine ⟨hsplit, rs1, hs, hcand, hall', ?_⟩
      cases rs1 with
      | nil => simp [HorizontalInputs.buildRecord] at hbuild
      | cons a rest1 =>
        have ha : a.sets1 = 0 := by
          rw [hw] at hall'
          exact (List.forall₂_cons.mp hall').1.2
        simp only [HorizontalInputs.buildRecord, Except.ok.injEq] at hbuild
        rw [← hbuild]
        exact ⟨a.adjustedMarks1, by simp only [ha]⟩
    · intro hle
      omega
    · exact ⟨fun _ => hthree, fun _ => hsplit⟩
    · constructor
      · intro hcut
        rw [hsplit] at hcut
        exact absurd hcut hne1
      · intro hle
        omega
  · rw [hs] at hs1
    simp only [Prod.mk.injEq, Option.some.injEq] at hs1
    obtain ⟨e1, e2⟩ := hs1
    subst e1 e2
    have htwo : tw ≤ 2 := inp.splitTier_none tw hsp
    have hcut : rec.solution = "Cut Course" := by rw [hname]; rfl
    refine ⟨tw, hf, inp.fullTier_none_tilesWide tw hf, ?_, ?_, ?_, ?_⟩
    · intro h3
      omega
    · intro _
      exact ⟨hcut, hs⟩
    · constructor
      · intro hsplit
        rw [hcut] at hsplit
        exact absurd hsplit.symm hne1
      · intro h3
        omega
    · exact ⟨fun _ => htwo, fun _ => hcut⟩

/-- C22 on the 3050 mm width with spacing 10..12, whose full tier fails with ten
tiles: "Split Sets" with "Split Marks" of 0 sets; and on the 600 mm width,
whose full tier fails with two tiles: "Cut Course". -/
theorem calculateHorizontal_after_full_tier_witness :
    (splitSets.tileCoverWidth + splitSets.minSpacing ≠ 0 ∧
      splitSets.tileCoverWidth + splitSets.maxSpacing ≠ 0 ∧
      calculateHorizontal splitSets = .ok splitSetsResult ∧
      splitSetsResult.solution ≠ "Even Sets") ∧
    splitSets.fullTier = (10, none) ∧
    (splitSetsResult.solution = "Split Sets" ∧
      ∃ marks, splitSetsResult.splitMarks = some (0, splitSets.setSize, marks)) ∧
    smallCutTile.fullTier = (2, none) ∧
    ∃ rec, calculateHorizontal smallCutTile = .ok rec ∧ rec.solution = "Cut Course" := by
  have hrec : calculateHorizontal splitSets = .ok splitSetsResult := by with_unfolding_all rfl
  have hf : splitSets.fullTier = (10, none) := by decide!
  have hf2 : smallCutTile.fullTier = (2, none) := by decide!
  obtain ⟨tw, htw, _, h3, _⟩ := calculateHorizontal_after_full_tier splitSets (by decide!)
    (by decide!) splitSetsResult hrec (by decide!)
  rw [hf] at htw
  simp only [Prod.mk.injEq, and_true] at htw
  subst htw
  obtain ⟨hsplit, _, _, _, _, hmarks⟩ := h3 (by decide)
  have hrec2 : calculateHorizontal smallCutTile = .ok
      { width := 600, solution := "Cut Course", newWidth := 700, lhOverhang := some 50,
        rhOverhang := some 50, cutTile := some 90, firstMark := 620, secondMark := none,
        marks := (0, 3, 930), splitMarks := none } := by with_unfolding_all rfl
  obtain ⟨tw2, htw2, _, _, h2, _⟩ := calculateHorizontal_after_full_tier smallCutTile
    (by decide!) (by decide!) _ hrec2 (by decide!)
  rw [hf2] at htw2
  simp only [Prod.mk.injEq, and_true] at htw2
  subst htw2
  exact ⟨⟨by decide!, by decide!, hrec, by decide!⟩, hf, ⟨hsplit, hmarks⟩, hf2,
    _, hrec2, (h2 (by decide)).1⟩


/-! ## Rounding to binary64 -/

theorem bitLength_spec (fuel n : ℕ) (h : n ≤ fuel) :
    (n ≠ 0 → 2 ^ bitLength fuel n ≤ n) ∧ n < 2 ^ (bitLength fuel n + 1) := by
  induction fuel generalizing n with
  | zero =>
    have : n = 0 := by omega
    subst this
    exact ⟨fun h0 => absurd rfl h0, by simp [bitLength]⟩
  | succ fuel ih =>
    unfold bitLength
    split_ifs with h2
    · obtain ⟨ih1, ih2⟩ := ih (n / 2) (by omega)
      have ih1 := ih1 (by omega)
      constructor
      · intro _
        rw [pow_succ]
        omega
      · rw [pow_succ]
        omega
    · constructor
      · intro h0
        simp only [pow_zero]
        omega
      · simp only [zero_add, pow_one]
        omega

theorem abs_eq_natAbs_div_den (x : ℚ) : |x| = (x.num.natAbs : ℚ) / (x.den : ℚ) := by
  conv_lhs => rw [← Rat.num_div_den x]
  rw [abs_div, Nat.abs_cast, Nat.cast_natAbs, Int.cast_abs]

/-- The exponent `binade x` brackets a non-zero `x` between two powers of 2. -/
theorem binade_spec (x : ℚ) (hx : x ≠ 0) :
    (2 : ℚ) ^ binade x ≤ |x| ∧ |x| < (2 : ℚ) ^ (binade x + 1) := by
  have hnum : x.num.natAbs ≠ 0 := by
    intro h
    exact hx (Rat.zero_of_num_zero (Int.natAbs_eq_zero.mp h))
  obtain ⟨hp1, hp2⟩ := bitLength_spec x.num.natAbs x.num.natAbs le_rfl
  have hp1 := hp1 hnum
  obtain ⟨hq1, hq2⟩ := bitLength_spec x.den x.den le_rfl
  have hq1 := hq1 x.den_nz
  have hden : (0 : ℚ) < (x.den : ℚ) := by exact_mod_cast x.den_pos
  have habs := abs_eq_natAbs_div_den x
  have hp1q : (2 : ℚ) ^ bitLength x.num.natAbs x.num.natAbs ≤ (x.num.natAbs : ℚ) := by
    exact_mod_cast hp1
  have hp2q : (x.num.natAbs : ℚ) < (2 : ℚ) ^ (bitLength x.num.natAbs x.num.natAbs + 1) := by
    exact_mod_cast hp2
  have hq1q : (2 : ℚ) ^ bitLength x.den x.den ≤ (x.den : ℚ) := by exact_mod_cast hq1
  have hq2q : (x.den : ℚ) < (2 : ℚ) ^ (bitLength x.den x.den + 1) := by exact_mod_cast hq2
  have h2 : (2 : ℚ) ≠ 0 := by norm_num
  have hpowq : (0 : ℚ) < (2 : ℚ) ^ bitLength x.den x.den := by positivity
  unfold binade
  simp only
  split_ifs with hle
  · refine ⟨hle, ?_⟩
    rw [habs, div_lt_iff₀ hden]
    have e : (2 : ℚ) ^ ((bitLength x.num.natAbs x.num.natAbs : ℤ)
        - (bitLength x.den x.den : ℤ) + 1)
        = (2 : ℚ) ^ (bitLength x.num.natAbs x.num.natAbs + 1)
          / (2 : ℚ) ^ bitLength x.den x.den := by
      rw [show ((bitLength x.num.natAbs x.num.natAbs : ℤ) - (bitLength x.den x.den : ℤ) + 1)
        = ((bitLength x.num.natAbs x.num.natAbs + 1 : ℕ) : ℤ) - (bitLength x.den x.den : ℤ) by
          push_cast; ring]
      rw [zpow_sub₀ h2, zpow_natCast, zpow_natCast]
    rw [e, div_mul_eq_mul_div, lt_div_iff₀ hpowq]
    calc (x.num.natAbs : ℚ) * (2 : ℚ) ^ bitLength x.den x.den
        ≤ (x.num.natAbs : ℚ) * (x.den : ℚ) :=
          mul_le_mul_of_nonneg_left hq1q (by positivity)
      _ < (2 : ℚ) ^ (bitLength x.num.natAbs x.num.natAbs + 1) * (x.den : ℚ) :=
          mul_lt_mul_of_pos_right hp2q hden
  · refine ⟨?_, ?_⟩
    · rw [habs, le_div_iff₀ hden]
      have e : (2 : ℚ) ^ ((bitLength x.num.natAbs x.num.natAbs : ℤ)
          - (bitLength x.den x.den : ℤ) - 1)
          = (2 : ℚ) ^ bitLength x.num.natAbs x.num.natAbs
            / (2 : ℚ) ^ (bitLength x.den x.den + 1) := by
        rw [show ((bitLength x.num.natAbs x.num.natAbs : ℤ) - (bitLength x.den x.den : ℤ) - 1)
          = (bitLength x.num.natAbs x.num.natAbs : ℤ) - ((bitLength x.den x.den + 1 : ℕ) : ℤ) by
            push_cast; ring]
        rw [zpow_sub₀ h2, zpow_natCast, zpow_natCast]
      have hpowq2 : (0 : ℚ) < (2 : ℚ) ^ (bitLength x.den x.den + 1) := by positivity
      rw [e, div_mul_eq_mul_div, div_le_iff₀ hpowq2]
      calc (2 : ℚ) ^ bitLength x.num.natAbs x.num.natAbs * (x.den : ℚ)
          ≤ (x.num.natAbs : ℚ) * (x.den : ℚ) :=
            mul_le_mul_of_nonneg_right hp1q hden.le
        _ ≤ (x.num.natAbs : ℚ) * (2 : ℚ) ^ (bitLength x.den x.den + 1) :=
            mul_le_mul_of_nonneg_left hq2q.le (by positivity)
    · rw [sub_add_cancel]
      exact lt_of_not_le hle

theorem abs_roundHalfEven_sub_le (x : ℚ) : |(roundHalfEven x : ℚ) - x| ≤ 1 / 2 := by
  have h1 := Int.floor_le x
  have h2 := Int.lt_floor_add_one x
  unfold roundHalfEven
  simp only
  rw [abs_le]
  split_ifs with ha hb hc
  · constructor <;> linarith
  · push_cast
    constructor <;> linarith
  · constructor <;> linarith
  · push_cast
    constructor <;> linarith

/-- The relative error of one rounding to binary64 is at most `2 ^ -53`. -/
theorem abs_toDouble_sub_le (x : ℚ) : |toDouble x - x| ≤ |x| / 2 ^ 53 := by
  unfold toDouble
  split_ifs with hx
  · subst hx
    simp
  · simp only
    have hulp : (0 : ℚ) < (2 : ℚ) ^ (binade x - 52) := by positivity
    have hr := abs_roundHalfEven_sub_le (x / (2 : ℚ) ^ (binade x - 52))
    have e : (roundHalfEven (x / (2 : ℚ) ^ (binade x - 52)) : ℚ) * (2 : ℚ) ^ (binade x - 52) - x
        = ((roundHalfEven (x / (2 : ℚ) ^ (binade x - 52)) : ℚ) - x / (2 : ℚ) ^ (binade x - 52))
          * (2 : ℚ) ^ (binade x - 52) := by
      field_simp
    rw [e, abs_mul, abs_of_pos hulp]
    have hb := (binade_spec x hx).1
    have e2 : (2 : ℚ) ^ (binade x - 52) = (2 : ℚ) ^ binade x / 2 ^ 52 := by
      rw [zpow_sub₀ (by norm_num : (2 : ℚ) ≠ 0)]
      norm_num
    calc |(roundHalfEven (x / (2 : ℚ) ^ (binade x - 52)) : ℚ) - x / (2 : ℚ) ^ (binade x - 52)|
          * (2 : ℚ) ^ (binade x - 52)
        ≤ 1 / 2 * (2 : ℚ) ^ (binade x - 52) := mul_le_mul_of_nonneg_right hr hulp.le
      _ = (2 : ℚ) ^ binade x / 2 ^ 53 := by rw [e2]; ring
      _ ≤ |x| / 2 ^ 53 := div_le_div_of_nonneg_right hb (by positivity)

theorem roundHalfEven_intCast (z : ℤ) : roundHalfEven (z : ℚ) = z := by
  unfold roundHalfEven
  simp

/-- An integer below `2 ^ 53` in magnitude is a binary64 number: rounding leaves it
unchanged. -/
theorem toDouble_intCast (z : ℤ) (hz : |z| < 2 ^ 53) : toDouble (z : ℚ) = z := by
  unfold toDouble
  split_ifs with h0
  · exact h0.symm
  · simp only
    obtain ⟨hlo, _⟩ := binade_spec (z : ℚ) h0
    have hzq : |(z : ℚ)| < (2 : ℚ) ^ (53 : ℤ) := by
      have : ((|z| : ℤ) : ℚ) < ((2 ^ 53 : ℤ) : ℚ) := by exact_mod_cast hz
      rw [Int.cast_abs] at this
      norm_num at this ⊢
      exact this
    have he : binade (z : ℚ) < 53 := by
      by_contra hge
      have : (2 : ℚ) ^ (53 : ℤ) ≤ (2 : ℚ) ^ binade (z : ℚ) :=
        zpow_le_zpow_right₀ (by norm_num) (by omega)
      linarith
    obtain ⟨k, hk⟩ : ∃ k : ℕ, binade (z : ℚ) - 52 = -(k : ℤ) :=
      ⟨(52 - binade (z : ℚ)).toNat, by omega⟩
    rw [hk, zpow_neg, zpow_natCast]
    have hpow : ((2 : ℚ) ^ k) ≠ 0 := by positivity
    have e : (z : ℚ) / ((2 : ℚ) ^ k)⁻¹ = ((z * 2 ^ k : ℤ) : ℚ) := by
      push_cast
      field_simp
    rw [e, roundHalfEven_intCast]
    push_cast
    field_simp

/-! ## The second gauge of the split tier -/

theorem abs_le_abs_add_abs_sub (x y : ℚ) : |x| ≤ |y| + |x - y| := by
  have := abs_sub_abs_le_abs_sub x y
  linarith

/-- Clamping between two bounds does not move two values apart. -/
theorem abs_clamp_sub_clamp_le (x y lo hi : ℚ) :
    |min (max x lo) hi - min (max y lo) hi| ≤ |x - y| := by
  have h1 := abs_min_sub_min_le_max (max x lo) hi (max y lo) hi
  have h2 := abs_max_sub_max_le_abs x y lo
  rw [sub_self, abs_zero, max_eq_left (abs_nonneg (max x lo - max y lo))] at h1
  exact le_trans h1 h2

/-- Rounding a quotient back through its divisor: the error of `toDouble (a / n)`
against `a`, after multiplying by `n`. -/
theorem abs_mul_toDouble_div_sub_le (a : ℚ) (n : ℤ) (hn : 1 ≤ n) :
    |(n : ℚ) * toDouble (a / (n : ℚ)) - a| ≤ |a| / 2 ^ 53 := by
  have hpos : (0 : ℚ) < (n : ℚ) := by exact_mod_cast (by omega : (0 : ℤ) < n)
  have h := abs_toDouble_sub_le (a / (n : ℚ))
  have e : (n : ℚ) * toDouble (a / (n : ℚ)) - a
      = (n : ℚ) * (toDouble (a / (n : ℚ)) - a / (n : ℚ)) := by
    field_simp
    ring
  rw [e, abs_mul, abs_of_pos hpos]
  calc (n : ℚ) * |toDouble (a / (n : ℚ)) - a / (n : ℚ)|
      ≤ (n : ℚ) * (|a / (n : ℚ)| / 2 ^ 53) := mul_le_mul_of_nonneg_left h hpos.le
    _ = |a| / 2 ^ 53 := by
        rw [abs_div, abs_of_pos hpos]
        field_simp
        ring

namespace VerticalInputs

/-- The binary64 `gauge2`, times `n2`, is within a millionth of `maxGauge` while
`maxGauge` and the length left for the first group are below `10 ^ 9`. -/
theorem abs_mul_gauge2_sub_le (inp : VerticalInputs) (n1 n2 : ℤ) (h1 : 1 ≤ n1) (h2 : 1 ≤ n2)
    (rafterHeight : ℚ) (hM : |inp.maxGauge| ≤ 10 ^ 9)
    (hA : |rafterHeight - inp.firstBatten - inp.ridgeOffsetMin - inp.maxGauge| ≤ 10 ^ 9) :
    |(n2 : ℚ) * inp.gauge2 n1 n2 rafterHeight - inp.maxGauge| ≤ 1 / 10 ^ 6 := by
  unfold gauge2 gauge1
  generalize hAdef : rafterHeight - inp.firstBatten - inp.ridgeOffsetMin - inp.maxGauge = A at hA
  generalize hBdef : rafterHeight - inp.firstBatten - inp.ridgeOffsetMin = B at hAdef
  generalize inp.maxGauge = M at hM hAdef
  have f1 := abs_mul_toDouble_div_sub_le A n1 h1
  generalize (n1 : ℚ) * toDouble (A / (n1 : ℚ)) = nq at f1
  have f2 := abs_le_abs_add_abs_sub nq A
  have f3 := abs_toDouble_sub_le nq
  generalize toDouble nq = p at f3
  have f4 := abs_sub_le p nq A
  have f5 : |(B - p) - M| = |p - A| := by
    rw [← hAdef, ← abs_neg]
    congr 1
    ring
  have f6 := abs_le_abs_add_abs_sub (B - p) M
  have f7 := abs_toDouble_sub_le (B - p)
  generalize toDouble (B - p) = r at f7
  have f8 := abs_sub_le r (B - p) M
  have f9 := abs_le_abs_add_abs_sub r M
  have f10 := abs_mul_toDouble_div_sub_le r n2 h2
  generalize (n2 : ℚ) * toDouble (r / (n2 : ℚ)) = ng at f10
  have f11 := abs_sub_le ng r M
  have n1 := abs_nonneg A
  have n2 := abs_nonneg M
  norm_num at f1 f3 f7 f10 hM hA ⊢
  linarith

/-- The binary64 `gauge2` is within `1 / (10 ^ 6 * n2)` of `maxGauge / n2`. -/
theorem abs_gauge2_sub_le (inp : VerticalInputs) (n1 n2 : ℤ) (h1 : 1 ≤ n1) (h2 : 1 ≤ n2)
    (rafterHeight : ℚ) (hM : |inp.maxGauge| ≤ 10 ^ 9)
    (hA : |rafterHeight - inp.firstBatten - inp.ridgeOffsetMin - inp.maxGauge| ≤ 10 ^ 9) :
    |inp.gauge2 n1 n2 rafterHeight - inp.maxGauge / (n2 : ℚ)| ≤ 1 / (10 ^ 6 * (n2 : ℚ)) := by
  have hpos : (0 : ℚ) < (n2 : ℚ) := by exact_mod_cast (by omega : (0 : ℤ) < n2)
  have h := inp.abs_mul_gauge2_sub_le n1 n2 h1 h2 rafterHeight hM hA
  have e : inp.gauge2 n1 n2 rafterHeight - inp.maxGauge / (n2 : ℚ)
      = ((n2 : ℚ) * inp.gauge2 n1 n2 rafterHeight - inp.maxGauge) / (n2 : ℚ) := by
    rw [sub_div, mul_div_cancel_left₀ _ (ne_of_gt hpos)]
  have e2 : 1 / (10 ^ 6 * (n2 : ℚ)) = 1 / 10 ^ 6 / (n2 : ℚ) := by
    rw [div_div]
  rw [e, e2, abs_div, abs_of_pos hpos]
  exact div_le_div_of_nonneg_right h hpos.le

end VerticalInputs

/-- Rounding after clamping is stable near a fraction `m / n`: a value closer
than `1 / (2 n)` rounds as the fraction does, or one lower when the fraction
is halfway between two integers. -/
theorem clampRound_near_fraction (g : ℚ) (m n lo hi : ℤ) (hn : 1 ≤ n)
    (hclose : |g - (m : ℚ) / (n : ℚ)| < 1 / (2 * (n : ℚ))) :
    (clampRound g lo hi = clampRound ((m : ℚ) / (n : ℚ)) lo hi ∨
      clampRound g lo hi = clampRound ((m : ℚ) / (n : ℚ)) lo hi - 1) ∧
    ((∀ k : ℤ, 2 * m ≠ (2 * k + 1) * n) →
      clampRound g lo hi = clampRound ((m : ℚ) / (n : ℚ)) lo hi) := by
  have hpos : (0 : ℚ) < (n : ℚ) := by exact_mod_cast (by omega : (0 : ℤ) < n)
  have hone : (1 : ℚ) ≤ (n : ℚ) := by exact_mod_cast hn
  have hlip := abs_clamp_sub_clamp_le g ((m : ℚ) / (n : ℚ)) lo hi
  unfold clampRound jsRound
  generalize hc : min (max ((m : ℚ) / (n : ℚ)) (lo : ℚ)) (hi : ℚ) = c at hlip
  generalize min (max g (lo : ℚ)) (hi : ℚ) = c' at hlip
  have hcc : |c' - c| < 1 / (2 * (n : ℚ)) := lt_of_le_of_lt hlip hclose
  obtain ⟨hcc1, hcc2⟩ := abs_lt.mp hcc
  -- the clamped fraction is the fraction or an integer bound
  have hcases : c = (m : ℚ) / (n : ℚ) ∨ ∃ z : ℤ, c = z := by
    rw [← hc]
    rcases min_choice (max ((m : ℚ) / (n : ℚ)) (lo : ℚ)) (hi : ℚ) with h | h
    · rw [h]
      rcases max_choice ((m : ℚ) / (n : ℚ)) (lo : ℚ) with h' | h'
      · exact Or.inl h'
      · exact Or.inr ⟨lo, h'⟩
    · exact Or.inr ⟨hi, h⟩
  obtain ⟨N, hN⟩ : ∃ N : ℤ, (c + 1 / 2) * (2 * (n : ℚ)) = N := by
    rcases hcases with h | ⟨z, h⟩
    · refine ⟨2 * m + n, ?_⟩
      rw [h]
      push_cast
      field_simp
      ring
    · refine ⟨2 * z * n + n, ?_⟩
      rw [h]
      push_cast
      ring
  have hK1 := Int.floor_le (c + 1 / 2)
  have hK2 := Int.lt_floor_add_one (c + 1 / 2)
  generalize ⌊c + 1 / 2⌋ = K at hK1 hK2
  have h2n : (0 : ℚ) < 2 * (n : ℚ) := by linarith
  have ht : 1 / (2 * (n : ℚ)) ≤ 1 / 2 := by
    exact one_div_le_one_div_of_le (by norm_num) (by linarith)
  -- the integer `N` sits strictly inside the step of `K`
  have hNlo : 2 * n * K ≤ N := by
    have : ((2 * n * K : ℤ) : ℚ) ≤ (N : ℚ) := by
      rw [← hN]
      push_cast
      nlinarith
    exact_mod_cast this
  have hNhi : N + 1 ≤ 2 * n * (K + 1) := by
    have : (N : ℚ) < ((2 * n * (K + 1) : ℤ) : ℚ) := by
      rw [← hN]
      push_cast
      nlinarith
    have : N < 2 * n * (K + 1) := by exact_mod_cast this
    omega
  have hup : c + 1 / 2 + 1 / (2 * (n : ℚ)) ≤ (K : ℚ) + 1 := by
    have : (N : ℚ) + 1 ≤ ((2 * n * (K + 1) : ℤ) : ℚ) := by exact_mod_cast hNhi
    rw [← hN] at this
    push_cast at this
    have e : c + 1 / 2 + 1 / (2 * (n : ℚ))
        = ((c + 1 / 2) * (2 * (n : ℚ)) + 1) / (2 * (n : ℚ)) := by
      field_simp
    rw [e, div_le_iff₀ h2n]
    linarith
  have hfloor_lt : c' + 1 / 2 < (K : ℚ) + 1 := by linarith
  have hfloor_ge : (K : ℚ) - 1 ≤ c' + 1 / 2 := by linarith
  constructor
  · by_cases hk : (K : ℚ) ≤ c' + 1 / 2
    · left
      have : ⌊c' + 1 / 2⌋ = K := Int.floor_eq_iff.mpr ⟨hk, hfloor_lt⟩
      rw [this]
    · right
      have : ⌊c' + 1 / 2⌋ = K - 1 := by
        rw [Int.floor_eq_iff]
        push_cast
        exact ⟨hfloor_ge, by linarith⟩
      rw [this]
      push_cast
      ring
  · intro hodd
    have hNne : N ≠ 2 * n * K := by
      intro hNe
      have hcK : c + 1 / 2 = (K : ℚ) := by
        have : (c + 1 / 2) * (2 * (n : ℚ)) = (K : ℚ) * (2 * (n : ℚ)) := by
          rw [hN, hNe]
          push_cast
          ring
        exact mul_right_cancel₀ (ne_of_gt h2n) this
      rcases hcases with h | ⟨z, h⟩
      · apply hodd (K - 1)
        have : (m : ℚ) = ((K : ℚ) - 1 / 2) * (n : ℚ) := by
          rw [← hcK, h]
          field_simp
          ring
        have : ((2 * m : ℤ) : ℚ) = (((2 * (K - 1) + 1) * n : ℤ) : ℚ) := by
          push_cast
          rw [this]
          ring
        exact_mod_cast this
      · rw [h] at hcK
        have : ((2 * z + 1 : ℤ) : ℚ) = ((2 * K : ℤ) : ℚ) := by
          push_cast
          linarith
        have : 2 * z + 1 = 2 * K := by exact_mod_cast this
        omega
    have hNlo' : 2 * n * K + 1 ≤ N := by omega
    have hdown : (K : ℚ) + 1 / (2 * (n : ℚ)) ≤ c + 1 / 2 := by
      have : ((2 * n * K + 1 : ℤ) : ℚ) ≤ (N : ℚ) := by exact_mod_cast hNlo'
      rw [← hN] at this
      push_cast at this
      have e : (K : ℚ) + 1 / (2 * (n : ℚ))
          = ((K : ℚ) * (2 * (n : ℚ)) + 1) / (2 * (n : ℚ)) := by
        field_simp
      rw [e, div_le_iff₀ h2n]
      linarith
    have : ⌊c' + 1 / 2⌋ = K := Int.floor_eq_iff.mpr ⟨by linarith, hfloor_lt⟩
    rw [this]

/-- C24 (amended): in the split tier of `calculateVertical`, for integer gauges, a
candidate `(n, n1)` with `n1 ≥ 1`, `n2 = n - 2 - n1 ≥ 1` and rafters for which
`maxGauge` and the length left for the first group are below `10 ^ 9`: the
expression of `gauge2` is `maxGauge / n2` in exact arithmetic, its binary64
value lies within `1 / (10 ^ 6 * n2)` of `maxGauge / n2`, and the rounded
`gauge2` of every rafter is `round(min(max(maxGauge / n2, minGauge), maxGauge))`
or one less; it is that value for every rafter unless `maxGauge / n2` is
halfway between two integers. -/
theorem calculateVertical_split_gauge2_rounded (inp : VerticalInputs) (n n1 lo hi : ℤ)
    (hlo : inp.minGauge = lo) (hhi : inp.maxGauge = hi) (hbound : |hi| ≤ 10 ^ 9)
    (h1 : 1 ≤ n1) (h2 : 1 ≤ n - 2 - n1)
    (hB : ∀ rafterHeight ∈ inp.rafterHeights,
      |rafterHeight - inp.firstBatten - inp.ridgeOffsetMin - inp.maxGauge| ≤ 10 ^ 9) :
    (∀ rafterHeight ∈ inp.rafterHeights,
      (rafterHeight - inp.firstBatten - inp.ridgeOffsetMin - (n1 : ℚ) *
          ((rafterHeight - inp.firstBatten - inp.ridgeOffsetMin - inp.maxGauge) / (n1 : ℚ)))
        / ((n - 2 - n1 : ℤ) : ℚ) = inp.maxGauge / ((n - 2 - n1 : ℤ) : ℚ) ∧
      |inp.gauge2 n1 (n - 2 - n1) rafterHeight - inp.maxGauge / ((n - 2 - n1 : ℤ) : ℚ)|
        ≤ 1 / (10 ^ 6 * ((n - 2 - n1 : ℤ) : ℚ)) ∧
      ((inp.splitRafter n1 (n - 2 - n1) rafterHeight).gauge2
          = clampRound (inp.maxGauge / ((n - 2 - n1 : ℤ) : ℚ)) inp.minGauge inp.maxGauge ∨
        (inp.splitRafter n1 (n - 2 - n1) rafterHeight).gauge2
          = clampRound (inp.maxGauge / ((n - 2 - n1 : ℤ) : ℚ)) inp.minGauge inp.maxGauge - 1) ∧
      ((∀ k : ℤ, 2 * hi ≠ (2 * k + 1) * (n - 2 - n1)) →
        (inp.splitRafter n1 (n - 2 - n1) rafterHeight).gauge2
          = clampRound (inp.maxGauge / ((n - 2 - n1 : ℤ) : ℚ)) inp.minGauge inp.maxGauge)) ∧
    (∀ s, inp.splitCandidate n n1 = some s →
      ∃ rafterResults, s = .split n n1 (n - 2 - n1) rafterResults ∧
        rafterResults.length = inp.rafterHeights.length ∧
        (∀ r ∈ rafterResults,
          r.gauge2 = clampRound (inp.maxGauge / ((n - 2 - n1 : ℤ) : ℚ))
              inp.minGauge inp.maxGauge ∨
            r.gauge2 = clampRound (inp.maxGauge / ((n - 2 - n1 : ℤ) : ℚ))
              inp.minGauge inp.maxGauge - 1) ∧
        ((∀ k : ℤ, 2 * hi ≠ (2 * k + 1) * (n - 2 - n1)) →
          ∀ r ∈ rafterResults,
            r.gauge2 = clampRound (inp.maxGauge / ((n - 2 - n1 : ℤ) : ℚ))
              inp.minGauge inp.maxGauge)) := by
  have hn1 : (n1 : ℚ) ≠ 0 := by
    have : (0 : ℚ) < (n1 : ℚ) := by exact_mod_cast (by omega : (0 : ℤ) < n1)
    exact ne_of_gt this
  have hn2 : (0 : ℚ) < ((n - 2 - n1 : ℤ) : ℚ) := by
    exact_mod_cast (by omega : (0 : ℤ) < n - 2 - n1)
  have hM : |inp.maxGauge| ≤ 10 ^ 9 := by
    rw [hhi]
    exact_mod_cast hbound
  have hclose : ∀ rafterHeight ∈ inp.rafterHeights,
      |inp.gauge2 n1 (n - 2 - n1) rafterHeight - inp.maxGauge / ((n - 2 - n1 : ℤ) : ℚ)|
        ≤ 1 / (10 ^ 6 * ((n - 2 - n1 : ℤ) : ℚ)) :=
    fun rafterHeight hmem =>
      inp.abs_gauge2_sub_le n1 (n - 2 - n1) h1 h2 rafterHeight hM (hB rafterHeight hmem)
  have hround : ∀ rafterHeight ∈ inp.rafterHeights,
      ((inp.splitRafter n1 (n - 2 - n1) rafterHeight).gauge2
          = clampRound (inp.maxGauge / ((n - 2 - n1 : ℤ) : ℚ)) inp.minGauge inp.maxGauge ∨
        (inp.splitRafter n1 (n - 2 - n1) rafterHeight).gauge2
          = clampRound (inp.maxGauge / ((n - 2 - n1 : ℤ) : ℚ)) inp.minGauge inp.maxGauge - 1) ∧
      ((∀ k : ℤ, 2 * hi ≠ (2 * k + 1) * (n - 2 - n1)) →
        (inp.splitRafter n1 (n - 2 - n1) rafterHeight).gauge2
          = clampRound (inp.maxGauge / ((n - 2 - n1 : ℤ) : ℚ)) inp.minGauge inp.maxGauge) := by
    intro rafterHeight hmem
    have hc := hclose rafterHeight hmem
    have hlt : 1 / (10 ^ 6 * ((n - 2 - n1 : ℤ) : ℚ)) < 1 / (2 * ((n - 2 - n1 : ℤ) : ℚ)) :=
      one_div_lt_one_div_of_lt (by positivity) (by linarith)
    simp only [VerticalInputs.splitRafter]
    rw [hhi] at hc
    rw [hlo, hhi]
    exact clampRound_near_fraction _ hi (n - 2 - n1) lo hi h2 (lt_of_le_of_lt hc hlt)
  refine ⟨fun rafterHeight hmem => ⟨?_, hclose rafterHeight hmem, hround rafterHeight hmem⟩, ?_⟩
  · congr 1
    field_simp
  · intro s hs
    obtain ⟨_, heq, _⟩ := inp.splitCandidate_some_vertical n n1 s hs
    refine ⟨_, heq, by simp, ?_, ?_⟩
    · intro r hr
      obtain ⟨height, hmem, rfl⟩ := List.mem_map.mp hr
      exact (hround height hmem).1
    · intro hodd r hr
      obtain ⟨height, hmem, rfl⟩ := List.mem_map.mp hr
      exact (hround height hmem).2 hodd

/-- C24 fails as stated.  On the rafters 2513, 2650 and 2688 (Plain Tile, gauges
129..271) the split tier is accepted at `n = 17`, `n1 = 13`, `n2 = 2`, where
`maxGauge / n2 = 135.5` rounds to 136.  The binary64 `gauge2` of the 2513 mm
rafter is below 135.5 and rounds to 135; the other two rafters get 136. -/
theorem calculateVertical_split_gauge2_counterexample :
    calculateVertical unevenSplitGauge = .ok unevenSplitGaugeResult ∧
    unevenSplitGauge.solve = some (.split 17 13 (17 - 2 - 13)
      [{ gauge1 := 136, gauge2 := 135, effectiveRidgeOffset := 40 },
       { gauge1 := 146, gauge2 := 136, effectiveRidgeOffset := 45 },
       { gauge1 := 149, gauge2 := 136, effectiveRidgeOffset := 44 }]) ∧
    ((1 : ℤ) ≤ 13 ∧ (1 : ℤ) ≤ 17 - 2 - 13) ∧
    unevenSplitGauge.gauge2 13 (17 - 2 - 13) 2513
      = 1191870604509183 / 8796093022208 ∧
    unevenSplitGauge.gauge2 13 (17 - 2 - 13) 2513
      ≠ unevenSplitGauge.maxGauge / ((17 - 2 - 13 : ℤ) : ℚ) ∧
    unevenSplitGauge.gauge2 13 (17 - 2 - 13) 2650
      = unevenSplitGauge.maxGauge / ((17 - 2 - 13 : ℤ) : ℚ) ∧
    clampRound (unevenSplitGauge.maxGauge / ((17 - 2 - 13 : ℤ) : ℚ))
      unevenSplitGauge.minGauge unevenSplitGauge.maxGauge = 136 ∧
    (unevenSplitGauge.splitRafter 13 (17 - 2 - 13) 2513).gauge2 = 135 ∧
    ¬ (∀ rafterHeight ∈ unevenSplitGauge.rafterHeights,
      (unevenSplitGauge.splitRafter 13 (17 - 2 - 13) rafterHeight).gauge2
        = clampRound (unevenSplitGauge.maxGauge / ((17 - 2 - 13 : ℤ) : ℚ))
          unevenSplitGauge.minGauge unevenSplitGauge.maxGauge) := by
  refine ⟨except_eq_ok_of_decide _ _ (by decide!), by decide!, ⟨by decide, by decide⟩,
    by decide!, by decide!, by decide!, by decide!, by decide!, by decide!⟩

/-- C24 (amended) on the split-gauge request, `n = 8`, `n1 = 5`: `255 / 1` is not
halfway between two integers and the second gauge is 255; and on the three
rafters at `n = 17`, `n1 = 13`, where `271 / 2` is halfway: every second gauge
is 136 or 135. -/
theorem calculateVertical_split_gauge2_rounded_witness :
    (splitGaugeRequest.minGauge = ((200 : ℤ) : ℚ) ∧
      splitGaugeRequest.maxGauge = ((255 : ℤ) : ℚ) ∧ |(255 : ℤ)| ≤ 10 ^ 9 ∧
      (1 : ℤ) ≤ 5 ∧ (1 : ℤ) ≤ 8 - 2 - 5 ∧
      (∀ rafterHeight ∈ splitGaugeRequest.rafterHeights,
        |rafterHeight - splitGaugeRequest.firstBatten - splitGaugeRequest.ridgeOffsetMin
          - splitGaugeRequest.maxGauge| ≤ 10 ^ 9) ∧
      ∀ k : ℤ, 2 * 255 ≠ (2 * k + 1) * (8 - 2 - 5)) ∧
    (splitGaugeRequest.splitRafter 5 (8 - 2 - 5) 2011).gauge2
      = clampRound (splitGaugeRequest.maxGauge / ((8 - 2 - 5 : ℤ) : ℚ))
        splitGaugeRequest.minGauge splitGaugeRequest.maxGauge ∧
    clampRound (splitGaugeRequest.maxGauge / ((8 - 2 - 5 : ℤ) : ℚ))
      splitGaugeRequest.minGauge splitGaugeRequest.maxGauge = 255 ∧
    (∀ rafterHeight ∈ unevenSplitGauge.rafterHeights,
      (unevenSplitGauge.splitRafter 13 (17 - 2 - 13) rafterHeight).gauge2
          = clampRound (unevenSplitGauge.maxGauge / ((17 - 2 - 13 : ℤ) : ℚ))
            unevenSplitGauge.minGauge unevenSplitGauge.maxGauge ∨
        (unevenSplitGauge.splitRafter 13 (17 - 2 - 13) rafterHeight).gauge2
          = clampRound (unevenSplitGauge.maxGauge / ((17 - 2 - 13 : ℤ) : ℚ))
            unevenSplitGauge.minGauge unevenSplitGauge.maxGauge - 1) := by
  have hodd : ∀ k : ℤ, 2 * 255 ≠ (2 * k + 1) * (8 - 2 - 5) := by
    intro k
    omega
  have hb : |(255 : ℤ)| ≤ 10 ^ 9 := by decide
  have hB : ∀ rafterHeight ∈ splitGaugeRequest.rafterHeights,
      |rafterHeight - splitGaugeRequest.firstBatten - splitGaugeRequest.ridgeOffsetMin
        - splitGaugeRequest.maxGauge| ≤ 10 ^ 9 := by decide!
  refine ⟨⟨by decide!, by decide!, hb, by decide, by decide, hB, hodd⟩, ?_, by decide!, ?_⟩
  · exact ((calculateVertical_split_gauge2_rounded splitGaugeRequest 8 5 200 255 (by decide!)
      (by decide!) hb (by decide) (by decide) hB).1 2011 (by decide!)).2.2.2 hodd
  · intro rafterHeight hmem
    exact ((calculateVertical_split_gauge2_rounded unevenSplitGauge 17 13 129 271 (by decide!)
      (by decide!) (by decide) (by decide) (by decide) (by decide!)).1 rafterHeight hmem).2.2.1


end RoofGrid
